import Mathlib

/-!
# SOCI statement engine (`src/soci.cpp`)

A shallow embedding of the statement engine of `src/soci.cpp` together with the
properties of it that the specification states:

* size reconciliation (`Statement::intosSize`, `Statement::usesSize`),
  `Statement::resizeIntos`, the four hook loops, `Statement::execute` and
  `Statement::fetch`;
* `Statement::cleanUp`;
* `Statement::bind(Values &)`;
* the dynamic row (`Row::addProperties`, `Row::findColumn`,
  `Row::getProperties`) and `Statement::describe`;
* the destructor of `RefCountedStatement` and the share counting of
  `OnceTempType` / `PrepareTempType`.

Conventions of the embedding.

* `std::size_t` values are natural numbers.  `int` is the 32-bit two's-complement
  type: `static_cast<int>` is `toInt` (reduction modulo `2^32` into
  `[-2^31, 2^31)`), `static_cast<std::size_t>` of an `int` is `toSizeT`
  (reduction modulo `2^64`).  `unsigned long` is the same 64-bit type as
  `std::size_t`, so `static_cast<unsigned long>` of a size is the identity.
* `throw SOCIError(msg)` is `Except.error msg`; the message text is kept verbatim.
* The objects behind `intos_`, `uses_` and `backEnd_` are external collaborators.
  Every call made to them is appended to a trace; unless a definition says what
  a call throws, calls to them are taken to return normally.  The statement back
  end is a parameter (`StatementBackEnd`) with its own state.
* What `soci.h` declares and `src/soci.cpp` only uses is modelled from the
  specification, in definitions whose comment says so.
-/

namespace SOCI

/-! ## Machine integers -/

/-- `static_cast<int>(x)` for a `std::size_t` value `x`, with a 32-bit `int`. -/
def toInt (x : Nat) : Int :=
  ((x : Int) + 2 ^ 31) % 2 ^ 32 - 2 ^ 31

/-- `static_cast<std::size_t>(n)` for an `int` value `n`, with a 64-bit `std::size_t`. -/
def toSizeT (n : Int) : Nat :=
  (n % 2 ^ 64).toNat

/-- The largest `int`. -/
def INT_MAX : Nat := 2 ^ 31 - 1

/-! ## Errors -/

/-- `SOCIError` carries only its message (`std::runtime_error(msg)`). -/
abbrev SOCIError := String

deriving instance DecidableEq for Except

/-- Message thrown by `intosSize` / `usesSize` when the first object is empty. -/
def zeroSizeMsg : SOCIError := "Vectors of size 0 are not allowed."

/-- Message built in `intosSize` (with `which = "into"`) and `usesSize`
(with `which = "use"`) when object `i` disagrees with object `0`. -/
def sizeMismatchMsg (which : String) (i sizeI size0 : Nat) : SOCIError :=
  "Bind variable size mismatch (" ++ which ++ "[" ++ toString i ++ "] has size "
    ++ toString sizeI ++ ", " ++ which ++ "[0] has size " ++ toString size0

/-- Message thrown by `execute` when both sides are bulk. -/
def bulkConflictMsg : SOCIError :=
  "Bulk insert/update and bulk select not allowed in same query"

/-- Message thrown by `fetch` when the into vectors grew. -/
def increasingSizeMsg : SOCIError :=
  "Increasing the size of the output vector is not supported."

/-! ## Exchange objects -/

/-- The into objects held in `intos_`: `StandardIntoType` (a scalar) or
`VectorIntoType`, whose `size()` is the size its back end reports. -/
inductive IntoType where
  | standard
  | vector (size : Nat)
  deriving DecidableEq, Repr

/-- The use objects held in `uses_`: `StandardUseType` or `VectorUseType`. -/
inductive UseType where
  | standard
  | vector (size : Nat)
  deriving DecidableEq, Repr

/-- Modelled from the spec: `size()` of an into object.  `VectorIntoType::size`
(line 903) returns `backEnd_->size()`; the scalar case is declared in `soci.h`
and is `1` ("`size()` (1 for scalar, element count for vector)"). -/
def IntoType.size : IntoType → Nat
  | .standard => 1
  | .vector n => n

/-- Modelled from the spec: `size()` of a use object.  `VectorUseType::size`
(line 941) returns `backEnd_->size()`; the scalar case is declared in `soci.h`
and is `1`. -/
def UseType.size : UseType → Nat
  | .standard => 1
  | .vector n => n

/-- Modelled from the spec: `resize(sz)` of an into object.
`VectorIntoType::resize` (line 893) forwards to `backEnd_->resize(sz)`, after
which the back end reports size `sz`; only vector variants support `resize`,
the scalar one declared in `soci.h` does nothing. -/
def IntoType.resize (sz : Nat) : IntoType → IntoType
  | .standard => .standard
  | .vector _ => .vector sz

/-! ## Size reconciliation (`intosSize`, lines 360-387; `usesSize`, lines 389-416) -/

/-- The loop `for (i = 0; i != isize; ++i)` shared by `intosSize` and `usesSize`:
`sizes` are the `size()` results of the objects not yet visited, `i` the loop
index and `acc` the local `intosSize` / `usesSize`. -/
def sizeLoop (which : String) : List Nat → Nat → Nat → Except SOCIError Nat
  | [], _, acc => .ok acc
  | sz :: rest, i, acc =>
    if i = 0 then
      if sz = 0 then
        .error zeroSizeMsg
      else
        sizeLoop which rest (i + 1) sz
    else if acc ≠ sz then
      .error (sizeMismatchMsg which i sz acc)
    else
      sizeLoop which rest (i + 1) acc

/-- `Statement::intosSize`. -/
def intosSize (intos : List IntoType) : Except SOCIError Nat :=
  sizeLoop "into" (intos.map IntoType.size) 0 0

/-- `Statement::usesSize`. -/
def usesSize (uses : List UseType) : Except SOCIError Nat :=
  sizeLoop "use" (uses.map UseType.size) 0 0

/-- An error is a size-mismatch error of the `which` list. -/
def IsSizeMismatch (which : String) (e : SOCIError) : Prop :=
  ∃ i sizeI size0, e = sizeMismatchMsg which i sizeI size0

/-! ## The statement and its back end -/

/-- `StatementBackEnd::execFetchResult`. -/
inductive ExecFetchResult where
  | eSuccess
  | eNoData
  deriving DecidableEq, Repr

/-- The part of the statement back end that `execute`, `fetch` and `resizeIntos`
call, over a back-end state `σ`.  `getNumberOfRows` is the value that
`resizeIntos` stores in its `std::size_t rows`. -/
structure StatementBackEnd (σ : Type) where
  execute : σ → Int → ExecFetchResult × σ
  fetch : σ → Int → ExecFetchResult × σ
  getNumberOfRows : σ → Nat

/-- One call made by the statement to an exchange object or to its back end.
The index is the position of the object in `intos_` / `uses_`. -/
inductive Event where
  | intoPreFetch (i : Nat)
  | usePreUse (i : Nat)
  | backEndExecute (number : Int)
  | backEndFetch (number : Int)
  | backEndGetNumberOfRows
  | intoResize (i : Nat) (sz : Nat)
  | intoPostFetch (i : Nat) (gotData calledFromFetch : Bool)
  | usePostUse (i : Nat) (gotData : Bool)
  deriving DecidableEq, Repr

/-- The fields of `Statement` read or written by `execute` and `fetch`, the state
of its back end and the calls made so far. -/
structure Statement (σ : Type) where
  intos : List IntoType
  uses : List UseType
  fetchSize : Nat
  initialFetchSize : Nat
  backEnd : σ
  trace : List Event
  deriving DecidableEq

/-- `Statement::Statement(Session &)` (lines 65-69): `fetchSize_(1)`,
`initialFetchSize_(1)`, no exchange objects yet. -/
def Statement.new {σ : Type} (b : σ) : Statement σ :=
  { intos := [], uses := [], fetchSize := 1, initialFetchSize := 1, backEnd := b, trace := [] }

/-- `Statement::exchange(IntoTypePtr const &)` (lines 152-156). -/
def Statement.exchangeInto {σ : Type} (s : Statement σ) (i : IntoType) : Statement σ :=
  { s with intos := s.intos ++ [i] }

/-- `Statement::exchange(UseTypePtr const &)` (lines 158-162). -/
def Statement.exchangeUse {σ : Type} (s : Statement σ) (u : UseType) : Statement σ :=
  { s with uses := s.uses ++ [u] }

/-- A freshly constructed statement to which the into objects `intos` and then
the use objects `uses` have been handed by `exchange`, in that order. -/
def Statement.init {σ : Type} (b : σ) (intos : List IntoType) (uses : List UseType) :
    Statement σ :=
  uses.foldl Statement.exchangeUse (intos.foldl Statement.exchangeInto (Statement.new b))

/-- Modelled from the spec: the default argument of `resizeIntos`, declared in
`soci.h`; `resizeIntos()` resizes "to the true remaining count", that is with
no upper bound, which `resizeIntos` encodes as `0`. -/
def resizeIntosDefaultUpperBound : Nat := 0

/-- `Statement::resizeIntos` (lines 418-433): returns `rows > 0`. -/
def resizeIntos {σ : Type} (be : StatementBackEnd σ) (s : Statement σ) (upperBound : Nat) :
    Bool × Statement σ :=
  let rows := be.getNumberOfRows s.backEnd
  let rows := if upperBound ≠ 0 ∧ upperBound < rows then upperBound else rows
  (decide (rows > 0),
    { s with
      intos := s.intos.map (IntoType.resize rows)
      trace := s.trace ++ [Event.backEndGetNumberOfRows]
        ++ (List.range s.intos.length).map (fun i => Event.intoResize i rows) })

/-- `Statement::preFetch` (lines 435-442). -/
def preFetch {σ : Type} (s : Statement σ) : Statement σ :=
  { s with trace := s.trace ++ (List.range s.intos.length).map Event.intoPreFetch }

/-- `Statement::preUse` (lines 444-451). -/
def preUse {σ : Type} (s : Statement σ) : Statement σ :=
  { s with trace := s.trace ++ (List.range s.uses.length).map Event.usePreUse }

/-- `Statement::postFetch` (lines 453-461): reverse order. -/
def postFetch {σ : Type} (s : Statement σ) (gotData calledFromFetch : Bool) : Statement σ :=
  { s with
    trace := s.trace ++ (List.range s.intos.length).reverse.map
      (fun i => Event.intoPostFetch i gotData calledFromFetch) }

/-- `Statement::postUse` (lines 463-471): reverse order. -/
def postUse {σ : Type} (s : Statement σ) (gotData : Bool) : Statement σ :=
  { s with
    trace := s.trace ++ (List.range s.uses.length).reverse.map
      (fun i => Event.usePostUse i gotData) }

/-- The local `num` of `execute` when the back end is called (lines 246-262). -/
def executeNum (withDataExchange : Bool) (fetchSize bindSize : Nat) : Int :=
  if withDataExchange then
    let num : Int := 1
    let num := if toInt fetchSize > num then toInt fetchSize else num
    let num := if toInt bindSize > num then toInt bindSize else num
    num
  else
    0

/-- `Statement::execute` (lines 233-297).  The result pairs what the call
returns or throws with the statement as the call leaves it. -/
def execute {σ : Type} (be : StatementBackEnd σ) (s : Statement σ) (withDataExchange : Bool) :
    Except SOCIError Bool × Statement σ :=
  match intosSize s.intos with
  | .error e => (.error e, s)
  | .ok n =>
    let s1 := { s with initialFetchSize := n, fetchSize := n }
    match usesSize s1.uses with
    | .error e => (.error e, s1)
    | .ok bindSize =>
      if bindSize > 1 ∧ s1.fetchSize > 1 then
        (.error bulkConflictMsg, s1)
      else
        let s2 := if withDataExchange then preUse (preFetch s1) else s1
        let num := executeNum withDataExchange s1.fetchSize bindSize
        let r := be.execute s2.backEnd num
        let s3 := { s2 with backEnd := r.2, trace := s2.trace ++ [Event.backEndExecute num] }
        let g : Bool × Statement σ :=
          match r.1 with
          | .eSuccess =>
            if num > 0 then (true, (resizeIntos be s3 (toSizeT num)).2) else (false, s3)
          | .eNoData =>
            if s3.fetchSize > 1 then resizeIntos be s3 resizeIntosDefaultUpperBound
            else (false, s3)
        let s4 := if num > 0 then postUse (postFetch g.2 g.1 false) g.1 else g.2
        (.ok g.1, s4)

/-- `Statement::fetch` (lines 299-358). -/
def fetch {σ : Type} (be : StatementBackEnd σ) (s : Statement σ) :
    Except SOCIError Bool × Statement σ :=
  if s.fetchSize = 0 then
    (.ok false, s)
  else
    match intosSize s.intos with
    | .error e => (.error e, s)
    | .ok newFetchSize =>
      if newFetchSize > s.initialFetchSize then
        (.error increasingSizeMsg, s)
      else if newFetchSize = 0 then
        (.ok false, s)
      else
        let s1 := { s with fetchSize := newFetchSize }
        let r := be.fetch s1.backEnd (toInt s1.fetchSize)
        let s2 := { s1 with
          backEnd := r.2, trace := s1.trace ++ [Event.backEndFetch (toInt s1.fetchSize)] }
        let g : Bool × Statement σ :=
          match r.1 with
          | .eSuccess => (true, (resizeIntos be s2 s2.fetchSize).2)
          | .eNoData =>
            if s2.fetchSize > 1 then
              let g1 := resizeIntos be s2 resizeIntosDefaultUpperBound
              (g1.1, { g1.2 with fetchSize := 0 })
            else
              (false, s2)
        (.ok g.1, postFetch g.2 g.1 true)

/-! ## A model back end: a cursor over a finite rowset -/

/-- State of the model back end: the rows not yet delivered and the number of
rows delivered by the last request. -/
structure Cursor where
  remaining : Nat
  delivered : Nat
  deriving DecidableEq, Repr

/-- A request for `number` rows delivers `min number remaining` rows and reports
no-data exactly when the end of the rowset was reached, that is when fewer rows
than requested were left. -/
def Cursor.request (c : Cursor) (number : Int) : ExecFetchResult × Cursor :=
  let d := min number.toNat c.remaining
  (if c.remaining < number.toNat then .eNoData else .eSuccess,
    { remaining := c.remaining - d, delivered := d })

/-- The cursor as a statement back end: `execute` and `fetch` are both requests
for rows, `getNumberOfRows` is the number delivered by the last one. -/
def cursorBackEnd : StatementBackEnd Cursor :=
  { execute := Cursor.request, fetch := Cursor.request, getNumberOfRows := Cursor.delivered }

/-- A cursor over `R` rows, before any request. -/
def Cursor.over (R : Nat) : Cursor :=
  { remaining := R, delivered := 0 }

/-- A back end that answers every request with `res` and always reports `rows`
rows (as a back end that has buffered the whole result does). -/
def constBackEnd (res : ExecFetchResult) (rows : Nat) : StatementBackEnd Unit :=
  { execute := fun _ _ => (res, ()), fetch := fun _ _ => (res, ()),
    getNumberOfRows := fun _ => rows }

/-! ## The caller's bulk-select loop -/

/-- The size of the into vectors as the caller finds them after a call (all into
objects of a reconciled list have the same size). -/
def batchSize {σ : Type} (s : Statement σ) : Nat :=
  (s.intos.map IntoType.size).headD 0

/-- The caller calls `fetch` until one call reports no data, noting the batch
size after each call that reported data.  `none`: more than `fuel` calls would be
needed; `some (.error e)`: a call raised `e`. -/
def fetchLoop {σ : Type} (be : StatementBackEnd σ) :
    Nat → Statement σ → Option (Except SOCIError (List Nat))
  | 0, _ => none
  | fuel + 1, s =>
    match fetch be s with
    | (.error e, _) => some (.error e)
    | (.ok false, _) => some (.ok [])
    | (.ok true, s1) =>
      (fetchLoop be fuel s1).map (fun r => r.map (fun bs => batchSize s1 :: bs))

/-- The caller runs `execute(true)` and then the fetch loop; the batch of
`execute` is noted when `execute` reported data. -/
def bulkSelect {σ : Type} (be : StatementBackEnd σ) (fuel : Nat) (s : Statement σ) :
    Option (Except SOCIError (List Nat)) :=
  match execute be s true with
  | (.error e, _) => some (.error e)
  | (.ok g, s1) =>
    (fetchLoop be fuel s1).map
      (fun r => r.map (fun bs => if g then batchSize s1 :: bs else bs))

/-- The calls whose order the hook-ordering property speaks of: the four hooks of
the exchange objects and the back-end `execute`. -/
def Event.isHook : Event → Bool
  | .intoPreFetch _ => true
  | .usePreUse _ => true
  | .backEndExecute _ => true
  | .intoPostFetch _ _ _ => true
  | .usePostUse _ _ => true
  | _ => false

/-! ## `Statement::cleanUp` (lines 164-193) and the exchange objects it releases -/

/-- One call or deallocation made by `cleanUp`.  Into objects, use objects,
indicators and the back end are named by the pointer the statement holds; the
back end of an exchange object is named by the pointer in its `backEnd_`. -/
inductive CleanUpEvent where
  | intoCleanUp (p : Nat)
  | intoDelete (p : Nat)
  | useCleanUp (p : Nat)
  | useDelete (p : Nat)
  | indicatorDelete (p : Nat)
  | backEndCleanUp (p : Nat)
  | backEndDelete (p : Nat)
  | exchangeBackEndCleanUp (b : Nat)
  | exchangeBackEndDelete (b : Nat)
  deriving DecidableEq, Repr

/-- The call `backEnd_->cleanUp()` made through a null `backEnd_` by the exchange
object `object`: undefined behaviour, a crash. -/
structure NullDereference where
  object : Nat
  deriving DecidableEq, Repr

/-- An into object held in `intos_`: a `StandardIntoType` or a `VectorIntoType`,
with its `backEnd_` (`none` is `NULL`: `define` has not set it; the constructors
are in `soci.h`). -/
structure IntoObject where
  ptr : Nat
  isVector : Bool
  backEnd : Option Nat
  deriving DecidableEq, Repr

/-- A use object held in `uses_`: a `StandardUseType` or a `VectorUseType`, with
its `backEnd_` (`none` is `NULL`: `bind` has not set it; the constructors are in
`soci.h`). -/
structure UseObject where
  ptr : Nat
  isVector : Bool
  backEnd : Option Nat
  deriving DecidableEq, Repr

/-- `StandardIntoType::cleanUp` (lines 811-818):
`if (backEnd_ != NULL) { backEnd_->cleanUp(); }`. -/
def StandardIntoType.cleanUp (o : IntoObject) : Except NullDereference (List CleanUpEvent) :=
  match o.backEnd with
  | some b => .ok [CleanUpEvent.exchangeBackEndCleanUp b]
  | none => .ok []

/-- `VectorIntoType::cleanUp` (lines 908-914):
`if (backEnd_ != NULL) { backEnd_->cleanUp(); }`. -/
def VectorIntoType.cleanUp (o : IntoObject) : Except NullDereference (List CleanUpEvent) :=
  match o.backEnd with
  | some b => .ok [CleanUpEvent.exchangeBackEndCleanUp b]
  | none => .ok []

/-- `StandardUseType::cleanUp` (lines 852-855): `backEnd_->cleanUp();`, with no
test of `backEnd_`. -/
def StandardUseType.cleanUp (o : UseObject) : Except NullDereference (List CleanUpEvent) :=
  match o.backEnd with
  | some b => .ok [CleanUpEvent.exchangeBackEndCleanUp b]
  | none => .error ⟨o.ptr⟩

/-- `VectorUseType::cleanUp` (lines 946-952):
`if (backEnd_ != NULL) { backEnd_->cleanUp(); }`. -/
def VectorUseType.cleanUp (o : UseObject) : Except NullDereference (List CleanUpEvent) :=
  match o.backEnd with
  | some b => .ok [CleanUpEvent.exchangeBackEndCleanUp b]
  | none => .ok []

/-- The destructors of the four exchange classes (lines 785-788, 820-823,
859-862, 916-919): `delete backEnd_;`.  Deleting a null pointer does nothing and
is not recorded. -/
def deleteExchangeBackEnd (backEnd : Option Nat) : List CleanUpEvent :=
  match backEnd with
  | some b => [CleanUpEvent.exchangeBackEndDelete b]
  | none => []

/-- The body of the loop of lines 167-172 for one into object:
`intos_[i - 1]->cleanUp(); delete intos_[i - 1];`, the first a virtual call. -/
def IntoObject.release (o : IntoObject) : Except NullDereference (List CleanUpEvent) :=
  match (if o.isVector then VectorIntoType.cleanUp o else StandardIntoType.cleanUp o) with
  | .error f => .error f
  | .ok calls =>
    .ok ([CleanUpEvent.intoCleanUp o.ptr] ++ calls
      ++ [CleanUpEvent.intoDelete o.ptr] ++ deleteExchangeBackEnd o.backEnd)

/-- The body of the loop of lines 174-179 for one use object:
`uses_[i - 1]->cleanUp(); delete uses_[i - 1];`, the first a virtual call. -/
def UseObject.release (o : UseObject) : Except NullDereference (List CleanUpEvent) :=
  match (if o.isVector then VectorUseType.cleanUp o else StandardUseType.cleanUp o) with
  | .error f => .error f
  | .ok calls =>
    .ok ([CleanUpEvent.useCleanUp o.ptr] ++ calls
      ++ [CleanUpEvent.useDelete o.ptr] ++ deleteExchangeBackEnd o.backEnd)

/-- What a statement owns: the objects in `intos_` and `uses_`, the slots of
`indicators_` and `backEnd_` (`none` is `NULL`), with the calls made so far. -/
structure OwnedState where
  intos : List IntoObject
  uses : List UseObject
  indicators : List (Option Nat)
  backEnd : Option Nat
  trace : List CleanUpEvent
  deriving DecidableEq, Repr

/-- The loop `for (i = objs.size(); i != 0; --i)` of lines 167-172 and 174-179:
`objs[i - 1]->cleanUp(); delete objs[i - 1]; objs.resize(i - 1);`, with `release`
the first two statements.  Returns the list as the loop leaves it and the calls
made, or the null dereference that ends the run.  (`i` never exceeds the size, so
the last match arm is not reached.) -/
def releaseLoop {α : Type} (release : α → Except NullDereference (List CleanUpEvent)) :
    List α → Nat → Except NullDereference (List α × List CleanUpEvent)
  | objs, 0 => .ok (objs, [])
  | objs, i + 1 =>
    match objs[i]? with
    | some o =>
      match release o with
      | .error f => .error f
      | .ok calls =>
        match releaseLoop release (objs.take i) i with
        | .error f => .error f
        | .ok r => .ok (r.1, calls ++ r.2)
    | none => releaseLoop release objs i

/-- The loop of lines 181-185 over the slots of `indicators_` in increasing
order: `delete indicators_[i]; indicators_[i] = NULL;`.  Deleting a null pointer
does nothing and is not recorded. -/
def deleteIndicators : List (Option Nat) → List (Option Nat) × List CleanUpEvent
  | [] => ([], [])
  | slot :: rest =>
    let r := deleteIndicators rest
    (none :: r.1,
      (match slot with
        | some p => [CleanUpEvent.indicatorDelete p]
        | none => []) ++ r.2)

/-- `Statement::cleanUp`: the state it leaves, or the null dereference that ends
the run. -/
def cleanUp (s : OwnedState) : Except NullDereference OwnedState :=
  match releaseLoop IntoObject.release s.intos s.intos.length with
  | .error f => .error f
  | .ok r1 =>
    match releaseLoop UseObject.release s.uses s.uses.length with
    | .error f => .error f
    | .ok r2 =>
      let r3 := deleteIndicators s.indicators
      let r4 :=
        match s.backEnd with
        | some b => [CleanUpEvent.backEndCleanUp b, CleanUpEvent.backEndDelete b]
        | none => []
      .ok { intos := r1.1, uses := r2.1, indicators := r3.1, backEnd := none,
            trace := s.trace ++ r1.2 ++ r2.2 ++ r3.2 ++ r4 }

/-- No scalar use object of the list has a null `backEnd_`. -/
def ScalarUsesBound (uses : List UseObject) : Prop :=
  ∀ u ∈ uses, u.isVector = false → u.backEnd ≠ none

instance (uses : List UseObject) : Decidable (ScalarUsesBound uses) :=
  inferInstanceAs (Decidable (∀ u ∈ uses, u.isVector = false → u.backEnd ≠ none))

/-! ## `RefCountedStatement::~RefCountedStatement` (lines 594-610) -/

/-- The operations the destructor performs on its statement `st_`. -/
inductive TeardownStep where
  | alloc
  | prepare (query : String)
  | defineAndBind
  | execute (withDataExchange : Bool)
  | cleanUp
  deriving DecidableEq, Repr

/-- What `define` or `bind` of one exchange object does (lines 790-794, 825-836,
864-868, 921-932): `backEnd_ = st.make...BackEnd();` and then
`backEnd_->defineByPos(...)`, `bindByPos(...)` or `bindByName(...)`.  Either call
may throw; when the first throws, `backEnd_` is not assigned. -/
inductive DefineResult where
  | done (handle : Nat)
  | makeThrows (e : SOCIError)
  | bindThrows (handle : Nat) (e : SOCIError)
  deriving DecidableEq, Repr

/-- What the back end does during the teardown: what `alloc`, `prepare` and
`execute` throw (`none`: the call returns normally) and what `define` and `bind`
of the exchange object with a given pointer do. -/
structure TeardownOracle where
  alloc : Option SOCIError
  prepare : String → Option SOCIError
  define : Nat → DefineResult
  bind : Nat → DefineResult
  execute : Bool → Option SOCIError

/-- The first loop of `Statement::defineAndBind` (lines 207-210):
`intos_[i]->define(*this, definePosition)` for increasing `i`, until one throws.
Returns the into objects as the loop leaves them and the exception, if any. -/
def defineLoop (define : Nat → DefineResult) :
    List IntoObject → List IntoObject × Option SOCIError
  | [] => ([], none)
  | o :: rest =>
    match define o.ptr with
    | .done h =>
      let r := defineLoop define rest
      ({ o with backEnd := some h } :: r.1, r.2)
    | .makeThrows e => (o :: rest, some e)
    | .bindThrows h e => ({ o with backEnd := some h } :: rest, some e)

/-- The second loop of `Statement::defineAndBind` (lines 214-217):
`uses_[i]->bind(*this, bindPosition)` for increasing `i`, until one throws. -/
def bindLoop (bind : Nat → DefineResult) :
    List UseObject → List UseObject × Option SOCIError
  | [] => ([], none)
  | o :: rest =>
    match bind o.ptr with
    | .done h =>
      let r := bindLoop bind rest
      ({ o with backEnd := some h } :: r.1, r.2)
    | .makeThrows e => (o :: rest, some e)
    | .bindThrows h e => ({ o with backEnd := some h } :: rest, some e)

/-- `Statement::defineAndBind` (lines 201-218): the state it leaves and the
exception it throws, if any. -/
def defineAndBind (oracle : TeardownOracle) (s : OwnedState) : OwnedState × Option SOCIError :=
  let r1 := defineLoop oracle.define s.intos
  match r1.2 with
  | some e => ({ s with intos := r1.1 }, some e)
  | none =>
    let r2 := bindLoop oracle.bind s.uses
    ({ s with intos := r1.1, uses := r2.1 }, r2.2)

/-- The statements of the `try` block, run in order until one throws: the
operations attempted, the state of `st_` and the exception thrown, if any.
`alloc` (lines 98-101), `prepare` (lines 195-199) and `execute` hand over to the
back end and leave the lists of exchange objects as they are. -/
def runTryBlock (oracle : TeardownOracle) (query : String) (s : OwnedState) :
    List TeardownStep × OwnedState × Option SOCIError :=
  match oracle.alloc with
  | some e => ([TeardownStep.alloc], s, some e)
  | none =>
    match oracle.prepare query with
    | some e => ([TeardownStep.alloc, TeardownStep.prepare query], s, some e)
    | none =>
      let r := defineAndBind oracle s
      match r.2 with
      | some e =>
        ([TeardownStep.alloc, TeardownStep.prepare query, TeardownStep.defineAndBind], r.1,
          some e)
      | none =>
        ([TeardownStep.alloc, TeardownStep.prepare query, TeardownStep.defineAndBind,
          TeardownStep.execute true], r.1, oracle.execute true)

/-- How the destructor ends: it returns, an exception leaves it, or a null
pointer is dereferenced. -/
inductive TeardownResult where
  | completed
  | raised (e : SOCIError)
  | crashed (f : NullDereference)
  deriving DecidableEq, Repr

/-- The statement `st_` of a once-builder before its teardown: built from the
session, so that `backEnd_` is set (lines 65-69), and holding the exchange
objects handed over so far (lines 152-162). -/
def OwnedState.built (backEnd : Nat) (intos : List IntoObject) (uses : List UseObject) :
    OwnedState :=
  { intos := intos, uses := uses, indicators := [], backEnd := some backEnd, trace := [] }

/-- `RefCountedStatement::~RefCountedStatement` for the query text `query`: the
operations performed on `st_`, in order, and how the destructor ends.
`catch (...)` runs `st_.cleanUp()` and rethrows; without an exception
`st_.cleanUp()` runs after the `try` block.  After the body, left by the
rethrown exception or not, the member `st_` (declared in `soci.h`) is destroyed,
and `Statement::~Statement` (lines 93-96) calls `cleanUp()` once more. -/
def destroyRefCountedStatement (query : String) (oracle : TeardownOracle) (s : OwnedState) :
    List TeardownStep × TeardownResult :=
  let r := runTryBlock oracle query s
  match cleanUp r.2.1 with
  | .error f => (r.1 ++ [TeardownStep.cleanUp], TeardownResult.crashed f)
  | .ok s1 =>
    match cleanUp s1 with
    | .error f =>
      (r.1 ++ [TeardownStep.cleanUp, TeardownStep.cleanUp], TeardownResult.crashed f)
    | .ok _ =>
      (r.1 ++ [TeardownStep.cleanUp, TeardownStep.cleanUp],
        match r.2.2 with
        | some e => TeardownResult.raised e
        | none => TeardownResult.completed)

/-! ## The dynamic row (`Row`, lines 714-758) and `Statement::describe` (lines 529-569) -/

/-- Modelled from the spec: `eDataType`, declared in `soci.h`.  The semantic types
that `describe` maps are string, double, integer, unsigned-long and date; any
other enumerator, with its integer value, is `other`. -/
inductive eDataType where
  | eString
  | eDouble
  | eInteger
  | eUnsignedLong
  | eDate
  | other (value : Nat)
  deriving DecidableEq, Repr

/-- `ColumnProperties`: a name and a semantic data type. -/
structure ColumnProperties where
  name : String
  dataType : eDataType
  deriving DecidableEq, Repr

/-- The fields of `Row` used by the lookup functions: `columns_` and the map
`index_` from names to positions. -/
structure Row where
  columns : List ColumnProperties
  index : String → Option Nat

/-- A `Row` as constructed: no column, empty index. -/
def Row.empty : Row :=
  { columns := [], index := fun _ => none }

/-- `Row::addProperties` (lines 714-718): `columns_.push_back(cp);`
`index_[cp.getName()] = columns_.size() - 1;`. -/
def Row.addProperties (r : Row) (cp : ColumnProperties) : Row :=
  let columns := r.columns ++ [cp]
  { columns := columns,
    index := fun name => if name = cp.name then some (columns.length - 1) else r.index name }

/-- Message of the error thrown by `Row::findColumn`. -/
def columnNotFoundMsg (name : String) : SOCIError :=
  "Column '" ++ name ++ "' not found"

/-- `Row::findColumn` (lines 747-758). -/
def Row.findColumn (r : Row) (name : String) : Except SOCIError Nat :=
  match r.index name with
  | none => .error (columnNotFoundMsg name)
  | some pos => .ok pos

/-- `Row::getProperties(std::size_t)` (lines 736-740); `none` when the
precondition `columns_.size() >= pos + 1` is violated. -/
def Row.getPropertiesAt (r : Row) (pos : Nat) : Option ColumnProperties :=
  if r.columns.length ≥ pos + 1 then r.columns[pos]? else none

/-- `Row::getProperties(std::string const &)` (lines 742-745). -/
def Row.getProperties (r : Row) (name : String) : Except SOCIError (Option ColumnProperties) :=
  match r.findColumn name with
  | .error e => .error e
  | .ok pos => .ok (r.getPropertiesAt pos)

/-- The scalar C++ type of a row into-binding. -/
inductive ScalarType where
  | stdString
  | double
  | int
  | unsignedLong
  | stdTm
  deriving DecidableEq, Repr

/-- What `describe` changes: the into-bindings added for the row, in the order
they were added, and the row. -/
structure DescribeState where
  rowIntos : List ScalarType
  row : Row

/-- Modelled from the spec: `Statement::intoRow<T>()`, a template of `soci.h`,
adds one scalar into-binding of type `T` for the dynamic row. -/
def intoRow (ty : ScalarType) (st : DescribeState) : DescribeState :=
  { st with rowIntos := st.rowIntos ++ [ty] }

/-- Message of the error thrown by `describe`; the data type is written as its
integer value and the text ends with `std::endl`. -/
def unsupportedTypeMsg (value : Nat) : SOCIError :=
  "db column type " ++ toString value ++ " not supported for dynamic selects\n"

/-- `Statement::bindInto<eString>` (lines 497-501). -/
def bindIntoString (st : DescribeState) : DescribeState :=
  intoRow ScalarType.stdString st

/-- `Statement::bindInto<eDouble>` (lines 503-507). -/
def bindIntoDouble (st : DescribeState) : DescribeState :=
  intoRow ScalarType.double st

/-- `Statement::bindInto<eInteger>` (lines 509-513). -/
def bindIntoInteger (st : DescribeState) : DescribeState :=
  intoRow ScalarType.int st

/-- `Statement::bindInto<eUnsignedLong>` (lines 515-519). -/
def bindIntoUnsignedLong (st : DescribeState) : DescribeState :=
  intoRow ScalarType.unsignedLong st

/-- `Statement::bindInto<eDate>` (lines 521-525). -/
def bindIntoDate (st : DescribeState) : DescribeState :=
  intoRow ScalarType.stdTm st

/-- The `switch (dtype)` of `describe` (lines 544-566). -/
def describeSwitch (dtype : eDataType) (st : DescribeState) : Except SOCIError DescribeState :=
  match dtype with
  | .eString => .ok (bindIntoString st)
  | .eDouble => .ok (bindIntoDouble st)
  | .eInteger => .ok (bindIntoInteger st)
  | .eUnsignedLong => .ok (bindIntoUnsignedLong st)
  | .eDate => .ok (bindIntoDate st)
  | .other value => .error (unsupportedTypeMsg value)

/-- The loop of `describe` over the columns not yet described, in the order the
back end reports them (`describeColumn(i, ...)` for `i = 1 .. numcols`). -/
def describeLoop :
    List (eDataType × String) → DescribeState → Except SOCIError Unit × DescribeState
  | [], st => (.ok (), st)
  | (dtype, columnName) :: rest, st =>
    let props : ColumnProperties := { name := columnName, dataType := dtype }
    match describeSwitch dtype st with
    | .error e => (.error e, st)
    | .ok st1 => describeLoop rest { st1 with row := st1.row.addProperties props }

/-- `Statement::describe`: `columns` is what the back end reports, `numcols`
being its length. -/
def describe (columns : List (eDataType × String)) (st : DescribeState) :
    Except SOCIError Unit × DescribeState :=
  describeLoop columns st

/-- The scalar type that the specification pairs with each supported semantic
type: string with `std::string`, double with `double`, integer with `int`,
unsigned-long with `unsigned long`, date with `std::tm`. -/
def matchingScalarType : eDataType → Option ScalarType
  | .eString => some .stdString
  | .eDouble => some .double
  | .eInteger => some .int
  | .eUnsignedLong => some .unsignedLong
  | .eDate => some .stdTm
  | .other _ => none

/-- A semantic type is one of string, double, integer, unsigned-long, date. -/
def eDataType.isSupported (d : eDataType) : Bool :=
  (matchingScalarType d).isSome

/-- The row after `addProperties` has been called with the columns `cps`, in
order, on a freshly constructed row. -/
def Row.ofColumns (cps : List ColumnProperties) : Row :=
  cps.foldl Row.addProperties Row.empty

/-! ## `Statement::bind(Values &)` (lines 103-149) -/

/-- `std::string::find` on the characters of the text not yet scanned: the first
position, counted from `pos`, at which `needle` starts. -/
def findFrom (needle : List Char) : List Char → Nat → Option Nat
  | [], pos => if needle.isPrefixOf [] then some pos else none
  | c :: rest, pos =>
    if needle.isPrefixOf (c :: rest) then some pos else findFrom needle rest (pos + 1)

/-- `query_.find(name)`; `none` is `std::string::npos`.  A text is the list of
its characters, one per `char`. -/
def stdFind (query name : String) : Option Nat :=
  findFrom name.data query.data 0

/-- `query_[i]`: the character at `i`, and `'\0'` at `i = query_.size()`. -/
def charAt (query : String) (i : Nat) : Char :=
  query.data.getD i (Char.ofNat 0)

/-- The test of lines 120-121 on `nextChar`. -/
def isBoundary (nextChar : Char) : Bool :=
  nextChar == ' ' || nextChar == ',' || nextChar == Char.ofNat 0 || nextChar == ')'

/-- A use object of a `Values` collection, as `bind` sees it: its name, the
pointer that identifies it, and what its `bind(*this, position)` throws
(`none`: it returns normally). -/
structure StandardUse where
  name : String
  id : Nat
  bindThrows : Option SOCIError
  deriving DecidableEq, Repr

/-- The fields of `Values` used by `bind`: `uses_`, `indicators_` (pointers) and
the pairs handed to `addUnused` so far. -/
structure Values where
  uses : List StandardUse
  indicators : List Nat
  unused : List (StandardUse × Nat)
  deriving DecidableEq, Repr

/-- Modelled from the spec: `Values::addUnused(u, i)`, declared in `soci.h`, sets
the use object aside as unused, with the indicator handed over. -/
def Values.addUnused (v : Values) (u : StandardUse) (ind : Nat) : Values :=
  { v with unused := v.unused ++ [(u, ind)] }

/-- The fields of `Statement` used by `bind`: `query_`, `uses_`, `indicators_`,
and the `bind` calls made on use objects so far, each with its position. -/
structure BindStatement where
  query : String
  uses : List StandardUse
  indicators : List Nat
  bindCalls : List (StandardUse × Int)
  deriving DecidableEq, Repr

/-- How the `try` block ends: it ran to its end, a `bind` call threw, or an
element was read outside the bounds of a vector. -/
inductive TryStatus where
  | done
  | threw (e : SOCIError)
  | outOfBounds
  deriving DecidableEq, Repr

/-- The loop of the `try` block (lines 109-139) over the use objects not yet
visited; `cnt` is the local counter.  Returns how the block ends, the value of
`cnt` then, and the statement and the collection as it leaves them. -/
def bindTry : List StandardUse → Nat → BindStatement → Values →
    TryStatus × Nat × BindStatement × Values
  | [], cnt, st, v => (.done, cnt, st, v)
  | u :: rest, cnt, st, v =>
    let name := ":" ++ u.name
    match stdFind st.query name with
    | some pos =>
      let nextChar := charAt st.query (pos + name.length)
      if isBoundary nextChar then
        let position := toInt st.uses.length
        let st1 := { st with bindCalls := st.bindCalls ++ [(u, position)] }
        match u.bindThrows with
        | some e => (.threw e, cnt, st1, v)
        | none =>
          let st2 := { st1 with uses := st1.uses ++ [u] }
          match v.indicators[cnt]? with
          | some ind => bindTry rest (cnt + 1) { st2 with indicators := st2.indicators ++ [ind] } v
          | none => (.outOfBounds, cnt, st2, v)
      else
        match v.indicators[cnt]? with
        | some ind => bindTry rest (cnt + 1) st (v.addUnused u ind)
        | none => (.outOfBounds, cnt, st, v)
    | none =>
      match v.indicators[cnt]? with
      | some ind => bindTry rest (cnt + 1) st (v.addUnused u ind)
      | none => (.outOfBounds, cnt, st, v)

/-- The loop of the `catch` block (lines 143-146), entered with `i = ++cnt`:
`values.addUnused(uses_[i], values.indicators_[i])` while `i != values.uses_.size()`,
`remaining` being the number of iterations left.  The flag tells whether every
element read was within bounds. -/
def bindCatch (st : BindStatement) : Nat → Nat → Values → Bool × Values
  | 0, _, v => (true, v)
  | remaining + 1, i, v =>
    match st.uses[i]?, v.indicators[i]? with
    | some u, some ind => bindCatch st remaining (i + 1) (v.addUnused u ind)
    | _, _ => (false, v)

/-- How a call of `bind` ends. -/
inductive BindOutcome where
  | returned
  | raised (e : SOCIError)
  | outOfBounds
  deriving DecidableEq, Repr

/-- `Statement::bind(Values &)`. -/
def bind (st : BindStatement) (v : Values) : BindOutcome × BindStatement × Values :=
  match bindTry v.uses 0 st v with
  | (.done, _, st1, v1) => (.returned, st1, v1)
  | (.outOfBounds, _, st1, v1) => (.outOfBounds, st1, v1)
  | (.threw e, cnt, st1, v1) =>
    match bindCatch st1 (v1.uses.length - (cnt + 1)) (cnt + 1) v1 with
    | (true, v2) => (.raised e, st1, v2)
    | (false, v2) => (.outOfBounds, st1, v2)

/-- The decision the loop takes for a use object called `name`: the first
occurrence of `":" + name` in the query text is followed by a boundary
character. -/
def bindsName (query name : String) : Bool :=
  match stdFind query (":" ++ name) with
  | some pos => isBoundary (charAt query (pos + (":" ++ name).length))
  | none => false

/-- The token `":" + name` occurs in the query text at position `pos`. -/
def occursAt (query name : String) (pos : Nat) : Prop :=
  (":" ++ name).data.isPrefixOf (query.data.drop pos) = true ∧ pos ≤ query.data.length

/-- The token `":" + name` occurs somewhere in the query text immediately
followed by a boundary character: space, comma, close-paren, or the end of the
text. -/
def occursBounded (query name : String) : Prop :=
  ∃ pos, occursAt query name pos ∧ isBoundary (charAt query (pos + (":" ++ name).length)) = true

/-- The `bind` calls made on the use objects `bound` when `base` use objects are
already in `uses_`: each gets the position `static_cast<int>(uses_.size())` of
the moment it is bound. -/
def bindCallsFrom : Nat → List StandardUse → List (StandardUse × Int)
  | _, [] => []
  | base, u :: rest => (u, toInt base) :: bindCallsFrom (base + 1) rest

/-! ## Share counting of the deferred builders (`OnceTempType`, lines 640-663;
`PrepareTempType`, lines 677-700) -/

/-- The reference-counted objects (`RefCountedStatement` or
`RefCountedPrepareInfo`) and the builder handles that point to them.
`refCount o` is the counter of object `o`; `handles[h]` is `some o` while handle
`h` is alive with `rcst_` (or `rcpi_`) equal to `o`, and `none` once it has been
destroyed; `teardowns` lists the objects whose destructor has run, in order. -/
structure ShareState where
  refCount : Nat → Int
  nObjects : Nat
  handles : List (Option Nat)
  teardowns : List Nat

/-- Modelled from the spec: `incRef()`, declared in `soci.h`: every copy
increments the shared counter. -/
def incRef (s : ShareState) (o : Nat) : ShareState :=
  { s with refCount := Function.update s.refCount o (s.refCount o + 1) }

/-- Modelled from the spec: `decRef()`, declared in `soci.h`: every destruction
decrements the shared counter and triggers teardown (`delete this`) only at
zero. -/
def decRef (s : ShareState) (o : Nat) : ShareState :=
  let count := s.refCount o - 1
  let s1 := { s with refCount := Function.update s.refCount o count }
  if count = 0 then { s1 with teardowns := s1.teardowns ++ [o] } else s1

/-- What a program does with builder handles. -/
inductive ShareOp where
  | construct
  | copy (src : Nat)
  | assign (dst src : Nat)
  | destroy (h : Nat)
  deriving DecidableEq, Repr

/-- One operation on the handles.  An operation that names a handle which is not
alive cannot be written in a program and leaves the state as it is.

* `construct`: `OnceTempType(Session &)` (lines 640-643): a new object, whose
  counter starts at 1 (modelled from the spec: the builder is its first handle),
  and a new handle to it.
* `copy src`: the copy constructor (lines 645-649): `rcst_(o.rcst_)` then
  `rcst_->incRef()`.
* `assign dst src`: `operator=` (lines 651-658): `o.rcst_->incRef();`
  `rcst_->decRef(); rcst_ = o.rcst_;`.
* `destroy h`: the destructor (lines 660-663): `rcst_->decRef()`. -/
def shareStep (s : ShareState) : ShareOp → ShareState
  | .construct =>
    { refCount := Function.update s.refCount s.nObjects 1,
      nObjects := s.nObjects + 1,
      handles := s.handles ++ [some s.nObjects],
      teardowns := s.teardowns }
  | .copy src =>
    match s.handles[src]? with
    | some (some o) => incRef { s with handles := s.handles ++ [some o] } o
    | _ => s
  | .assign dst src =>
    match s.handles[dst]?, s.handles[src]? with
    | some (some od), some (some os) =>
      let s1 := incRef s os
      let s2 := decRef s1 od
      { s2 with handles := s2.handles.set dst (some os) }
    | _, _ => s
  | .destroy h =>
    match s.handles[h]? with
    | some (some o) =>
      let s1 := decRef s o
      { s1 with handles := s1.handles.set h none }
    | _ => s

/-- No object and no handle. -/
def ShareState.empty : ShareState :=
  { refCount := fun _ => 0, nObjects := 0, handles := [], teardowns := [] }

/-- One freshly constructed builder: object 0 with its handle 0. -/
def ShareState.fresh : ShareState :=
  shareStep ShareState.empty ShareOp.construct

/-- The number of live handles that refer to object `o`. -/
def ShareState.liveHandles (s : ShareState) (o : Nat) : Nat :=
  s.handles.count (some o)

/-- The invariant of share counting: every counter equals the number of live
handles to its object, live handles point to allocated objects, and an object
has been torn down, once, exactly if it is allocated and has no live handle. -/
structure ShareInv (s : ShareState) : Prop where
  count : ∀ o, s.refCount o = (s.liveHandles o : Int)
  alloc : ∀ o, some o ∈ s.handles → o < s.nObjects
  torn : ∀ o, s.teardowns.count o = if o < s.nObjects ∧ s.liveHandles o = 0 then 1 else 0


/-! ## Lemmas on size reconciliation -/

theorem zeroSizeMsg_ne_sizeMismatchMsg (which : String) (i a b : Nat) :
    zeroSizeMsg ≠ sizeMismatchMsg which i a b := by
  intro h
  have h2 := congrArg String.data h
  simp [sizeMismatchMsg, zeroSizeMsg, String.data_append] at h2

/-- After the first iteration the loop either accepts a list all of whose members
equal `acc`, or stops at the first member that differs. -/
theorem sizeLoop_tail (which : String) (acc : Nat) (rest : List Nat) (i : Nat) (hi : i ≠ 0) :
    ((∀ x ∈ rest, x = acc) ∧ sizeLoop which rest i acc = .ok acc) ∨
    (∃ j x, rest[j]? = some x ∧ x ≠ acc ∧ (∀ k, k < j → rest[k]? = some acc) ∧
      sizeLoop which rest i acc = .error (sizeMismatchMsg which (i + j) x acc)) := by
  induction rest generalizing i with
  | nil => left; simp [sizeLoop]
  | cons sz rest ih =>
    by_cases hsz : acc = sz
    · subst hsz
      rcases ih (i + 1) (Nat.succ_ne_zero i) with ⟨hall, hok⟩ | ⟨j, x, hj, hx, hlt, herr⟩
      · left
        refine ⟨by simpa using hall, ?_⟩
        simp [sizeLoop, hi, hok]
      · right
        refine ⟨j + 1, x, by simpa using hj, hx, ?_, ?_⟩
        · intro k hk
          cases k with
          | zero => simp
          | succ k => simpa using hlt k (by omega)
        · simp [sizeLoop, hi, herr]
          congr 1
          omega
    · right
      refine ⟨0, sz, by simp, fun h => hsz h.symm, by simp, ?_⟩
      simp [sizeLoop, hi, hsz]

/-- The four outcomes of the reconciliation loop, on the list of reported sizes. -/
theorem sizeLoop_spec (which : String) (sizes : List Nat) :
    (∀ n, 0 < n → (sizeLoop which sizes 0 0 = .ok n ↔ sizes ≠ [] ∧ ∀ x ∈ sizes, x = n)) ∧
    (sizeLoop which sizes 0 0 = .ok 0 ↔ sizes = []) ∧
    (sizeLoop which sizes 0 0 = .error zeroSizeMsg ↔ ∃ rest, sizes = 0 :: rest) ∧
    ((∃ e, sizeLoop which sizes 0 0 = .error e ∧ IsSizeMismatch which e) ↔
      ∃ a rest, sizes = a :: rest ∧ a ≠ 0 ∧ ∃ x ∈ rest, x ≠ a) := by
  cases sizes with
  | nil =>
    refine ⟨fun n hn => ?_, by simp [sizeLoop], by simp [sizeLoop], by simp [sizeLoop]⟩
    simp [sizeLoop]; omega
  | cons a rest =>
    by_cases ha : a = 0
    · subst ha
      have hz : sizeLoop which (0 :: rest) 0 0 = .error zeroSizeMsg := by simp [sizeLoop]
      refine ⟨fun n hn => ?_, by simp [hz], by simp [hz], ?_⟩
      · simp [hz]; omega
      · simp only [hz, Except.error.injEq]
        constructor
        · rintro ⟨e, rfl, i, x, y, h⟩
          exact absurd h (zeroSizeMsg_ne_sizeMismatchMsg which i x y)
        · rintro ⟨a, rest', h, ha, -⟩
          simp at h
          exact absurd h.1.symm ha
    · have hstep : sizeLoop which (a :: rest) 0 0 = sizeLoop which rest 1 a := by
        simp [sizeLoop, ha]
      rw [hstep]
      rcases sizeLoop_tail which a rest 1 one_ne_zero with
        ⟨hall, hok⟩ | ⟨j, x, hj, hx, hlt, herr⟩
      · rw [hok]
        refine ⟨fun n hn => ?_, ?_, ?_, ?_⟩
        · simp only [Except.ok.injEq, ne_eq, reduceCtorEq, not_false_eq_true, List.mem_cons,
            forall_eq_or_imp, true_and]
          constructor
          · rintro rfl
            exact ⟨rfl, hall⟩
          · rintro ⟨h, -⟩
            exact h
        · simp [ha]
        · simp [ha]
        · simp only [reduceCtorEq, false_and, exists_false, false_iff]
          rintro ⟨a', rest', h, -, x, hxm, hxa⟩
          simp only [List.cons.injEq] at h
          obtain ⟨rfl, rfl⟩ := h
          exact hxa (hall x hxm)
      · rw [herr]
        have hmem : x ∈ rest := List.mem_iff_getElem?.mpr ⟨_, hj⟩
        refine ⟨fun n hn => ?_, ?_, ?_, ?_⟩
        · simp only [reduceCtorEq, ne_eq, not_false_eq_true, List.mem_cons, forall_eq_or_imp,
            true_and, false_iff]
          rintro ⟨rfl, h⟩
          exact hx (h x hmem)
        · simp
        · simp only [Except.error.injEq, List.cons.injEq, exists_eq_right']
          constructor
          · intro h
            exact absurd h.symm (zeroSizeMsg_ne_sizeMismatchMsg which _ _ _)
          · intro h
            exact absurd h ha
        · constructor
          · intro _
            exact ⟨a, rest, rfl, ha, x, hmem, hx⟩
          · intro _
            exact ⟨_, rfl, _, _, _, rfl⟩

/-- The index named by the mismatch error is the least index, from 1 on, whose
size differs from that of member 0. -/
theorem sizeLoop_least (which : String) (sizes : List Nat) (i a x : Nat)
    (h0 : sizes[0]? = some a) (ha : a ≠ 0) (hi : 1 ≤ i) (hx : sizes[i]? = some x)
    (hne : x ≠ a) (hmin : ∀ j y, 1 ≤ j → j < i → sizes[j]? = some y → y = a) :
    sizeLoop which sizes 0 0 = .error (sizeMismatchMsg which i x a) := by
  cases sizes with
  | nil => simp at h0
  | cons a' rest =>
    simp only [List.getElem?_cons_zero, Option.some.injEq] at h0
    subst h0
    have hstep : sizeLoop which (a' :: rest) 0 0 = sizeLoop which rest 1 a' := by
      simp [sizeLoop, ha]
    rw [hstep]
    obtain ⟨i, rfl⟩ : ∃ i', i = i' + 1 := ⟨i - 1, by omega⟩
    simp only [List.getElem?_cons_succ] at hx
    rcases sizeLoop_tail which a' rest 1 one_ne_zero with
      ⟨hall, -⟩ | ⟨j, y, hj, hy, hlt, herr⟩
    · exact absurd (hall x (List.mem_iff_getElem?.mpr ⟨_, hx⟩)) hne
    · have hji : j = i := by
        rcases Nat.lt_trichotomy j i with h | h | h
        · exact absurd (hmin (j + 1) y (by omega) (by omega) (by simpa using hj)) hy
        · exact h
        · have := hlt i h
          rw [hx] at this
          exact absurd (Option.some.inj this) hne
      subst hji
      rw [hx] at hj
      obtain rfl := Option.some.inj hj
      rw [herr, Nat.add_comm]

/-- `sizeLoop_spec` in terms of the objects whose sizes are reconciled. -/
theorem sizeLoop_map_spec {α : Type} (which : String) (f : α → Nat) (l : List α) :
    (∀ n, 0 < n → (sizeLoop which (l.map f) 0 0 = .ok n ↔ l ≠ [] ∧ ∀ o ∈ l, f o = n)) ∧
    (sizeLoop which (l.map f) 0 0 = .ok 0 ↔ l = []) ∧
    (sizeLoop which (l.map f) 0 0 = .error zeroSizeMsg ↔ ∃ o rest, l = o :: rest ∧ f o = 0) ∧
    ((∃ e, sizeLoop which (l.map f) 0 0 = .error e ∧ IsSizeMismatch which e) ↔
      ∃ o rest, l = o :: rest ∧ f o ≠ 0 ∧ ∃ o' ∈ rest, f o' ≠ f o) := by
  obtain ⟨h1, h2, h3, h4⟩ := sizeLoop_spec which (l.map f)
  refine ⟨fun n hn => ?_, ?_, ?_, ?_⟩
  · rw [h1 n hn]
    simp
  · rw [h2]
    simp
  · rw [h3]
    cases l with
    | nil => simp
    | cons o rest => simp
  · rw [h4]
    cases l with
    | nil => simp
    | cons o rest =>
      constructor
      · rintro ⟨a, rest', h, ha, x, hx, hxa⟩
        simp only [List.map_cons, List.cons.injEq] at h
        obtain ⟨rfl, rfl⟩ := h
        obtain ⟨o', ho', rfl⟩ := List.mem_map.mp hx
        exact ⟨o, rest, rfl, ha, o', ho', hxa⟩
      · rintro ⟨o1, rest', h, ha, o', ho', hne⟩
        simp only [List.cons.injEq] at h
        obtain ⟨rfl, rfl⟩ := h
        exact ⟨f o, rest.map f, rfl, ha, f o', List.mem_map.mpr ⟨o', ho', rfl⟩, hne⟩

/-- `sizeLoop_least` in terms of the objects whose sizes are reconciled. -/
theorem sizeLoop_map_least {α : Type} (which : String) (f : α → Nat) (l : List α)
    (i : Nat) (o0 oi : α)
    (h0 : l[0]? = some o0) (ha : f o0 ≠ 0) (hi : 1 ≤ i) (hx : l[i]? = some oi)
    (hne : f oi ≠ f o0) (hmin : ∀ j o, 1 ≤ j → j < i → l[j]? = some o → f o = f o0) :
    sizeLoop which (l.map f) 0 0 = .error (sizeMismatchMsg which i (f oi) (f o0)) := by
  apply sizeLoop_least which (l.map f) i (f o0) (f oi) (by simp [h0]) ha hi (by simp [hx]) hne
  intro j y hj1 hji hy
  simp only [List.getElem?_map, Option.map_eq_some'] at hy
  obtain ⟨o, ho, rfl⟩ := hy
  exact hmin j o hj1 hji ho

/-! ## Size reconciliation: the claims -/

/-- C1: size reconciliation, `intosSize` and identically `usesSize`.  The call
returns `n > 0` exactly when the list is non-empty and every object reports size
`n`; it returns `0` exactly when the list is empty; it fails with "Vectors of
size 0 are not allowed." exactly when the list is non-empty and its first object
reports size `0`; it fails with a size-mismatch error exactly when the first
object's size is non-zero and some later object's size differs from it. -/
theorem intosSize_usesSize_outcomes (intos : List IntoType) (uses : List UseType) :
    ((∀ n, 0 < n → (intosSize intos = .ok n ↔ intos ≠ [] ∧ ∀ o ∈ intos, o.size = n)) ∧
      (intosSize intos = .ok 0 ↔ intos = []) ∧
      (intosSize intos = .error zeroSizeMsg ↔ ∃ o rest, intos = o :: rest ∧ o.size = 0) ∧
      ((∃ e, intosSize intos = .error e ∧ IsSizeMismatch "into" e) ↔
        ∃ o rest, intos = o :: rest ∧ o.size ≠ 0 ∧ ∃ o' ∈ rest, o'.size ≠ o.size)) ∧
    ((∀ n, 0 < n → (usesSize uses = .ok n ↔ uses ≠ [] ∧ ∀ u ∈ uses, u.size = n)) ∧
      (usesSize uses = .ok 0 ↔ uses = []) ∧
      (usesSize uses = .error zeroSizeMsg ↔ ∃ u rest, uses = u :: rest ∧ u.size = 0) ∧
      ((∃ e, usesSize uses = .error e ∧ IsSizeMismatch "use" e) ↔
        ∃ u rest, uses = u :: rest ∧ u.size ≠ 0 ∧ ∃ u' ∈ rest, u'.size ≠ u.size)) :=
  ⟨sizeLoop_map_spec "into" IntoType.size intos, sizeLoop_map_spec "use" UseType.size uses⟩

/-- C2: when member `0` has a non-zero size and member `i` is the first member
after it whose size differs (in particular when it is the only one), `intosSize`
(resp. `usesSize`) fails with the message that names the index `i`, the size of
member `i` and the size of member `0`. -/
theorem sizeMismatch_names_least_index (intos : List IntoType) (uses : List UseType) :
    (∀ (i : Nat) (o0 oi : IntoType), intos[0]? = some o0 → o0.size ≠ 0 → 1 ≤ i →
      intos[i]? = some oi → oi.size ≠ o0.size →
      (∀ j o, 1 ≤ j → j < i → intos[j]? = some o → o.size = o0.size) →
      intosSize intos = .error (sizeMismatchMsg "into" i oi.size o0.size)) ∧
    (∀ (i : Nat) (u0 ui : UseType), uses[0]? = some u0 → u0.size ≠ 0 → 1 ≤ i →
      uses[i]? = some ui → ui.size ≠ u0.size →
      (∀ j u, 1 ≤ j → j < i → uses[j]? = some u → u.size = u0.size) →
      usesSize uses = .error (sizeMismatchMsg "use" i ui.size u0.size)) :=
  ⟨fun i o0 oi h0 ha hi hx hne hmin =>
      sizeLoop_map_least "into" IntoType.size intos i o0 oi h0 ha hi hx hne hmin,
    fun i u0 ui h0 ha hi hx hne hmin =>
      sizeLoop_map_least "use" UseType.size uses i u0 ui h0 ha hi hx hne hmin⟩

/-- C2 at a concrete list: of the sizes 5, 5, 3, 4 the member at index 2 is
named, with its size 3 and the size 5 of member 0; the message text is the one
the source builds. -/
theorem sizeMismatch_names_least_index_witness :
    intosSize [.vector 5, .vector 5, .vector 3, .vector 4]
        = .error (sizeMismatchMsg "into" 2 3 5) ∧
      sizeMismatchMsg "into" 2 3 5
        = "Bind variable size mismatch (into[2] has size 3, into[0] has size 5" ∧
      usesSize [.vector 2, .standard]
        = .error "Bind variable size mismatch (use[1] has size 1, use[0] has size 2" :=
  ⟨(sizeMismatch_names_least_index [.vector 5, .vector 5, .vector 3, .vector 4] []).1
      2 (.vector 5) (.vector 3) rfl (by decide) (by decide) rfl (by decide)
      (by
        intro j o h1 h2 h
        obtain rfl : j = 1 := by omega
        simp at h
        subst h
        rfl),
    rfl,
    (sizeMismatch_names_least_index [] [.vector 2, .standard]).2
      1 (.vector 2) .standard rfl (by decide) (by decide) rfl (by decide)
      (by intro j o h1 h2; omega)⟩

/-! ## Machine-integer lemmas -/

theorem toInt_of_le_INT_MAX (x : Nat) (h : x ≤ INT_MAX) : toInt x = (x : Int) := by
  unfold toInt
  unfold INT_MAX at h
  omega

theorem toInt_le (x : Nat) : toInt x ≤ (x : Int) := by
  unfold toInt
  omega

theorem toInt_lt (x : Nat) : toInt x < 2 ^ 31 := by
  unfold toInt
  omega

theorem executeNum_true_pos (n m : Nat) : 0 < executeNum true n m := by
  simp only [executeNum, if_true]
  split_ifs <;> omega

theorem executeNum_true_lt (n m : Nat) : executeNum true n m < 2 ^ 31 := by
  have h1 := toInt_lt n
  have h2 := toInt_lt m
  simp only [executeNum, if_true]
  split_ifs <;> omega

theorem executeNum_true_le (n m : Nat) : executeNum true n m ≤ ((max 1 (max n m) : Nat) : Int) := by
  have h1 := toInt_le n
  have h2 := toInt_le m
  simp only [executeNum, if_true]
  split_ifs <;> omega

theorem executeNum_true_of_le (n m : Nat) (hn : n ≤ INT_MAX) (hm : m ≤ INT_MAX) :
    executeNum true n m = ((max 1 (max n m) : Nat) : Int) := by
  simp only [executeNum, if_true, toInt_of_le_INT_MAX n hn, toInt_of_le_INT_MAX m hm]
  split_ifs <;> omega

theorem toSizeT_executeNum (n m : Nat) :
    toSizeT (executeNum true n m) = (executeNum true n m).toNat := by
  have h1 := executeNum_true_pos n m
  have h2 := executeNum_true_lt n m
  have h3 : executeNum true n m % 2 ^ 64 = executeNum true n m :=
    Int.emod_eq_of_lt (by omega) (by omega)
  simp only [toSizeT, h3]

/-! ## `execute`: the bulk-conflict check -/

/-- C3: when the use objects carry more than one bound row and the into objects
expect more than one output row, `execute` fails with the bulk-conflict error for
either value of `withDataExchange`, leaving the trace and the back end as they
were (no hook and no back-end call has been made); when both reconciliations
succeed and at most one count exceeds 1, `execute` returns normally and so does
not raise that error. -/
theorem execute_bulk_conflict {σ : Type} (be : StatementBackEnd σ) (s : Statement σ)
    (withDataExchange : Bool) (n m : Nat)
    (hn : intosSize s.intos = .ok n) (hm : usesSize s.uses = .ok m) :
    (1 < m ∧ 1 < n →
      execute be s withDataExchange
        = (.error bulkConflictMsg, { s with initialFetchSize := n, fetchSize := n })) ∧
    (¬(1 < m ∧ 1 < n) →
      (∃ g, (execute be s withDataExchange).1 = .ok g) ∧
      (execute be s withDataExchange).1 ≠ .error bulkConflictMsg) := by
  constructor
  · intro h
    simp [execute, hn, hm, h]
  · intro h
    have h2 : ¬(m > 1 ∧ n > 1) := h
    simp [execute, hn, hm, h2]

/-- C3 at concrete statements: two use vectors of 3 rows with an into vector of
2 rows conflict, before any call is traced; with scalar uses the same select
returns normally. -/
theorem execute_bulk_conflict_witness :
    execute cursorBackEnd
        (Statement.init (Cursor.over 5) [.vector 2] [.vector 3, .vector 3]) false
      = (.error bulkConflictMsg,
        { Statement.init (Cursor.over 5) [.vector 2] [.vector 3, .vector 3] with
          initialFetchSize := 2, fetchSize := 2 }) ∧
    ((∃ g, (execute cursorBackEnd
        (Statement.init (Cursor.over 5) [.vector 2] [.standard]) true).1 = .ok g) ∧
      (execute cursorBackEnd
        (Statement.init (Cursor.over 5) [.vector 2] [.standard]) true).1 ≠ .error bulkConflictMsg) :=
  ⟨(execute_bulk_conflict cursorBackEnd
      (Statement.init (Cursor.over 5) [.vector 2] [.vector 3, .vector 3]) false 2 3 rfl rfl).1
      (by decide),
    (execute_bulk_conflict cursorBackEnd
      (Statement.init (Cursor.over 5) [.vector 2] [.standard]) true 2 1 rfl rfl).2
      (by decide)⟩

/-! ## `execute`: the statement it leaves behind -/

/-- The cap applied by `resizeIntos` with a non-zero upper bound is a minimum. -/
theorem resizeIntos_cap (upperBound rows : Nat) (h : 0 < upperBound) :
    (if upperBound ≠ 0 ∧ upperBound < rows then upperBound else rows) = min upperBound rows := by
  split_ifs with h1
  · omega
  · have : ¬ upperBound < rows := fun h2 => h1 ⟨by omega, h2⟩
    omega

/-- `execute(true)` when the back end reports success: the result is `true` and
every into object is resized to the reported row count capped at `num`. -/
theorem execute_true_success {σ : Type} (be : StatementBackEnd σ) (s : Statement σ) (n m : Nat)
    (hn : intosSize s.intos = .ok n) (hm : usesSize s.uses = .ok m)
    (hb : ¬(1 < m ∧ 1 < n))
    (hres : (be.execute s.backEnd (executeNum true n m)).1 = .eSuccess) :
    execute be s true = (.ok true,
      { intos := s.intos.map (IntoType.resize
          (min (executeNum true n m).toNat
            (be.getNumberOfRows (be.execute s.backEnd (executeNum true n m)).2))),
        uses := s.uses, fetchSize := n, initialFetchSize := n,
        backEnd := (be.execute s.backEnd (executeNum true n m)).2,
        trace := s.trace ++ (List.range s.intos.length).map Event.intoPreFetch
          ++ (List.range s.uses.length).map Event.usePreUse
          ++ [Event.backEndExecute (executeNum true n m)]
          ++ [Event.backEndGetNumberOfRows]
          ++ (List.range s.intos.length).map (fun i => Event.intoResize i
              (min (executeNum true n m).toNat
                (be.getNumberOfRows (be.execute s.backEnd (executeNum true n m)).2)))
          ++ (List.range s.intos.length).reverse.map (fun i => Event.intoPostFetch i true false)
          ++ (List.range s.uses.length).reverse.map (fun i => Event.usePostUse i true) }) := by
  have hb2 : ¬(m > 1 ∧ n > 1) := hb
  have hpos := executeNum_true_pos n m
  have hcap := resizeIntos_cap (executeNum true n m).toNat
    (be.getNumberOfRows (be.execute s.backEnd (executeNum true n m)).2) (by omega)
  have hcap2 : (if (executeNum true n m).toNat
        < be.getNumberOfRows (be.execute s.backEnd (executeNum true n m)).2
      then (executeNum true n m).toNat
      else be.getNumberOfRows (be.execute s.backEnd (executeNum true n m)).2)
      = min (executeNum true n m).toNat
        (be.getNumberOfRows (be.execute s.backEnd (executeNum true n m)).2) := by
    split_ifs <;> omega
  simp [execute, hn, hm, hb2, hres, hpos, preFetch, preUse, postFetch, postUse, resizeIntos,
    toSizeT_executeNum, hcap, hcap2]

/-- `execute` when the back end reports no-data: the result is `true` exactly for
a bulk select whose last batch is non-empty; only then are the into objects
resized, to the reported row count. -/
theorem execute_noData {σ : Type} (be : StatementBackEnd σ) (s : Statement σ)
    (withDataExchange : Bool) (n m : Nat)
    (hn : intosSize s.intos = .ok n) (hm : usesSize s.uses = .ok m)
    (hb : ¬(1 < m ∧ 1 < n))
    (hres : (be.execute s.backEnd (executeNum withDataExchange n m)).1 = .eNoData) :
    execute be s withDataExchange =
      (.ok (decide (1 < n ∧
          0 < be.getNumberOfRows
            (be.execute s.backEnd (executeNum withDataExchange n m)).2)),
      { intos := if 1 < n then s.intos.map (IntoType.resize
            (be.getNumberOfRows (be.execute s.backEnd (executeNum withDataExchange n m)).2))
          else s.intos,
        uses := s.uses, fetchSize := n, initialFetchSize := n,
        backEnd := (be.execute s.backEnd (executeNum withDataExchange n m)).2,
        trace := s.trace
          ++ (if withDataExchange then
              (List.range s.intos.length).map Event.intoPreFetch
                ++ (List.range s.uses.length).map Event.usePreUse
            else [])
          ++ [Event.backEndExecute (executeNum withDataExchange n m)]
          ++ (if 1 < n then
              Event.backEndGetNumberOfRows :: (List.range s.intos.length).map
                (fun i => Event.intoResize i (be.getNumberOfRows
                  (be.execute s.backEnd (executeNum withDataExchange n m)).2))
            else [])
          ++ (if withDataExchange then
              (List.range s.intos.length).reverse.map (fun i => Event.intoPostFetch i
                  (decide (1 < n ∧ 0 < be.getNumberOfRows
                    (be.execute s.backEnd (executeNum withDataExchange n m)).2)) false)
                ++ (List.range s.uses.length).reverse.map (fun i => Event.usePostUse i
                  (decide (1 < n ∧ 0 < be.getNumberOfRows
                    (be.execute s.backEnd (executeNum withDataExchange n m)).2)))
            else []) }) := by
  have hb2 : ¬(m > 1 ∧ n > 1) := hb
  cases withDataExchange with
  | true =>
    have hpos := executeNum_true_pos n m
    by_cases h1 : 1 < n
    · have hm1 : m ≤ 1 := by omega
      simp [execute, hn, hm, hb2, hres, hpos, preFetch, preUse, postFetch, postUse, resizeIntos,
        h1, hm1, resizeIntosDefaultUpperBound]
    · simp [execute, hn, hm, hb2, hres, hpos, preFetch, preUse, postFetch, postUse, resizeIntos,
        h1, resizeIntosDefaultUpperBound]
  | false =>
    have hz : executeNum false n m = 0 := rfl
    rw [hz] at hres
    by_cases h1 : 1 < n
    · have hm1 : m ≤ 1 := by omega
      simp [execute, hn, hm, hb2, hres, hz, resizeIntos, h1, hm1, resizeIntosDefaultUpperBound]
    · simp [execute, hn, hm, hb2, hres, hz, resizeIntos, h1, resizeIntosDefaultUpperBound]

/-! ## `execute`: the claims on the request and on the resize -/

/-- C4 (amended): when `execute(true)` passes size reconciliation and the
bulk-conflict check and both counts fit in an `int` (at most `INT_MAX`), the back
end is asked once, for exactly `max(1, intoCount, useCount)` rows, after
`preFetch` has run on every into object and `preUse` on every use object. -/
theorem execute_requests_max_rows {σ : Type} (be : StatementBackEnd σ) (s : Statement σ)
    (n m : Nat) (hn : intosSize s.intos = .ok n) (hm : usesSize s.uses = .ok m)
    (hb : ¬(1 < m ∧ 1 < n)) (hnb : n ≤ INT_MAX) (hmb : m ≤ INT_MAX) :
    ∃ rest : List Event,
      (execute be s true).2.trace
        = s.trace ++ (List.range s.intos.length).map Event.intoPreFetch
          ++ (List.range s.uses.length).map Event.usePreUse
          ++ [Event.backEndExecute ((max 1 (max n m) : Nat) : Int)] ++ rest ∧
      ∀ k, Event.backEndExecute k ∉ rest := by
  have hnum := executeNum_true_of_le n m hnb hmb
  cases hres : (be.execute s.backEnd (executeNum true n m)).1 with
  | eSuccess =>
    rw [execute_true_success be s n m hn hm hb hres, hnum]
    simp only [List.append_assoc]
    refine ⟨_, rfl, ?_⟩
    intro k
    simp
  | eNoData =>
    rw [execute_noData be s true n m hn hm hb hres, hnum]
    simp only [if_true, List.append_assoc]
    refine ⟨_, rfl, ?_⟩
    intro k
    split_ifs <;> simp

/-- C4 at a concrete statement: two into vectors of 3 rows and a scalar use; the
back end is asked for 3 rows after both pre-fetch hooks and the pre-use hook. -/
theorem execute_requests_max_rows_witness :
    ∃ rest : List Event,
      (execute cursorBackEnd
        (Statement.init (Cursor.over 5) [.vector 3, .vector 3] [.standard]) true).2.trace
        = [] ++ (List.range 2).map Event.intoPreFetch ++ (List.range 1).map Event.usePreUse
          ++ [Event.backEndExecute ((max 1 (max 3 1) : Nat) : Int)] ++ rest ∧
      ∀ k, Event.backEndExecute k ∉ rest :=
  execute_requests_max_rows cursorBackEnd
    (Statement.init (Cursor.over 5) [.vector 3, .vector 3] [.standard]) 3 1 rfl rfl (by decide)
    (by decide) (by decide)

/-- C4 as stated fails for an into vector of `2^31` elements: `static_cast<int>`
makes the count negative, so the back end is asked for 1 row and never for
`max(1, 2^31, 0)` rows. -/
theorem execute_requests_max_rows_counterexample :
    intosSize [.vector 2147483648] = .ok 2147483648 ∧
    usesSize [] = .ok 0 ∧
    (execute cursorBackEnd
      (Statement.init (Cursor.over 5) [.vector 2147483648] []) true).2.trace
      = [Event.intoPreFetch 0, Event.backEndExecute 1, Event.backEndGetNumberOfRows,
          Event.intoResize 0 1, Event.intoPostFetch 0 true false] ∧
    Event.backEndExecute ((max 1 (max 2147483648 0) : Nat) : Int) ∉
      (execute cursorBackEnd
        (Statement.init (Cursor.over 5) [.vector 2147483648] []) true).2.trace := by
  decide

/-- C5 (amended): when the back end reports success to `execute(true)`, the
result is `true` and every into object is resized to `min(num, rows)`, where
`rows` is the reported row count and `num` the number of rows requested; `num`
is at most the declared bound `max(1, intoCount, useCount)`, so no into object
is resized beyond it, and `num` equals that bound when both counts fit in an
`int` (at most `INT_MAX`). -/
theorem execute_success_resizes {σ : Type} (be : StatementBackEnd σ) (s : Statement σ)
    (n m rows : Nat) (hn : intosSize s.intos = .ok n) (hm : usesSize s.uses = .ok m)
    (hb : ¬(1 < m ∧ 1 < n))
    (hres : (be.execute s.backEnd (executeNum true n m)).1 = .eSuccess)
    (hrows : be.getNumberOfRows (be.execute s.backEnd (executeNum true n m)).2 = rows) :
    (execute be s true).1 = .ok true ∧
    (∃ r : Nat,
      r = min (executeNum true n m).toNat rows ∧
      r ≤ max 1 (max n m) ∧
      (n ≤ INT_MAX → m ≤ INT_MAX → r = min (max 1 (max n m)) rows) ∧
      (execute be s true).2.intos = s.intos.map (IntoType.resize r) ∧
      ∃ before after : List Event,
        (execute be s true).2.trace
          = s.trace ++ before
            ++ (List.range s.intos.length).map (fun i => Event.intoResize i r) ++ after ∧
        ∀ e ∈ before ++ after, ∀ i z, e ≠ Event.intoResize i z) := by
  have hle := executeNum_true_le n m
  have hpos := executeNum_true_pos n m
  rw [execute_true_success be s n m hn hm hb hres, hrows]
  refine ⟨rfl, _, rfl, ?_, ?_, rfl, ?_⟩
  · have : (executeNum true n m).toNat ≤ max 1 (max n m) := by omega
    exact le_trans (min_le_left _ _) this
  · intro hnb hmb
    rw [executeNum_true_of_le n m hnb hmb, Int.toNat_ofNat]
  · refine ⟨(List.range s.intos.length).map Event.intoPreFetch
        ++ (List.range s.uses.length).map Event.usePreUse
        ++ [Event.backEndExecute (executeNum true n m)]
        ++ [Event.backEndGetNumberOfRows],
      (List.range s.intos.length).reverse.map (fun i => Event.intoPostFetch i true false)
        ++ (List.range s.uses.length).reverse.map (fun i => Event.usePostUse i true),
      by simp only [List.append_assoc], ?_⟩
    intro e he i z hez
    subst hez
    simp at he

/-- C5 at a concrete statement: a cursor over 2 rows asked for 2 rows (3-row
into vectors would be asked for 3); here two 2-row vectors over 5 rows are
resized to `min 2 2`. -/
theorem execute_success_resizes_witness :
    (execute cursorBackEnd
        (Statement.init (Cursor.over 5) [.vector 2, .vector 2] [.standard]) true).1 = .ok true ∧
    (∃ r : Nat,
      r = min (executeNum true 2 1).toNat 2 ∧
      r ≤ max 1 (max 2 1) ∧
      (2 ≤ INT_MAX → 1 ≤ INT_MAX → r = min (max 1 (max 2 1)) 2) ∧
      (execute cursorBackEnd
        (Statement.init (Cursor.over 5) [.vector 2, .vector 2] [.standard]) true).2.intos
        = [IntoType.vector 2, IntoType.vector 2].map (IntoType.resize r) ∧
      ∃ before after : List Event,
        (execute cursorBackEnd
          (Statement.init (Cursor.over 5) [.vector 2, .vector 2] [.standard]) true).2.trace
          = [] ++ before ++ (List.range 2).map (fun i => Event.intoResize i r) ++ after ∧
        ∀ e ∈ before ++ after, ∀ i z, e ≠ Event.intoResize i z) :=
  execute_success_resizes cursorBackEnd
    (Statement.init (Cursor.over 5) [.vector 2, .vector 2] [.standard]) 2 1 2 rfl rfl
    (by decide) rfl rfl

/-- C5 as stated fails for an into vector of `2^31` elements with a back end
that reports success and 5 rows: the declared bound is `2^31`, so the claim
resizes to `min(2^31, 5) = 5`, but `static_cast<int>` turns the request into 1
row and the vector is resized to 1. -/
theorem execute_success_resizes_counterexample :
    intosSize [.vector 2147483648] = .ok 2147483648 ∧
    usesSize [] = .ok 0 ∧
    ((constBackEnd .eSuccess 5).execute () (executeNum true 2147483648 0)).1 = .eSuccess ∧
    (constBackEnd .eSuccess 5).getNumberOfRows () = 5 ∧
    min (max 1 (max 2147483648 0)) 5 = 5 ∧
    (execute (constBackEnd .eSuccess 5)
      (Statement.init () [.vector 2147483648] []) true).2.intos = [.vector 1] ∧
    Event.intoResize 0 5 ∉
      (execute (constBackEnd .eSuccess 5)
        (Statement.init () [.vector 2147483648] []) true).2.trace := by
  decide

/-- C6: when the back end reports no-data, `execute` returns `true` if and only
if the into count exceeds 1 and the reported row count is positive; for such a
bulk statement the into objects are resized to exactly the reported row count,
and for a non-bulk statement the result is `false` and nothing is resized. -/
theorem execute_noData_result {σ : Type} (be : StatementBackEnd σ) (s : Statement σ)
    (withDataExchange : Bool) (n m rows : Nat)
    (hn : intosSize s.intos = .ok n) (hm : usesSize s.uses = .ok m)
    (hb : ¬(1 < m ∧ 1 < n))
    (hres : (be.execute s.backEnd (executeNum withDataExchange n m)).1 = .eNoData)
    (hrows : be.getNumberOfRows
      (be.execute s.backEnd (executeNum withDataExchange n m)).2 = rows) :
    (∃ g, (execute be s withDataExchange).1 = .ok g ∧ (g = true ↔ 1 < n ∧ 0 < rows)) ∧
    (1 < n →
      (execute be s withDataExchange).2.intos = s.intos.map (IntoType.resize rows) ∧
      ∃ before after : List Event,
        (execute be s withDataExchange).2.trace
          = s.trace ++ before
            ++ (List.range s.intos.length).map (fun i => Event.intoResize i rows) ++ after ∧
        ∀ e ∈ before ++ after, ∀ i z, e ≠ Event.intoResize i z) ∧
    (¬ 1 < n →
      (execute be s withDataExchange).1 = .ok false ∧
      (execute be s withDataExchange).2.intos = s.intos ∧
      ∃ calls : List Event,
        (execute be s withDataExchange).2.trace = s.trace ++ calls ∧
        ∀ e ∈ calls, ∀ i z, e ≠ Event.intoResize i z) := by
  rw [execute_noData be s withDataExchange n m hn hm hb hres, hrows]
  refine ⟨⟨_, rfl, by simp⟩, ?_, ?_⟩
  · intro h1
    refine ⟨by simp [h1], (if withDataExchange then
          (List.range s.intos.length).map Event.intoPreFetch
            ++ (List.range s.uses.length).map Event.usePreUse
        else [])
        ++ [Event.backEndExecute (executeNum withDataExchange n m)]
        ++ [Event.backEndGetNumberOfRows],
      (if withDataExchange then
          (List.range s.intos.length).reverse.map (fun i => Event.intoPostFetch i
              (decide (1 < n ∧ 0 < rows)) false)
            ++ (List.range s.uses.length).reverse.map (fun i => Event.usePostUse i
              (decide (1 < n ∧ 0 < rows)))
        else []), ?_, ?_⟩
    · simp [h1]
    · intro e he i z hez
      subst hez
      cases withDataExchange <;> simp at he
  · intro h1
    refine ⟨by simp [h1], by simp [h1],
      (if withDataExchange then
          (List.range s.intos.length).map Event.intoPreFetch
            ++ (List.range s.uses.length).map Event.usePreUse
        else [])
        ++ [Event.backEndExecute (executeNum withDataExchange n m)]
        ++ (if withDataExchange then
          (List.range s.intos.length).reverse.map (fun i => Event.intoPostFetch i false false)
            ++ (List.range s.uses.length).reverse.map (fun i => Event.usePostUse i false)
        else []), ?_, ?_⟩
    · simp [h1]
    · intro e he i z hez
      subst hez
      cases withDataExchange <;> simp at he

/-- C6 at a concrete statement: a 2-row into vector over a rowset of 1 row; the
back end reports no-data with 1 row, `execute` returns `true` and the vector is
resized to 1. -/
theorem execute_noData_result_witness :
    (∃ g, (execute cursorBackEnd (Statement.init (Cursor.over 1) [.vector 2] []) true).1
        = .ok g ∧ (g = true ↔ 1 < 2 ∧ 0 < 1)) ∧
    (1 < 2 →
      (execute cursorBackEnd (Statement.init (Cursor.over 1) [.vector 2] []) true).2.intos
        = [IntoType.vector 2].map (IntoType.resize 1) ∧
      ∃ before after : List Event,
        (execute cursorBackEnd (Statement.init (Cursor.over 1) [.vector 2] []) true).2.trace
          = [] ++ before ++ (List.range 1).map (fun i => Event.intoResize i 1) ++ after ∧
        ∀ e ∈ before ++ after, ∀ i z, e ≠ Event.intoResize i z) ∧
    (¬ 1 < 2 →
      (execute cursorBackEnd (Statement.init (Cursor.over 1) [.vector 2] []) true).1
        = .ok false ∧
      (execute cursorBackEnd (Statement.init (Cursor.over 1) [.vector 2] []) true).2.intos
        = [IntoType.vector 2] ∧
      ∃ calls : List Event,
        (execute cursorBackEnd (Statement.init (Cursor.over 1) [.vector 2] []) true).2.trace
          = [] ++ calls ∧
        ∀ e ∈ calls, ∀ i z, e ≠ Event.intoResize i z) :=
  execute_noData_result cursorBackEnd (Statement.init (Cursor.over 1) [.vector 2] []) true
    2 0 1 rfl rfl (by decide) rfl rfl

/-! ## `fetch`: the statement it leaves behind -/

/-- With fetch size 0, `fetch` returns `false` and touches nothing. -/
theorem fetch_of_fetchSize_zero {σ : Type} (be : StatementBackEnd σ) (s : Statement σ)
    (h : s.fetchSize = 0) : fetch be s = (.ok false, s) := by
  simp [fetch, h]

/-- Grown into vectors make `fetch` fail before it changes anything. -/
theorem fetch_of_growth {σ : Type} (be : StatementBackEnd σ) (s : Statement σ) (M : Nat)
    (hfs : s.fetchSize ≠ 0) (hM : intosSize s.intos = .ok M) (hgt : s.initialFetchSize < M) :
    fetch be s = (.error increasingSizeMsg, s) := by
  have h2 : M > s.initialFetchSize := hgt
  simp [fetch, hfs, hM, h2]

/-- `fetch` when the back end reports success. -/
theorem fetch_success {σ : Type} (be : StatementBackEnd σ) (s : Statement σ) (M : Nat)
    (hfs : s.fetchSize ≠ 0) (hM : intosSize s.intos = .ok M) (hle : M ≤ s.initialFetchSize)
    (hpos : 0 < M) (hres : (be.fetch s.backEnd (toInt M)).1 = .eSuccess) :
    fetch be s = (.ok true,
      { intos := s.intos.map (IntoType.resize
          (min M (be.getNumberOfRows (be.fetch s.backEnd (toInt M)).2))),
        uses := s.uses, fetchSize := M, initialFetchSize := s.initialFetchSize,
        backEnd := (be.fetch s.backEnd (toInt M)).2,
        trace := s.trace ++ [Event.backEndFetch (toInt M)] ++ [Event.backEndGetNumberOfRows]
          ++ (List.range s.intos.length).map (fun i => Event.intoResize i
              (min M (be.getNumberOfRows (be.fetch s.backEnd (toInt M)).2)))
          ++ (List.range s.intos.length).reverse.map
              (fun i => Event.intoPostFetch i true true) }) := by
  have h2 : ¬ M > s.initialFetchSize := by omega
  have h3 : M ≠ 0 := by omega
  have hcap : (if M < be.getNumberOfRows (be.fetch s.backEnd (toInt M)).2 then M
      else be.getNumberOfRows (be.fetch s.backEnd (toInt M)).2)
      = min M (be.getNumberOfRows (be.fetch s.backEnd (toInt M)).2) := by
    split_ifs <;> omega
  simp [fetch, hfs, hM, h2, h3, hres, resizeIntos, postFetch, hcap]

/-- `fetch` when the back end reports no-data to a bulk request. -/
theorem fetch_noData_bulk {σ : Type} (be : StatementBackEnd σ) (s : Statement σ) (M : Nat)
    (hfs : s.fetchSize ≠ 0) (hM : intosSize s.intos = .ok M) (hle : M ≤ s.initialFetchSize)
    (hbulk : 1 < M) (hres : (be.fetch s.backEnd (toInt M)).1 = .eNoData) :
    fetch be s = (.ok (decide (0 < be.getNumberOfRows (be.fetch s.backEnd (toInt M)).2)),
      { intos := s.intos.map (IntoType.resize
          (be.getNumberOfRows (be.fetch s.backEnd (toInt M)).2)),
        uses := s.uses, fetchSize := 0, initialFetchSize := s.initialFetchSize,
        backEnd := (be.fetch s.backEnd (toInt M)).2,
        trace := s.trace ++ [Event.backEndFetch (toInt M)] ++ [Event.backEndGetNumberOfRows]
          ++ (List.range s.intos.length).map (fun i => Event.intoResize i
              (be.getNumberOfRows (be.fetch s.backEnd (toInt M)).2))
          ++ (List.range s.intos.length).reverse.map (fun i => Event.intoPostFetch i
              (decide (0 < be.getNumberOfRows (be.fetch s.backEnd (toInt M)).2)) true) }) := by
  have h2 : ¬ M > s.initialFetchSize := by omega
  have h3 : M ≠ 0 := by omega
  simp [fetch, hfs, hM, h2, h3, hres, resizeIntos, postFetch, hbulk,
    resizeIntosDefaultUpperBound]

/-- `fetch` when the back end reports no-data to a request for one row. -/
theorem fetch_noData_single {σ : Type} (be : StatementBackEnd σ) (s : Statement σ)
    (hfs : s.fetchSize ≠ 0) (hM : intosSize s.intos = .ok 1) (hle : 1 ≤ s.initialFetchSize)
    (hres : (be.fetch s.backEnd (toInt 1)).1 = .eNoData) :
    fetch be s = (.ok false,
      { intos := s.intos, uses := s.uses, fetchSize := 1,
        initialFetchSize := s.initialFetchSize,
        backEnd := (be.fetch s.backEnd (toInt 1)).2,
        trace := s.trace ++ [Event.backEndFetch (toInt 1)]
          ++ (List.range s.intos.length).reverse.map
              (fun i => Event.intoPostFetch i false true) }) := by
  have h2 : ¬ 1 > s.initialFetchSize := by omega
  simp [fetch, hfs, hM, h2, hres, postFetch]

/-! ## `fetch`: the claims -/

/-- `execute(false)` when the back end reports success: no hook runs, nothing is
resized and the result is `false`. -/
theorem execute_false_success {σ : Type} (be : StatementBackEnd σ) (s : Statement σ) (n m : Nat)
    (hn : intosSize s.intos = .ok n) (hm : usesSize s.uses = .ok m)
    (hb : ¬(1 < m ∧ 1 < n))
    (hres : (be.execute s.backEnd (executeNum false n m)).1 = .eSuccess) :
    execute be s false = (.ok false,
      { intos := s.intos, uses := s.uses, fetchSize := n, initialFetchSize := n,
        backEnd := (be.execute s.backEnd (executeNum false n m)).2,
        trace := s.trace ++ [Event.backEndExecute (executeNum false n m)] }) := by
  have hb2 : ¬(m > 1 ∧ n > 1) := hb
  have hz : executeNum false n m = 0 := rfl
  rw [hz] at hres
  simp [execute, hn, hm, hb2, hres, hz]

/-- After `execute`, `initialFetchSize_` is the size `N` the into objects were
bound at, whatever happens later in the call. -/
theorem execute_initialFetchSize {σ : Type} (be : StatementBackEnd σ) (s : Statement σ)
    (withDataExchange : Bool) (N : Nat) (hN : intosSize s.intos = .ok N) :
    (execute be s withDataExchange).2.initialFetchSize = N := by
  cases hm : usesSize s.uses with
  | error e => simp [execute, hN, hm]
  | ok m =>
    by_cases hb : 1 < m ∧ 1 < N
    · have hb2 : m > 1 ∧ N > 1 := hb
      simp [execute, hN, hm, hb2]
    · cases hr : (be.execute s.backEnd (executeNum withDataExchange N m)).1 with
      | eNoData => rw [execute_noData be s withDataExchange N m hN hm hb hr]
      | eSuccess =>
        cases withDataExchange with
        | true => rw [execute_true_success be s N m hN hm hb hr]
        | false => rw [execute_false_success be s N m hN hm hb hr]

/-- C7 (amended): for a statement executed with into objects bound at size `N`
(`execute` stores `N` as the initial fetch size) that is not exhausted (its
fetch size is not 0): if before a fetch the into objects all report a size `M`
with `0 < M <= N` and `M` fits in an `int`, `fetch` returns normally, asks the
back end once, for exactly `M` rows, whatever the previous fetch size was, and
leaves `M` as the fetch size unless this request exhausts a bulk select (then
the fetch size is 0); if they report a size greater than `N`, `fetch` fails with
"Increasing the size of the output vector is not supported." and leaves the
statement, its fetch size and its trace untouched. -/
theorem fetch_adopts_size {σ : Type} (be : StatementBackEnd σ) (s : Statement σ) (N M : Nat)
    (hN : s.initialFetchSize = N) (hM : intosSize s.intos = .ok M) (hfs : s.fetchSize ≠ 0) :
    (∀ (s0 : Statement σ) (w : Bool), intosSize s0.intos = .ok N →
      (execute be s0 w).2.initialFetchSize = N) ∧
    (0 < M → M ≤ N → M ≤ INT_MAX →
      (∃ g, (fetch be s).1 = .ok g) ∧
      (∃ rest : List Event,
        (fetch be s).2.trace = s.trace ++ [Event.backEndFetch (M : Int)] ++ rest ∧
        ∀ k, Event.backEndFetch k ∉ rest) ∧
      (fetch be s).2.fetchSize
        = if (be.fetch s.backEnd (M : Int)).1 = .eNoData ∧ 1 < M then 0 else M) ∧
    (N < M → fetch be s = (.error increasingSizeMsg, s)) := by
  subst hN
  refine ⟨fun s0 w h => execute_initialFetchSize be s0 w _ h, ?_, ?_⟩
  · intro hpos hle hint
    have hcast := toInt_of_le_INT_MAX M hint
    rw [← hcast]
    cases hres : (be.fetch s.backEnd (toInt M)).1 with
    | eSuccess =>
      rw [fetch_success be s M hfs hM hle hpos hres]
      refine ⟨⟨_, rfl⟩, ⟨_, by simp only [List.append_assoc]; rfl, ?_⟩, by simp⟩
      intro k
      simp
    | eNoData =>
      by_cases hbulk : 1 < M
      · rw [fetch_noData_bulk be s M hfs hM hle hbulk hres]
        refine ⟨⟨_, rfl⟩, ⟨_, by simp only [List.append_assoc]; rfl, ?_⟩, by simp [hbulk]⟩
        intro k
        simp
      · obtain rfl : M = 1 := by omega
        rw [fetch_noData_single be s hfs hM hle hres]
        refine ⟨⟨_, rfl⟩, ⟨_, rfl, ?_⟩, by simp⟩
        intro k
        simp
  · intro hgt
    exact fetch_of_growth be s M hfs hM hgt

/-- C7 at a concrete statement: into vector bound at 5 and executed over 20
rows, then shrunk to 3 by the caller: `fetch` asks for 3 rows; grown to 9, it
fails and changes nothing. -/
theorem fetch_adopts_size_witness :
    ((∀ (s0 : Statement Cursor) (w : Bool), intosSize s0.intos = .ok 5 →
        (execute cursorBackEnd s0 w).2.initialFetchSize = 5) ∧
      (0 < 3 → 3 ≤ 5 → 3 ≤ INT_MAX →
        (∃ g, (fetch cursorBackEnd
          { (execute cursorBackEnd (Statement.init (Cursor.over 20) [.vector 5] []) true).2 with
            intos := [.vector 3] }).1 = .ok g) ∧
        (∃ rest : List Event,
          (fetch cursorBackEnd
            { (execute cursorBackEnd (Statement.init (Cursor.over 20) [.vector 5] []) true).2 with
              intos := [.vector 3] }).2.trace
            = (execute cursorBackEnd (Statement.init (Cursor.over 20) [.vector 5] []) true).2.trace
              ++ [Event.backEndFetch ((3 : Nat) : Int)] ++ rest ∧
          ∀ k, Event.backEndFetch k ∉ rest) ∧
        (fetch cursorBackEnd
          { (execute cursorBackEnd (Statement.init (Cursor.over 20) [.vector 5] []) true).2 with
            intos := [.vector 3] }).2.fetchSize
          = if (cursorBackEnd.fetch
              (execute cursorBackEnd
                (Statement.init (Cursor.over 20) [.vector 5] []) true).2.backEnd
              ((3 : Nat) : Int)).1 = .eNoData ∧ 1 < 3 then 0 else 3) ∧
      (5 < 3 →
        fetch cursorBackEnd
            { (execute cursorBackEnd (Statement.init (Cursor.over 20) [.vector 5] []) true).2 with
              intos := [.vector 3] }
          = (.error increasingSizeMsg,
            { (execute cursorBackEnd (Statement.init (Cursor.over 20) [.vector 5] []) true).2 with
              intos := [.vector 3] }))) ∧
    fetch cursorBackEnd
        { (execute cursorBackEnd (Statement.init (Cursor.over 20) [.vector 5] []) true).2 with
          intos := [.vector 9] }
      = (.error increasingSizeMsg,
        { (execute cursorBackEnd (Statement.init (Cursor.over 20) [.vector 5] []) true).2 with
          intos := [.vector 9] }) :=
  ⟨fetch_adopts_size cursorBackEnd
      { (execute cursorBackEnd (Statement.init (Cursor.over 20) [.vector 5] []) true).2 with
        intos := [.vector 3] } 5 3 rfl rfl (by decide),
    (fetch_adopts_size cursorBackEnd
      { (execute cursorBackEnd (Statement.init (Cursor.over 20) [.vector 5] []) true).2 with
        intos := [.vector 9] } 5 9 rfl rfl (by decide)).2.2 (by decide)⟩

/-- C7 as stated fails in two ways.  First, on an exhausted statement (vector
bound at 5 over 7 rows, after `execute` and one `fetch` the fetch size is 0 and
the into vector reports 2): the next `fetch` returns `false` without any call,
and it also returns `false` instead of failing when the vector has been grown to
9.  Second, for a vector bound at `2^31` and restored to that size before the
fetch, `static_cast<int>` makes the request `-2^31`, not `2^31`. -/
theorem fetch_adopts_size_counterexample :
    ((fetch cursorBackEnd
        (execute cursorBackEnd (Statement.init (Cursor.over 7) [.vector 5] []) true).2).2.fetchSize
        = 0 ∧
      (fetch cursorBackEnd
        (execute cursorBackEnd
          (Statement.init (Cursor.over 7) [.vector 5] []) true).2).2.initialFetchSize = 5 ∧
      intosSize (fetch cursorBackEnd
        (execute cursorBackEnd
          (Statement.init (Cursor.over 7) [.vector 5] []) true).2).2.intos = .ok 2 ∧
      fetch cursorBackEnd (fetch cursorBackEnd
          (execute cursorBackEnd (Statement.init (Cursor.over 7) [.vector 5] []) true).2).2
        = (.ok false, (fetch cursorBackEnd
          (execute cursorBackEnd (Statement.init (Cursor.over 7) [.vector 5] []) true).2).2) ∧
      (fetch cursorBackEnd
        { (fetch cursorBackEnd
            (execute cursorBackEnd (Statement.init (Cursor.over 7) [.vector 5] []) true).2).2 with
          intos := [.vector 9] }).1 = .ok false) ∧
    ((execute cursorBackEnd
        (Statement.init (Cursor.over 7) [.vector 2147483648] []) true).2.initialFetchSize
        = 2147483648 ∧
      (fetch cursorBackEnd
        { (execute cursorBackEnd
            (Statement.init (Cursor.over 7) [.vector 2147483648] []) true).2 with
          intos := [.vector 2147483648] }).2.trace
        = (execute cursorBackEnd
            (Statement.init (Cursor.over 7) [.vector 2147483648] []) true).2.trace
          ++ [Event.backEndFetch (-2147483648), Event.backEndGetNumberOfRows,
            Event.intoResize 0 0, Event.intoPostFetch 0 true true]) := by
  decide

/-- C8: exhaustion is terminal for `fetch`.  When a fetch whose working fetch
size `M` exceeds 1 receives no-data from the back end, it resizes the into
objects to the reported row count, returns `true` iff that count is non-zero and
sets the fetch size to 0.  In every state with fetch size 0, `fetch` returns
`false` and leaves the statement, trace included, as it was (no back-end call,
no hook), so every later fetch does the same. -/
theorem fetch_exhaustion_terminal {σ : Type} (be : StatementBackEnd σ) (s : Statement σ) :
    (∀ M rows : Nat, s.fetchSize ≠ 0 → intosSize s.intos = .ok M → M ≤ s.initialFetchSize →
      1 < M → (be.fetch s.backEnd (toInt M)).1 = .eNoData →
      be.getNumberOfRows (be.fetch s.backEnd (toInt M)).2 = rows →
      (∃ g, (fetch be s).1 = .ok g ∧ (g = true ↔ rows ≠ 0)) ∧
      (fetch be s).2.intos = s.intos.map (IntoType.resize rows) ∧
      (∃ before after : List Event,
        (fetch be s).2.trace
          = s.trace ++ before
            ++ (List.range s.intos.length).map (fun i => Event.intoResize i rows) ++ after ∧
        ∀ e ∈ before ++ after, ∀ i z, e ≠ Event.intoResize i z) ∧
      (fetch be s).2.fetchSize = 0) ∧
    (s.fetchSize = 0 →
      fetch be s = (.ok false, s) ∧
      ∀ k : Nat, fetch be (Nat.iterate (fun t => (fetch be t).2) k s) = (.ok false, s)) := by
  constructor
  · intro M rows hfs hM hle hbulk hres hrows
    rw [fetch_noData_bulk be s M hfs hM hle hbulk hres, hrows]
    refine ⟨⟨_, rfl, by simp; omega⟩, rfl,
      ⟨[Event.backEndFetch (toInt M)] ++ [Event.backEndGetNumberOfRows],
        (List.range s.intos.length).reverse.map (fun i => Event.intoPostFetch i
          (decide (0 < rows)) true), by simp, ?_⟩, rfl⟩
    intro e he i z hez
    subst hez
    simp at he
  · intro h0
    have hfix := fetch_of_fetchSize_zero be s h0
    refine ⟨hfix, fun k => ?_⟩
    have hiter : Nat.iterate (fun t => (fetch be t).2) k s = s := by
      induction k with
      | zero => rfl
      | succ k ih =>
        rw [Function.iterate_succ_apply', ih, hfix]
    rw [hiter, hfix]

/-- C8 at a concrete statement: a 5-row into vector over 7 rows.  The first
`fetch` after `execute` receives no-data with 2 rows; it returns `true`, resizes
to 2 and pins the fetch size to 0, after which every fetch returns `false`. -/
theorem fetch_exhaustion_terminal_witness :
    ((∃ g, (fetch cursorBackEnd
          (execute cursorBackEnd (Statement.init (Cursor.over 7) [.vector 5] []) true).2).1
        = .ok g ∧ (g = true ↔ 2 ≠ 0)) ∧
      (fetch cursorBackEnd
          (execute cursorBackEnd (Statement.init (Cursor.over 7) [.vector 5] []) true).2).2.intos
        = (execute cursorBackEnd
            (Statement.init (Cursor.over 7) [.vector 5] []) true).2.intos.map
          (IntoType.resize 2) ∧
      (∃ before after : List Event,
        (fetch cursorBackEnd
          (execute cursorBackEnd (Statement.init (Cursor.over 7) [.vector 5] []) true).2).2.trace
          = (execute cursorBackEnd
              (Statement.init (Cursor.over 7) [.vector 5] []) true).2.trace ++ before
            ++ (List.range (execute cursorBackEnd
                (Statement.init (Cursor.over 7) [.vector 5] []) true).2.intos.length).map
              (fun i => Event.intoResize i 2) ++ after ∧
        ∀ e ∈ before ++ after, ∀ i z, e ≠ Event.intoResize i z) ∧
      (fetch cursorBackEnd
        (execute cursorBackEnd
          (Statement.init (Cursor.over 7) [.vector 5] []) true).2).2.fetchSize = 0) ∧
    (fetch cursorBackEnd (fetch cursorBackEnd
        (execute cursorBackEnd (Statement.init (Cursor.over 7) [.vector 5] []) true).2).2
      = (.ok false, (fetch cursorBackEnd
        (execute cursorBackEnd (Statement.init (Cursor.over 7) [.vector 5] []) true).2).2) ∧
      ∀ k : Nat, fetch cursorBackEnd
          (Nat.iterate (fun t => (fetch cursorBackEnd t).2) k (fetch cursorBackEnd
            (execute cursorBackEnd (Statement.init (Cursor.over 7) [.vector 5] []) true).2).2)
        = (.ok false, (fetch cursorBackEnd
          (execute cursorBackEnd (Statement.init (Cursor.over 7) [.vector 5] []) true).2).2)) :=
  ⟨(fetch_exhaustion_terminal cursorBackEnd
      (execute cursorBackEnd (Statement.init (Cursor.over 7) [.vector 5] []) true).2).1
      5 2 (by decide) rfl (by decide) (by decide) rfl rfl,
    (fetch_exhaustion_terminal cursorBackEnd (fetch cursorBackEnd
      (execute cursorBackEnd (Statement.init (Cursor.over 7) [.vector 5] []) true).2).2).2
      (by decide)⟩

/-! ## Scalar statements -/

/-- Reconciliation of a list all of whose members report size 1. -/
theorem sizeLoop_map_all_one {α : Type} [DecidableEq α] (which : String) (f : α → Nat)
    (l : List α)
    (h : ∀ o ∈ l, f o = 1) :
    sizeLoop which (l.map f) 0 0 = .ok (if l = [] then 0 else 1) := by
  obtain ⟨h1, h2, -, -⟩ := sizeLoop_map_spec which f l
  by_cases hl : l = []
  · rw [if_pos hl]
    exact h2.mpr hl
  · rw [if_neg hl]
    exact (h1 1 one_pos).mpr ⟨hl, h⟩

/-- Resizing scalar into objects changes nothing. -/
theorem map_resize_standard (r : Nat) (l : List IntoType) (h : ∀ o ∈ l, o = .standard) :
    l.map (IntoType.resize r) = l := by
  induction l with
  | nil => rfl
  | cons o rest ih =>
    have ho : o = .standard := h o (List.mem_cons_self _ _)
    have hrest : ∀ o ∈ rest, o = .standard := fun o' ho' => h o' (List.mem_cons_of_mem _ ho')
    subst ho
    simp [IntoType.resize, ih hrest]

/-- C10 (amended): for a statement whose into and use objects all have size 1,
when the back end reports success `execute(true)` returns `true`.  If the
statement has no into object (as with the single scalar use `x = 5`), the
following `fetch` returns `false` at once, leaving the statement and its trace
untouched; if it has scalar into objects, the following `fetch` does ask the
back end, for one row. -/
theorem scalar_execute_then_fetch {σ : Type} (be : StatementBackEnd σ) (s : Statement σ)
    (hi : ∀ o ∈ s.intos, o.size = 1) (hu : ∀ u ∈ s.uses, u.size = 1)
    (hres : (be.execute s.backEnd 1).1 = .eSuccess) :
    (execute be s true).1 = .ok true ∧
    (s.intos = [] →
      fetch be (execute be s true).2 = (.ok false, (execute be s true).2)) ∧
    (s.intos ≠ [] → (∀ o ∈ s.intos, o = .standard) →
      ∃ rest : List Event,
        (fetch be (execute be s true).2).2.trace
          = (execute be s true).2.trace ++ [Event.backEndFetch 1] ++ rest) := by
  have hn : intosSize s.intos = .ok (if s.intos = [] then 0 else 1) :=
    sizeLoop_map_all_one "into" IntoType.size s.intos hi
  have hm : usesSize s.uses = .ok (if s.uses = [] then 0 else 1) :=
    sizeLoop_map_all_one "use" UseType.size s.uses hu
  have hb : ¬(1 < (if s.uses = [] then 0 else 1) ∧ 1 < (if s.intos = [] then 0 else 1)) := by
    split_ifs <;> omega
  have hnum : executeNum true (if s.intos = [] then 0 else 1) (if s.uses = [] then 0 else 1)
      = 1 := by
    split_ifs <;> rfl
  rw [← hnum] at hres
  have hex := execute_true_success be s _ _ hn hm hb hres
  refine ⟨by rw [hex], ?_, ?_⟩
  · intro hnil
    apply fetch_of_fetchSize_zero
    rw [hex]
    simp [hnil]
  · intro hne hstd
    have h1 : toInt 1 = 1 := rfl
    have hone : (if s.intos = [] then 0 else 1) = 1 := by simp [hne]
    have hfs : (execute be s true).2.fetchSize = 1 := by rw [hex]; exact hone
    have hini : (execute be s true).2.initialFetchSize = 1 := by rw [hex]; exact hone
    have hintos : (execute be s true).2.intos = s.intos := by
      rw [hex]
      exact map_resize_standard _ s.intos hstd
    have hn1 : intosSize (execute be s true).2.intos = .ok 1 := by
      rw [hintos, hn, hone]
    cases hr : (be.fetch (execute be s true).2.backEnd (toInt 1)).1 with
    | eSuccess =>
      rw [fetch_success be (execute be s true).2 1 (by omega) hn1 (by omega) one_pos hr]
      exact ⟨_, by simp only [h1, List.append_assoc]; rfl⟩
    | eNoData =>
      rw [fetch_noData_single be (execute be s true).2 (by omega) hn1 (by omega) hr]
      exact ⟨_, by simp only [h1, List.append_assoc]; rfl⟩

/-- C10 at the scenario of the specification: no into object and the single
scalar use `x = 5`; `execute(true)` returns `true` and the following `fetch`
returns `false` without any call. -/
theorem scalar_execute_then_fetch_witness :
    (execute cursorBackEnd (Statement.init (Cursor.over 3) [] [.standard]) true).1 = .ok true ∧
    (([] : List IntoType) = [] →
      fetch cursorBackEnd
          (execute cursorBackEnd (Statement.init (Cursor.over 3) [] [.standard]) true).2
        = (.ok false,
          (execute cursorBackEnd (Statement.init (Cursor.over 3) [] [.standard]) true).2)) ∧
    (([] : List IntoType) ≠ [] → (∀ o ∈ ([] : List IntoType), o = .standard) →
      ∃ rest : List Event,
        (fetch cursorBackEnd
          (execute cursorBackEnd (Statement.init (Cursor.over 3) [] [.standard]) true).2).2.trace
          = (execute cursorBackEnd
              (Statement.init (Cursor.over 3) [] [.standard]) true).2.trace
            ++ [Event.backEndFetch 1] ++ rest) :=
  scalar_execute_then_fetch cursorBackEnd (Statement.init (Cursor.over 3) [] [.standard])
    (by decide) (by decide) rfl

/-- C10 as stated fails as soon as the scalar statement has an into object: with
one scalar into, the scalar use `x = 5` and a rowset of 3 rows, `execute(true)`
returns `true` and the following `fetch` asks the back end for one row and
returns `true`. -/
theorem scalar_execute_then_fetch_counterexample :
    (∀ o ∈ [IntoType.standard], o.size = 1) ∧ (∀ u ∈ [UseType.standard], u.size = 1) ∧
    (cursorBackEnd.execute (Cursor.over 3) 1).1 = .eSuccess ∧
    (execute cursorBackEnd
      (Statement.init (Cursor.over 3) [.standard] [.standard]) true).1 = .ok true ∧
    (fetch cursorBackEnd
      (execute cursorBackEnd
        (Statement.init (Cursor.over 3) [.standard] [.standard]) true).2).1 = .ok true ∧
    (fetch cursorBackEnd
      (execute cursorBackEnd
        (Statement.init (Cursor.over 3) [.standard] [.standard]) true).2).2.trace
      = (execute cursorBackEnd
          (Statement.init (Cursor.over 3) [.standard] [.standard]) true).2.trace
        ++ [Event.backEndFetch 1, Event.backEndGetNumberOfRows, Event.intoResize 0 1,
          Event.intoPostFetch 0 true true] := by
  decide

/-! ## Bulk select over a cursor -/

/-- C9 at the failing input, a bulk select with 2-row into vectors over an empty
rowset: `execute(true)` receives no-data with 0 rows, returns `false`, resizes
the vector to 0 and leaves the fetch size at 2; the `fetch` that follows does not
report no data but raises "Vectors of size 0 are not allowed.", so the caller's
loop ends with that error however many calls it is allowed. -/
theorem bulkSelect_empty_rowset_raises :
    (execute cursorBackEnd (Statement.init (Cursor.over 0) [.vector 2] []) true).1
      = .ok false ∧
    (execute cursorBackEnd (Statement.init (Cursor.over 0) [.vector 2] []) true).2.intos
      = [.vector 0] ∧
    (execute cursorBackEnd (Statement.init (Cursor.over 0) [.vector 2] []) true).2.fetchSize
      = 2 ∧
    (fetch cursorBackEnd
      (execute cursorBackEnd (Statement.init (Cursor.over 0) [.vector 2] []) true).2).1
      = .error zeroSizeMsg ∧
    ∀ fuel : Nat, bulkSelect cursorBackEnd (fuel + 1)
      (Statement.init (Cursor.over 0) [.vector 2] []) = some (.error zeroSizeMsg) := by
  refine ⟨by decide, by decide, by decide, by decide, fun fuel => ?_⟩
  rfl

/-! ### The totals of a bulk select over a non-empty rowset -/

theorem foldl_exchangeInto {σ : Type} (intos : List IntoType) (s : Statement σ) :
    intos.foldl Statement.exchangeInto s = { s with intos := s.intos ++ intos } := by
  induction intos generalizing s with
  | nil => simp
  | cons o rest ih => simp [ih, Statement.exchangeInto]

theorem foldl_exchangeUse {σ : Type} (uses : List UseType) (s : Statement σ) :
    uses.foldl Statement.exchangeUse s = { s with uses := s.uses ++ uses } := by
  induction uses generalizing s with
  | nil => simp
  | cons u rest ih => simp [ih, Statement.exchangeUse]

/-- The statement built by `Statement.init`. -/
theorem Statement.init_eq {σ : Type} (b : σ) (intos : List IntoType) (uses : List UseType) :
    Statement.init b intos uses
      = { intos := intos, uses := uses, fetchSize := 1, initialFetchSize := 1,
          backEnd := b, trace := [] } := by
  simp [Statement.init, foldl_exchangeInto, foldl_exchangeUse, Statement.new]

/-- Into vectors that all have the positive size `M` reconcile to `M`. -/
theorem intosSize_all_vector (intos : List IntoType) (M : Nat) (hne : intos ≠ [])
    (hall : ∀ o ∈ intos, o = .vector M) (hM : 0 < M) : intosSize intos = .ok M := by
  apply ((sizeLoop_map_spec "into" IntoType.size intos).1 M hM).mpr
  refine ⟨hne, fun o ho => ?_⟩
  rw [hall o ho]
  rfl

theorem map_resize_all_vector (intos : List IntoType) (M r : Nat)
    (hall : ∀ o ∈ intos, o = .vector M) :
    ∀ o ∈ intos.map (IntoType.resize r), o = .vector r := by
  intro o ho
  obtain ⟨o', ho', rfl⟩ := List.mem_map.mp ho
  rw [hall o' ho']
  rfl

theorem batchSize_all_vector {σ : Type} (s : Statement σ) (r : Nat) (hne : s.intos ≠ [])
    (hall : ∀ o ∈ s.intos, o = .vector r) : batchSize s = r := by
  unfold batchSize
  cases h : s.intos with
  | nil => exact absurd h hne
  | cons o rest =>
    have ho : o = .vector r := hall o (by rw [h]; exact List.mem_cons_self _ _)
    subst ho
    rfl

theorem fetchLoop_of_false {σ : Type} (be : StatementBackEnd σ) (fuel : Nat)
    (s s1 : Statement σ) (h : fetch be s = (.ok false, s1)) :
    fetchLoop be (fuel + 1) s = some (.ok []) := by
  simp [fetchLoop, h]

theorem fetchLoop_of_true {σ : Type} (be : StatementBackEnd σ) (fuel : Nat)
    (s s1 : Statement σ) (h : fetch be s = (.ok true, s1)) :
    fetchLoop be (fuel + 1) s
      = (fetchLoop be fuel s1).map (fun r => r.map (fun bs => batchSize s1 :: bs)) := by
  simp [fetchLoop, h]

/-- The fetch loop over a cursor with `r` rows left, entered with into vectors of
the working size `M`, ends without raising and its batch sizes sum to `r`. -/
theorem fetchLoop_totals (r : Nat) :
    ∀ (s : Statement Cursor) (M : Nat), s.backEnd.remaining = r → s.intos ≠ [] →
      (∀ o ∈ s.intos, o = .vector M) → 0 < M → M ≤ INT_MAX → M ≤ s.initialFetchSize →
      s.fetchSize ≠ 0 → ∀ fuel, r + 2 ≤ fuel →
      ∃ bs, fetchLoop cursorBackEnd fuel s = some (.ok bs) ∧ bs.sum = r := by
  induction r using Nat.strong_induction_on with
  | _ r ih =>
    intro s M hr hne hall hM hint hle hfs fuel hfuel
    obtain ⟨f, rfl⟩ : ∃ f, fuel = f + 1 := ⟨fuel - 1, by omega⟩
    have hsz := intosSize_all_vector s.intos M hne hall hM
    have hcast := toInt_of_le_INT_MAX M hint
    have hreq : cursorBackEnd.fetch s.backEnd (toInt M)
        = (if r < M then .eNoData else .eSuccess,
          { remaining := r - min M r, delivered := min M r }) := by
      simp [cursorBackEnd, Cursor.request, hcast, hr]
    by_cases hlt : r < M
    · have hres : (cursorBackEnd.fetch s.backEnd (toInt M)).1 = .eNoData := by
        rw [hreq]; simp [hlt]
      have hrows : cursorBackEnd.getNumberOfRows (cursorBackEnd.fetch s.backEnd (toInt M)).2
          = r := by
        rw [hreq]; simp [cursorBackEnd]; omega
      by_cases hbulk : 1 < M
      · have hf := fetch_noData_bulk cursorBackEnd s M hfs hsz hle hbulk hres
        rw [hrows] at hf
        by_cases hr0 : r = 0
        · have hd : decide (0 < r) = false := by simp [hr0]
          rw [hd] at hf
          exact ⟨[], fetchLoop_of_false cursorBackEnd f s _ hf, by simp [hr0]⟩
        · have hd : decide (0 < r) = true := by simp; omega
          rw [hd] at hf
          obtain ⟨f', rfl⟩ : ∃ f', f = f' + 1 := ⟨f - 1, by omega⟩
          have hpair : fetch cursorBackEnd s = (.ok true, (fetch cursorBackEnd s).2) := by
            rw [hf]
          have hintos : (fetch cursorBackEnd s).2.intos = s.intos.map (IntoType.resize r) := by
            rw [hf]
          have hzero : (fetch cursorBackEnd s).2.fetchSize = 0 := by rw [hf]
          have hb : batchSize (fetch cursorBackEnd s).2 = r :=
            batchSize_all_vector _ r (by rw [hintos]; simpa using hne)
              (by rw [hintos]; exact map_resize_all_vector s.intos M r hall)
          refine ⟨[r], ?_, by simp⟩
          rw [fetchLoop_of_true cursorBackEnd (f' + 1) s _ hpair,
            fetchLoop_of_false cursorBackEnd f' _ _
              (fetch_of_fetchSize_zero cursorBackEnd _ hzero), hb]
          rfl
      · obtain rfl : M = 1 := by omega
        have hf := fetch_noData_single cursorBackEnd s hfs hsz hle hres
        exact ⟨[], fetchLoop_of_false cursorBackEnd f s _ hf, by simp; omega⟩
    · have hres : (cursorBackEnd.fetch s.backEnd (toInt M)).1 = .eSuccess := by
        rw [hreq]; simp [hlt]
      have hrows : cursorBackEnd.getNumberOfRows (cursorBackEnd.fetch s.backEnd (toInt M)).2
          = M := by
        rw [hreq]; simp [cursorBackEnd]; omega
      have hrem : (cursorBackEnd.fetch s.backEnd (toInt M)).2.remaining = r - M := by
        rw [hreq]
        have : min M r = M := by omega
        simp [this]
      have hf := fetch_success cursorBackEnd s M hfs hsz hle hM hres
      rw [hrows, min_self] at hf
      have hpair : fetch cursorBackEnd s = (.ok true, (fetch cursorBackEnd s).2) := by
        rw [hf]
      have hintos : (fetch cursorBackEnd s).2.intos = s.intos.map (IntoType.resize M) := by
        rw [hf]
      have hfs1 : (fetch cursorBackEnd s).2.fetchSize = M := by rw [hf]
      have hini1 : (fetch cursorBackEnd s).2.initialFetchSize = s.initialFetchSize := by
        rw [hf]
      have hrem1 : (fetch cursorBackEnd s).2.backEnd.remaining = r - M := by
        rw [hf]; exact hrem
      have hne1 : (fetch cursorBackEnd s).2.intos ≠ [] := by rw [hintos]; simpa using hne
      have hall1 : ∀ o ∈ (fetch cursorBackEnd s).2.intos, o = .vector M := by
        rw [hintos]; exact map_resize_all_vector s.intos M M hall
      have hb : batchSize (fetch cursorBackEnd s).2 = M :=
        batchSize_all_vector _ M hne1 hall1
      obtain ⟨bs, hbs, hsum⟩ := ih (r - M) (by omega) (fetch cursorBackEnd s).2 M hrem1 hne1
        hall1 hM hint (by rw [hini1]; exact hle) (by rw [hfs1]; omega) f (by omega)
      refine ⟨M :: bs, ?_, by simp [hsum]; omega⟩
      rw [fetchLoop_of_true cursorBackEnd f s _ hpair, hbs, hb]
      rfl

/-- Bulk select totals over a non-empty rowset: for every `R >= 1` and batch size
`B > 1`, `execute(true)` on into vectors of size `B` over a cursor of `R` rows,
followed by `fetch` until a call reports no data, never raises, needs at most
`R + 2` fetches, and the batch sizes noted after the calls that reported data
sum to `R`. -/
theorem bulkSelect_totals (R B : Nat) (intos : List IntoType) (hR : 1 ≤ R) (hB : 1 < B)
    (hne : intos ≠ []) (hall : ∀ o ∈ intos, o = .vector B) (fuel : Nat) (hfuel : R + 2 ≤ fuel) :
    ∃ bs, bulkSelect cursorBackEnd fuel (Statement.init (Cursor.over R) intos [])
      = some (.ok bs) ∧ bs.sum = R := by
  obtain ⟨s, hs⟩ : ∃ s, s = Statement.init (Cursor.over R) intos [] := ⟨_, rfl⟩
  rw [← hs]
  have hsi : s.intos = intos := by rw [hs, Statement.init_eq]
  have hsu : s.uses = [] := by rw [hs, Statement.init_eq]
  have hsb : s.backEnd = Cursor.over R := by rw [hs, Statement.init_eq]
  clear hs
  have hn : intosSize s.intos = .ok B := by
    rw [hsi]; exact intosSize_all_vector intos B hne hall (by omega)
  have hm : usesSize s.uses = .ok 0 := by rw [hsu]; rfl
  have hb : ¬(1 < 0 ∧ 1 < B) := by omega
  have hpos := executeNum_true_pos B 0
  have hlt := executeNum_true_lt B 0
  have hle := executeNum_true_le B 0
  obtain ⟨q, hq⟩ : ∃ q : Nat, executeNum true B 0 = (q : Int) :=
    ⟨(executeNum true B 0).toNat, by omega⟩
  rw [hq] at hpos hlt hle
  have hq1 : 0 < q := by omega
  have hqint : q ≤ INT_MAX := by unfold INT_MAX; omega
  have hqB : q ≤ B := by omega
  have hreq : cursorBackEnd.execute s.backEnd (executeNum true B 0)
      = (if R < q then .eNoData else .eSuccess,
        { remaining := R - min q R, delivered := min q R }) := by
    simp [cursorBackEnd, Cursor.request, hq, hsb, Cursor.over]
  by_cases hRq : R < q
  · have hres : (cursorBackEnd.execute s.backEnd (executeNum true B 0)).1 = .eNoData := by
      rw [hreq]; simp [hRq]
    have hrows : cursorBackEnd.getNumberOfRows
        (cursorBackEnd.execute s.backEnd (executeNum true B 0)).2 = R := by
      rw [hreq]; simp [cursorBackEnd]; omega
    have hrem : (cursorBackEnd.execute s.backEnd (executeNum true B 0)).2.remaining = 0 := by
      rw [hreq]
      have : min q R = R := by omega
      simp [this]
    have hex := execute_noData cursorBackEnd s true B 0 hn hm hb hres
    rw [hrows] at hex
    have hd : decide (1 < B ∧ 0 < R) = true := by simp; omega
    rw [hd] at hex
    have hpair : execute cursorBackEnd s true = (.ok true, (execute cursorBackEnd s true).2) := by
      rw [hex]
    have hintos : (execute cursorBackEnd s true).2.intos = intos.map (IntoType.resize R) := by
      rw [hex]; simp [hB, hsi]
    have hfs1 : (execute cursorBackEnd s true).2.fetchSize = B := by rw [hex]
    have hini1 : (execute cursorBackEnd s true).2.initialFetchSize = B := by rw [hex]
    have hrem1 : (execute cursorBackEnd s true).2.backEnd.remaining = 0 := by
      rw [hex]; exact hrem
    have hne1 : (execute cursorBackEnd s true).2.intos ≠ [] := by rw [hintos]; simpa using hne
    have hall1 : ∀ o ∈ (execute cursorBackEnd s true).2.intos, o = .vector R := by
      rw [hintos]; exact map_resize_all_vector intos B R hall
    have hbs1 : batchSize (execute cursorBackEnd s true).2 = R :=
      batchSize_all_vector _ R hne1 hall1
    obtain ⟨bs, hbs, hsum⟩ := fetchLoop_totals 0 (execute cursorBackEnd s true).2 R hrem1 hne1
      hall1 hR (by omega) (by rw [hini1]; omega) (by rw [hfs1]; omega) fuel (by omega)
    refine ⟨R :: bs, ?_, by simp [hsum]⟩
    unfold bulkSelect
    rw [hpair]
    simp [hbs, hbs1, Except.map]
  · have hres : (cursorBackEnd.execute s.backEnd (executeNum true B 0)).1 = .eSuccess := by
      rw [hreq]; simp [hRq]
    have hrows : cursorBackEnd.getNumberOfRows
        (cursorBackEnd.execute s.backEnd (executeNum true B 0)).2 = q := by
      rw [hreq]; simp [cursorBackEnd]; omega
    have hrem : (cursorBackEnd.execute s.backEnd (executeNum true B 0)).2.remaining
        = R - q := by
      rw [hreq]
      have : min q R = q := by omega
      simp [this]
    have hex := execute_true_success cursorBackEnd s B 0 hn hm hb hres
    rw [hrows] at hex
    have hqq : min (executeNum true B 0).toNat q = q := by rw [hq]; simp
    rw [hqq] at hex
    clear hqq
    have hpair : execute cursorBackEnd s true = (.ok true, (execute cursorBackEnd s true).2) := by
      rw [hex]
    have hintos : (execute cursorBackEnd s true).2.intos = intos.map (IntoType.resize q) := by
      rw [hex, hsi]
    have hfs1 : (execute cursorBackEnd s true).2.fetchSize = B := by rw [hex]
    have hini1 : (execute cursorBackEnd s true).2.initialFetchSize = B := by rw [hex]
    have hrem1 : (execute cursorBackEnd s true).2.backEnd.remaining = R - q := by
      rw [hex]; exact hrem
    have hne1 : (execute cursorBackEnd s true).2.intos ≠ [] := by rw [hintos]; simpa using hne
    have hall1 : ∀ o ∈ (execute cursorBackEnd s true).2.intos, o = .vector q := by
      rw [hintos]; exact map_resize_all_vector intos B q hall
    have hbs1 : batchSize (execute cursorBackEnd s true).2 = q :=
      batchSize_all_vector _ q hne1 hall1
    obtain ⟨bs, hbs, hsum⟩ := fetchLoop_totals (R - q) (execute cursorBackEnd s true).2 q hrem1
      hne1 hall1 hq1 hqint (by rw [hini1]; exact hqB) (by rw [hfs1]; omega) fuel (by omega)
    refine ⟨q :: bs, ?_, by simp [hsum]; omega⟩
    unfold bulkSelect
    rw [hpair]
    simp [hbs, hbs1, Except.map]

/-- The totals at a concrete select: batches of 3 over 7 rows are 3, 3 and 1. -/
theorem bulkSelect_totals_witness :
    ∃ bs, bulkSelect cursorBackEnd 9 (Statement.init (Cursor.over 7) [.vector 3, .vector 3] [])
      = some (.ok bs) ∧ bs.sum = 7 :=
  bulkSelect_totals 7 3 [.vector 3, .vector 3] (by decide) (by decide) (by decide)
    (by decide) 9 (by decide)

/-! ## `execute`: the order of the hooks -/

theorem filter_isHook_map_of_true {α : Type} (f : α → Event) (l : List α)
    (h : ∀ a, (f a).isHook = true) : (l.map f).filter Event.isHook = l.map f := by
  apply List.filter_eq_self.mpr
  intro e he
  obtain ⟨a, -, rfl⟩ := List.mem_map.mp he
  exact h a

theorem filter_isHook_map_of_false {α : Type} (f : α → Event) (l : List α)
    (h : ∀ a, (f a).isHook = false) : (l.map f).filter Event.isHook = [] := by
  apply List.filter_eq_nil_iff.mpr
  intro e he
  obtain ⟨a, -, rfl⟩ := List.mem_map.mp he
  simp [h a]

theorem filter_isHook_intoPreFetch (l : List Nat) :
    (l.map Event.intoPreFetch).filter Event.isHook = l.map Event.intoPreFetch :=
  filter_isHook_map_of_true _ _ (fun _ => rfl)

theorem filter_isHook_usePreUse (l : List Nat) :
    (l.map Event.usePreUse).filter Event.isHook = l.map Event.usePreUse :=
  filter_isHook_map_of_true _ _ (fun _ => rfl)

theorem filter_isHook_intoPostFetch (l : List Nat) (g c : Bool) :
    (l.map (fun i => Event.intoPostFetch i g c)).filter Event.isHook
      = l.map (fun i => Event.intoPostFetch i g c) :=
  filter_isHook_map_of_true _ _ (fun _ => rfl)

theorem filter_isHook_usePostUse (l : List Nat) (g : Bool) :
    (l.map (fun i => Event.usePostUse i g)).filter Event.isHook
      = l.map (fun i => Event.usePostUse i g) :=
  filter_isHook_map_of_true _ _ (fun _ => rfl)

theorem filter_isHook_intoResize (l : List Nat) (r : Nat) :
    (l.map (fun i => Event.intoResize i r)).filter Event.isHook = [] :=
  filter_isHook_map_of_false _ _ (fun _ => rfl)

theorem filter_isHook_backEndExecute (num : Int) :
    [Event.backEndExecute num].filter Event.isHook = [Event.backEndExecute num] := rfl

theorem filter_isHook_backEndExecute_cons (num : Int) (l : List Event) :
    (Event.backEndExecute num :: l).filter Event.isHook
      = Event.backEndExecute num :: l.filter Event.isHook := rfl

theorem filter_isHook_getNumberOfRows (l : List Event) :
    (Event.backEndGetNumberOfRows :: l).filter Event.isHook = l.filter Event.isHook := rfl

/-- A call of `execute` that returns normally passed both reconciliations and
the bulk-conflict check. -/
theorem execute_ok_sizes {σ : Type} (be : StatementBackEnd σ) (s : Statement σ)
    (withDataExchange g : Bool) (h : (execute be s withDataExchange).1 = .ok g) :
    ∃ n m, intosSize s.intos = .ok n ∧ usesSize s.uses = .ok m ∧ ¬(1 < m ∧ 1 < n) := by
  cases hn : intosSize s.intos with
  | error e => simp [execute, hn] at h
  | ok n =>
    cases hm : usesSize s.uses with
    | error e => simp [execute, hn, hm] at h
    | ok m =>
      refine ⟨n, m, rfl, rfl, ?_⟩
      intro hb
      have hb2 : m > 1 ∧ n > 1 := hb
      simp [execute, hn, hm, hb2] at h

/-- C20: hook ordering in `execute(true)`.  For a call that returns `gotData`
without raising, on a statement with `m` into objects and `k` use objects, the
hooks and the back-end `execute` are called in this order: `preFetch` on
`i_0 .. i_{m-1}`, `preUse` on `u_0 .. u_{k-1}`, the back-end `execute`,
`postFetch` on `i_{m-1} .. i_0`, `postUse` on `u_{k-1} .. u_0`, every post hook
receiving `gotData`; so the into object declared first is the last one whose
`postFetch` runs. -/
theorem execute_hook_order {σ : Type} (be : StatementBackEnd σ) (s : Statement σ)
    (gotData : Bool) (h : (execute be s true).1 = .ok gotData) :
    (∃ num : Int,
      (((execute be s true).2.trace).drop s.trace.length).filter Event.isHook
        = (List.range s.intos.length).map Event.intoPreFetch
          ++ (List.range s.uses.length).map Event.usePreUse
          ++ [Event.backEndExecute num]
          ++ (List.range s.intos.length).reverse.map
              (fun i => Event.intoPostFetch i gotData false)
          ++ (List.range s.uses.length).reverse.map
              (fun i => Event.usePostUse i gotData)) ∧
    (0 < s.intos.length →
      ((List.range s.intos.length).reverse.map
        (fun i => Event.intoPostFetch i gotData false)).getLast?
        = some (Event.intoPostFetch 0 gotData false)) := by
  obtain ⟨n, m, hn, hm, hb⟩ := execute_ok_sizes be s true gotData h
  constructor
  · refine ⟨executeNum true n m, ?_⟩
    cases hres : (be.execute s.backEnd (executeNum true n m)).1 with
    | eSuccess =>
      have hex := execute_true_success be s n m hn hm hb hres
      rw [hex] at h
      obtain rfl : true = gotData := by simpa using h
      rw [hex]
      simp only [List.append_assoc, List.drop_left, List.filter_append,
        filter_isHook_intoPreFetch, filter_isHook_usePreUse, filter_isHook_intoPostFetch,
        filter_isHook_usePostUse, filter_isHook_intoResize, filter_isHook_backEndExecute,
          filter_isHook_backEndExecute_cons,
        List.singleton_append, filter_isHook_getNumberOfRows, List.filter_nil,
        List.nil_append, List.cons_append]
    | eNoData =>
      have hex := execute_noData be s true n m hn hm hb hres
      rw [hex] at h
      have hg : decide (1 < n ∧ 0 < be.getNumberOfRows
          (be.execute s.backEnd (executeNum true n m)).2) = gotData := by simpa using h
      rw [hex, hg]
      simp only [↓reduceIte]
      split_ifs <;>
        simp only [if_true, List.append_assoc, List.drop_left, List.filter_append,
          filter_isHook_intoPreFetch, filter_isHook_usePreUse, filter_isHook_intoPostFetch,
          filter_isHook_usePostUse, filter_isHook_intoResize, filter_isHook_backEndExecute,
          filter_isHook_backEndExecute_cons,
          List.singleton_append, filter_isHook_getNumberOfRows, List.filter_nil,
          List.nil_append, List.cons_append, List.append_nil]
  · intro hpos
    obtain ⟨k, hk⟩ : ∃ k, s.intos.length = k + 1 := ⟨s.intos.length - 1, by omega⟩
    rw [hk, List.range_succ_eq_map]
    simp

/-- C20 at a concrete statement: two into vectors and two scalar uses over a
rowset of 5 rows. -/
theorem execute_hook_order_witness :
    (∃ num : Int,
      (((execute cursorBackEnd
          (Statement.init (Cursor.over 5) [.vector 2, .vector 2] [.standard, .standard])
          true).2.trace).drop
          (Statement.init (Cursor.over 5) [.vector 2, .vector 2]
            [.standard, .standard]).trace.length).filter Event.isHook
        = (List.range 2).map Event.intoPreFetch
          ++ (List.range 2).map Event.usePreUse
          ++ [Event.backEndExecute num]
          ++ (List.range 2).reverse.map (fun i => Event.intoPostFetch i true false)
          ++ (List.range 2).reverse.map (fun i => Event.usePostUse i true)) ∧
    (0 < 2 →
      ((List.range 2).reverse.map (fun i => Event.intoPostFetch i true false)).getLast?
        = some (Event.intoPostFetch 0 true false)) :=
  execute_hook_order cursorBackEnd
    (Statement.init (Cursor.over 5) [.vector 2, .vector 2] [.standard, .standard]) true rfl

/-! ## `cleanUp` -/

/-- When every member is released without a null dereference, the release loop
empties the list and releases its members last to first. -/
theorem releaseLoop_all {α : Type} (release : α → Except NullDereference (List CleanUpEvent))
    (calls : α → List CleanUpEvent) (objs : List α)
    (h : ∀ o ∈ objs, release o = .ok (calls o)) :
    releaseLoop release objs objs.length = .ok ([], objs.reverse.flatMap calls) := by
  induction objs using List.reverseRecOn with
  | nil => rfl
  | append_singleton l p ih =>
    have hlen : (l ++ [p]).length = l.length + 1 := by simp
    have hget : (l ++ [p])[l.length]? = some p := by simp
    have htake : (l ++ [p]).take l.length = l := by simp
    have hp : release p = .ok (calls p) := h p (by simp)
    have hl : ∀ o ∈ l, release o = .ok (calls o) := fun o ho => h o (by simp [ho])
    rw [hlen]
    simp only [releaseLoop, hget, htake, hp, ih hl]
    simp

/-- When the release of some member dereferences a null pointer, so does the
loop: at the last such member of the list. -/
theorem releaseLoop_error {α : Type} (release : α → Except NullDereference (List CleanUpEvent))
    (objs : List α) (o : α) (f : NullDereference) (ho : o ∈ objs)
    (hf : release o = .error f) :
    ∃ g, releaseLoop release objs objs.length = .error g ∧
      ∃ o1 ∈ objs, release o1 = .error g := by
  induction objs using List.reverseRecOn with
  | nil => simp at ho
  | append_singleton l p ih =>
    have hlen : (l ++ [p]).length = l.length + 1 := by simp
    have hget : (l ++ [p])[l.length]? = some p := by simp
    have htake : (l ++ [p]).take l.length = l := by simp
    rw [hlen]
    cases hp : release p with
    | error g =>
      refine ⟨g, by simp only [releaseLoop, hget, hp], p, by simp, hp⟩
    | ok calls =>
      have hol : o ∈ l := by
        rcases List.mem_append.mp ho with h | h
        · exact h
        · have : o = p := by simpa using h
          subst this
          rw [hp] at hf
          cases hf
      obtain ⟨g, hg, o1, ho1, hg1⟩ := ih hol
      refine ⟨g, ?_, o1, by simp [ho1], hg1⟩
      simp only [releaseLoop, hget, htake, hp, hg]

theorem deleteIndicators_spec (slots : List (Option Nat)) :
    deleteIndicators slots
      = (slots.map (fun _ => none),
        (slots.filterMap id).map CleanUpEvent.indicatorDelete) := by
  induction slots with
  | nil => rfl
  | cons slot rest ih =>
    cases slot <;> simp [deleteIndicators, ih]

/-- The release of an into object never dereferences a null pointer: both into
classes test `backEnd_`. -/
theorem IntoObject.release_into_eq (o : IntoObject) :
    o.release
      = .ok ([CleanUpEvent.intoCleanUp o.ptr]
          ++ (match o.backEnd with
            | some b => [CleanUpEvent.exchangeBackEndCleanUp b]
            | none => [])
          ++ [CleanUpEvent.intoDelete o.ptr] ++ deleteExchangeBackEnd o.backEnd) := by
  obtain ⟨p, v, b⟩ := o
  cases v <;> cases b <;> rfl

/-- The release of a vector use object, and of a scalar use object whose
`backEnd_` is set, does not dereference a null pointer. -/
theorem UseObject.release_use_eq (o : UseObject) (h : o.isVector = false → o.backEnd ≠ none) :
    o.release
      = .ok ([CleanUpEvent.useCleanUp o.ptr]
          ++ (match o.backEnd with
            | some b => [CleanUpEvent.exchangeBackEndCleanUp b]
            | none => [])
          ++ [CleanUpEvent.useDelete o.ptr] ++ deleteExchangeBackEnd o.backEnd) := by
  obtain ⟨p, v, b⟩ := o
  cases v with
  | true => cases b <;> rfl
  | false =>
    cases b with
    | some b => rfl
    | none => exact absurd rfl (h rfl)

/-- The release of a scalar use object whose `backEnd_` is null dereferences it. -/
theorem UseObject.release_unbound (o : UseObject) (hv : o.isVector = false)
    (hb : o.backEnd = none) : o.release = .error ⟨o.ptr⟩ := by
  obtain ⟨p, v, b⟩ := o
  simp only at hv hb
  subst hv
  subst hb
  rfl

/-- The release of a use object dereferences a null pointer only for a scalar
use object whose `backEnd_` is null. -/
theorem UseObject.release_error (o : UseObject) (f : NullDereference)
    (h : o.release = .error f) : o.isVector = false ∧ o.backEnd = none ∧ f = ⟨o.ptr⟩ := by
  obtain ⟨p, v, b⟩ := o
  cases v with
  | true => cases b <;> cases h
  | false =>
    cases b with
    | some b => cases h
    | none =>
      refine ⟨rfl, rfl, ?_⟩
      have h2 : (UseObject.mk p false none).release = .error ⟨p⟩ := rfl
      rw [h2] at h
      cases h
      rfl

/-- From a state in which every scalar use object has its `backEnd_` set,
`cleanUp` returns: the lists are empty, the indicator slots and the back end are
null, and the into objects were released last to first, then the use objects
last to first, then the indicators, then the back end. -/
theorem cleanUp_eq (s : OwnedState) (h : ScalarUsesBound s.uses) :
    cleanUp s
      = .ok { intos := [], uses := [], indicators := s.indicators.map (fun _ => none),
              backEnd := none,
              trace := s.trace
                ++ s.intos.reverse.flatMap
                  (fun o => [CleanUpEvent.intoCleanUp o.ptr]
                    ++ (match o.backEnd with
                      | some b => [CleanUpEvent.exchangeBackEndCleanUp b]
                      | none => [])
                    ++ [CleanUpEvent.intoDelete o.ptr] ++ deleteExchangeBackEnd o.backEnd)
                ++ s.uses.reverse.flatMap
                  (fun o => [CleanUpEvent.useCleanUp o.ptr]
                    ++ (match o.backEnd with
                      | some b => [CleanUpEvent.exchangeBackEndCleanUp b]
                      | none => [])
                    ++ [CleanUpEvent.useDelete o.ptr] ++ deleteExchangeBackEnd o.backEnd)
                ++ (s.indicators.filterMap id).map CleanUpEvent.indicatorDelete
                ++ (match s.backEnd with
                  | some b => [CleanUpEvent.backEndCleanUp b, CleanUpEvent.backEndDelete b]
                  | none => []) } := by
  have h1 := releaseLoop_all IntoObject.release _ s.intos
    (fun o _ => IntoObject.release_into_eq o)
  have h2 := releaseLoop_all UseObject.release _ s.uses
    (fun o ho => UseObject.release_use_eq o (h o ho))
  simp only [cleanUp, h1, h2, deleteIndicators_spec]

/-- From a state holding a scalar use object whose `backEnd_` is null, `cleanUp`
dereferences the null `backEnd_` of such an object. -/
theorem cleanUp_crash (s : OwnedState) (h : ¬ ScalarUsesBound s.uses) :
    ∃ u ∈ s.uses, u.isVector = false ∧ u.backEnd = none ∧ cleanUp s = .error ⟨u.ptr⟩ := by
  unfold ScalarUsesBound at h
  push_neg at h
  obtain ⟨u, hu, hv, hb⟩ := h
  obtain ⟨g, hg, u1, hu1, hg1⟩ :=
    releaseLoop_error UseObject.release s.uses u ⟨u.ptr⟩ hu (UseObject.release_unbound u hv hb)
  obtain ⟨hv1, hb1, hf1⟩ := UseObject.release_error u1 g hg1
  refine ⟨u1, hu1, hv1, hb1, ?_⟩
  have h1 := releaseLoop_all IntoObject.release _ s.intos
    (fun o _ => IntoObject.release_into_eq o)
  simp only [cleanUp, h1, hg, hf1]

/-- `cleanUp` returns exactly from the states in which every scalar use object
has its `backEnd_` set. -/
theorem cleanUp_returns_iff (s : OwnedState) :
    (∃ s1, cleanUp s = .ok s1) ↔ ScalarUsesBound s.uses := by
  constructor
  · rintro ⟨s1, hs1⟩
    by_contra hnot
    obtain ⟨u, _, _, _, hcrash⟩ := cleanUp_crash s hnot
    rw [hcrash] at hs1
    cases hs1
  · intro h
    exact ⟨_, cleanUp_eq s h⟩

/-- Whenever `cleanUp` returns, a second `cleanUp` returns the same state with
the same trace: it makes no call on any exchange object, indicator or back end. -/
theorem cleanUp_idempotent_of_returns (s s1 : OwnedState) (h : cleanUp s = .ok s1) :
    s1.intos = [] ∧ s1.uses = [] ∧ s1.indicators.length = s.indicators.length ∧
    (∀ slot ∈ s1.indicators, slot = none) ∧ s1.backEnd = none ∧
    cleanUp s1 = .ok s1 := by
  have hb : ScalarUsesBound s.uses := (cleanUp_returns_iff s).mp ⟨s1, h⟩
  rw [cleanUp_eq s hb] at h
  injection h with h
  subst h
  refine ⟨rfl, rfl, by simp, ?_, rfl, ?_⟩
  · intro slot hslot
    simp only [List.mem_map] at hslot
    obtain ⟨_, _, rfl⟩ := hslot
    rfl
  · rw [cleanUp_eq _ (by intro u hu; simp at hu)]
    simp [List.filterMap_map, Function.comp_def]

/-- C11: `cleanUp` is not reachable from every statement state.  From a statement
that has been handed one scalar use object that is not bound yet (its `backEnd_`
is null), the first `cleanUp` calls `backEnd_->cleanUp()` through the null
pointer in `StandardUseType::cleanUp` and does not return.  From the same
statement with a vector use object in its place, `cleanUp` returns, with both
lists empty and the back end null, and a second `cleanUp` changes nothing. -/
theorem cleanUp_unbound_scalar_use :
    cleanUp { intos := [⟨1, false, none⟩], uses := [⟨2, false, none⟩], indicators := [],
              backEnd := some 9, trace := [] }
      = .error ⟨2⟩ ∧
    cleanUp { intos := [⟨1, false, none⟩], uses := [⟨2, true, none⟩], indicators := [],
              backEnd := some 9, trace := [] }
      = .ok { intos := [], uses := [], indicators := [], backEnd := none,
              trace := [CleanUpEvent.intoCleanUp 1, CleanUpEvent.intoDelete 1,
                CleanUpEvent.useCleanUp 2, CleanUpEvent.useDelete 2,
                CleanUpEvent.backEndCleanUp 9, CleanUpEvent.backEndDelete 9] } ∧
    cleanUp { intos := [], uses := [], indicators := [], backEnd := none,
              trace := [CleanUpEvent.intoCleanUp 1, CleanUpEvent.intoDelete 1,
                CleanUpEvent.useCleanUp 2, CleanUpEvent.useDelete 2,
                CleanUpEvent.backEndCleanUp 9, CleanUpEvent.backEndDelete 9] }
      = .ok { intos := [], uses := [], indicators := [], backEnd := none,
              trace := [CleanUpEvent.intoCleanUp 1, CleanUpEvent.intoDelete 1,
                CleanUpEvent.useCleanUp 2, CleanUpEvent.useDelete 2,
                CleanUpEvent.backEndCleanUp 9, CleanUpEvent.backEndDelete 9] } := by
  decide

/-! ## Teardown of the once-builder's statement -/

/-- A bind loop that ends without an exception has set the `backEnd_` of every
use object. -/
theorem bindLoop_bound (bind : Nat → DefineResult) (uses : List UseObject)
    (h : (bindLoop bind uses).2 = none) : ∀ u ∈ (bindLoop bind uses).1, u.backEnd ≠ none := by
  induction uses with
  | nil => intro u hu; simp [bindLoop] at hu
  | cons o rest ih =>
    cases hb : bind o.ptr with
    | done hd =>
      simp only [bindLoop, hb] at h ⊢
      intro u hu
      rcases List.mem_cons.mp hu with hu | hu
      · subst hu
        simp
      · exact ih h u hu
    | makeThrows e => simp [bindLoop, hb] at h
    | bindThrows hd e => simp [bindLoop, hb] at h

/-- The bind loop does not change the class of a use object. -/
theorem bindLoop_vector (bind : Nat → DefineResult) (uses : List UseObject)
    (h : ∀ u ∈ uses, u.isVector = true) : ∀ u ∈ (bindLoop bind uses).1, u.isVector = true := by
  induction uses with
  | nil => intro u hu; simp [bindLoop] at hu
  | cons o rest ih =>
    have ho : o.isVector = true := h o (by simp)
    have hrest : ∀ u ∈ rest, u.isVector = true := fun u hu => h u (by simp [hu])
    cases hb : bind o.ptr with
    | done hd =>
      simp only [bindLoop, hb]
      intro u hu
      rcases List.mem_cons.mp hu with hu | hu
      · subst hu
        exact ho
      · exact ih hrest u hu
    | makeThrows e =>
      simp only [bindLoop, hb]
      exact h
    | bindThrows hd e =>
      simp only [bindLoop, hb]
      intro u hu
      rcases List.mem_cons.mp hu with hu | hu
      · subst hu
        exact ho
      · exact hrest u hu

/-- `defineAndBind` leaves the use list as it was or as the bind loop leaves it. -/
theorem defineAndBind_uses (oracle : TeardownOracle) (s : OwnedState) :
    (defineAndBind oracle s).1.uses = s.uses ∨
    (defineAndBind oracle s).1.uses = (bindLoop oracle.bind s.uses).1 := by
  cases h : (defineLoop oracle.define s.intos).2 with
  | some e => left; simp [defineAndBind, h]
  | none => right; simp [defineAndBind, h]

/-- After a `defineAndBind` that ends without an exception every use object has
its `backEnd_` set. -/
theorem defineAndBind_bound (oracle : TeardownOracle) (s : OwnedState)
    (h : (defineAndBind oracle s).2 = none) : ScalarUsesBound (defineAndBind oracle s).1.uses := by
  cases h1 : (defineLoop oracle.define s.intos).2 with
  | some e => simp [defineAndBind, h1] at h
  | none =>
    simp only [defineAndBind, h1] at h ⊢
    intro u hu _
    exact bindLoop_bound oracle.bind s.uses h u hu

/-- The `try` block performs the first `k` of the four operations, in order,
where the `k`-th is the first to throw, or all four. -/
theorem runTryBlock_steps (oracle : TeardownOracle) (query : String) (s : OwnedState) :
    (oracle.alloc = none → oracle.prepare query = none →
      (defineAndBind oracle s).2 = none →
      runTryBlock oracle query s
        = ([TeardownStep.alloc, TeardownStep.prepare query, TeardownStep.defineAndBind,
            TeardownStep.execute true], (defineAndBind oracle s).1, oracle.execute true)) ∧
    (∀ e, oracle.alloc = none → oracle.prepare query = none →
      (defineAndBind oracle s).2 = some e →
      runTryBlock oracle query s
        = ([TeardownStep.alloc, TeardownStep.prepare query, TeardownStep.defineAndBind],
          (defineAndBind oracle s).1, some e)) ∧
    (∀ e, oracle.alloc = none → oracle.prepare query = some e →
      runTryBlock oracle query s
        = ([TeardownStep.alloc, TeardownStep.prepare query], s, some e)) ∧
    (∀ e, oracle.alloc = some e →
      runTryBlock oracle query s = ([TeardownStep.alloc], s, some e)) ∧
    (∃ k, 1 ≤ k ∧ k ≤ 4 ∧
      (runTryBlock oracle query s).1
        = [TeardownStep.alloc, TeardownStep.prepare query, TeardownStep.defineAndBind,
            TeardownStep.execute true].take k ∧
      ((runTryBlock oracle query s).2.2 = none → k = 4)) := by
  refine ⟨fun h1 h2 h3 => by simp [runTryBlock, h1, h2, h3],
    fun e h1 h2 h3 => by simp [runTryBlock, h1, h2, h3],
    fun e h1 h2 => by simp [runTryBlock, h1, h2],
    fun e h1 => by simp [runTryBlock, h1], ?_⟩
  cases h1 : oracle.alloc with
  | some e => exact ⟨1, by omega, by omega, by simp [runTryBlock, h1], by simp [runTryBlock, h1]⟩
  | none =>
    cases h2 : oracle.prepare query with
    | some e =>
      exact ⟨2, by omega, by omega, by simp [runTryBlock, h1, h2],
        by simp [runTryBlock, h1, h2]⟩
    | none =>
      cases h3 : (defineAndBind oracle s).2 with
      | some e =>
        exact ⟨3, by omega, by omega, by simp [runTryBlock, h1, h2, h3],
          by simp [runTryBlock, h1, h2, h3]⟩
      | none =>
        exact ⟨4, by omega, by omega, by simp [runTryBlock, h1, h2, h3], fun _ => rfl⟩

/-- The use objects after the `try` block are those before it, or those the bind
loop leaves. -/
theorem runTryBlock_uses (oracle : TeardownOracle) (query : String) (s : OwnedState) :
    (runTryBlock oracle query s).2.1.uses = s.uses ∨
    (runTryBlock oracle query s).2.1.uses = (bindLoop oracle.bind s.uses).1 := by
  cases h1 : oracle.alloc with
  | some e => left; simp [runTryBlock, h1]
  | none =>
    cases h2 : oracle.prepare query with
    | some e => left; simp [runTryBlock, h1, h2]
    | none =>
      cases h3 : (defineAndBind oracle s).2 with
      | some e =>
        simp only [runTryBlock, h1, h2, h3]
        exact defineAndBind_uses oracle s
      | none =>
        simp only [runTryBlock, h1, h2, h3]
        exact defineAndBind_uses oracle s

/-- When every scalar use object has its `backEnd_` set at the end of the `try`
block, the destructor performs the operations of the `try` block, then
`cleanUp`, then, through `~Statement`, a second `cleanUp` that finds nothing to
release; an exception thrown in the `try` block is the one that leaves the
destructor, and without one the destructor returns. -/
theorem destroyRefCountedStatement_of_bound (query : String) (oracle : TeardownOracle)
    (s : OwnedState) (h : ScalarUsesBound (runTryBlock oracle query s).2.1.uses) :
    destroyRefCountedStatement query oracle s
      = ((runTryBlock oracle query s).1 ++ [TeardownStep.cleanUp, TeardownStep.cleanUp],
        match (runTryBlock oracle query s).2.2 with
        | some e => TeardownResult.raised e
        | none => TeardownResult.completed) ∧
    ∃ s1, cleanUp (runTryBlock oracle query s).2.1 = .ok s1 ∧ cleanUp s1 = .ok s1 := by
  obtain ⟨s1, hs1⟩ := (cleanUp_returns_iff (runTryBlock oracle query s).2.1).mpr h
  have hs2 : cleanUp s1 = .ok s1 := (cleanUp_idempotent_of_returns _ s1 hs1).2.2.2.2.2
  refine ⟨?_, s1, hs1, hs2⟩
  simp only [destroyRefCountedStatement, hs1, hs2]

/-- When a scalar use object has a null `backEnd_` at the end of the `try` block,
the `cleanUp` of the destructor body dereferences it: nothing is propagated and
no further operation runs. -/
theorem destroyRefCountedStatement_of_unbound (query : String) (oracle : TeardownOracle)
    (s : OwnedState) (h : ¬ ScalarUsesBound (runTryBlock oracle query s).2.1.uses) :
    ∃ u ∈ (runTryBlock oracle query s).2.1.uses, u.isVector = false ∧ u.backEnd = none ∧
      destroyRefCountedStatement query oracle s
        = ((runTryBlock oracle query s).1 ++ [TeardownStep.cleanUp],
          TeardownResult.crashed ⟨u.ptr⟩) := by
  obtain ⟨u, hu, hv, hb, hcrash⟩ := cleanUp_crash _ h
  refine ⟨u, hu, hv, hb, ?_⟩
  simp only [destroyRefCountedStatement, hcrash]

/-- A once-builder without scalar use objects is torn down without a null
dereference, whatever the back end does. -/
theorem runTryBlock_bound_of_vector (query : String) (oracle : TeardownOracle)
    (s : OwnedState) (h : ∀ u ∈ s.uses, u.isVector = true) :
    ScalarUsesBound (runTryBlock oracle query s).2.1.uses := by
  intro u hu hv
  have hvec : u.isVector = true := by
    rcases runTryBlock_uses oracle query s with h1 | h1
    · rw [h1] at hu; exact h u hu
    · rw [h1] at hu; exact bindLoop_vector oracle.bind s.uses h u hu
  rw [hvec] at hv
  cases hv

/-- When `alloc`, `prepare` and `defineAndBind` succeed, every use object is
bound before `cleanUp` runs. -/
theorem runTryBlock_bound_of_bind (query : String) (oracle : TeardownOracle)
    (s : OwnedState) (h1 : oracle.alloc = none) (h2 : oracle.prepare query = none)
    (h3 : (defineAndBind oracle s).2 = none) :
    ScalarUsesBound (runTryBlock oracle query s).2.1.uses := by
  rw [(runTryBlock_steps oracle query s).1 h1 h2 h3]
  exact defineAndBind_bound oracle s h3

/-- When `alloc` or `prepare` throws and the builder holds a scalar use object
that is not bound yet, the `cleanUp` of the `catch` block dereferences a null
pointer. -/
theorem destroyRefCountedStatement_early_failure (query : String) (oracle : TeardownOracle)
    (s : OwnedState) (e : SOCIError)
    (hfail : oracle.alloc = some e ∨ (oracle.alloc = none ∧ oracle.prepare query = some e))
    (h : ¬ ScalarUsesBound s.uses) :
    ∃ steps f, destroyRefCountedStatement query oracle s
      = (steps ++ [TeardownStep.cleanUp], TeardownResult.crashed f) := by
  have hst : (runTryBlock oracle query s).2.1 = s := by
    rcases hfail with h1 | ⟨h1, h2⟩
    · rw [(runTryBlock_steps oracle query s).2.2.2.1 e h1]
    · rw [(runTryBlock_steps oracle query s).2.2.1 e h1 h2]
  have h2 : ¬ ScalarUsesBound (runTryBlock oracle query s).2.1.uses := by
    rw [hst]; exact h
  obtain ⟨u, _, _, _, hd⟩ := destroyRefCountedStatement_of_unbound query oracle s h2
  exact ⟨_, _, hd⟩

/-- C18: the once-builder teardown does not always propagate the failure of a
step.  For a builder holding one scalar use object, not bound before the
teardown: when `alloc` throws, the operations are `alloc`, then the `cleanUp` of
the `catch` block, which dereferences the null `backEnd_` of the use object in
`StandardUseType::cleanUp`, so that no error is propagated; likewise when
`prepare` throws, and when `define` of an into object throws before the use
object is bound.  With a vector use object in its place the failure of `alloc`
is propagated, after the `cleanUp` of the `catch` block and a second `cleanUp`
from the destructor of the statement; and when no operation throws, the scalar
use object is bound by `defineAndBind` and the destructor returns after the four
operations and the two `cleanUp` calls. -/
theorem destroyRefCountedStatement_unbound_scalar_use :
    destroyRefCountedStatement "insert into t values(:a)"
        { alloc := some "alloc failed", prepare := fun _ => none,
          define := fun p => DefineResult.done (100 + p),
          bind := fun p => DefineResult.done (200 + p), execute := fun _ => none }
        (OwnedState.built 9 [] [⟨2, false, none⟩])
      = ([TeardownStep.alloc, TeardownStep.cleanUp], TeardownResult.crashed ⟨2⟩) ∧
    destroyRefCountedStatement "insert into t values(:a)"
        { alloc := none, prepare := fun _ => some "syntax error",
          define := fun p => DefineResult.done (100 + p),
          bind := fun p => DefineResult.done (200 + p), execute := fun _ => none }
        (OwnedState.built 9 [] [⟨2, false, none⟩])
      = ([TeardownStep.alloc, TeardownStep.prepare "insert into t values(:a)",
          TeardownStep.cleanUp], TeardownResult.crashed ⟨2⟩) ∧
    destroyRefCountedStatement "select a from t where b = :b"
        { alloc := none, prepare := fun _ => none,
          define := fun _ => DefineResult.makeThrows "define failed",
          bind := fun p => DefineResult.done (200 + p), execute := fun _ => none }
        (OwnedState.built 9 [⟨1, false, none⟩] [⟨2, false, none⟩])
      = ([TeardownStep.alloc, TeardownStep.prepare "select a from t where b = :b",
          TeardownStep.defineAndBind, TeardownStep.cleanUp], TeardownResult.crashed ⟨2⟩) ∧
    destroyRefCountedStatement "insert into t values(:a)"
        { alloc := some "alloc failed", prepare := fun _ => none,
          define := fun p => DefineResult.done (100 + p),
          bind := fun p => DefineResult.done (200 + p), execute := fun _ => none }
        (OwnedState.built 9 [] [⟨2, true, none⟩])
      = ([TeardownStep.alloc, TeardownStep.cleanUp, TeardownStep.cleanUp],
        TeardownResult.raised "alloc failed") ∧
    destroyRefCountedStatement "insert into t values(:a)"
        { alloc := none, prepare := fun _ => none,
          define := fun p => DefineResult.done (100 + p),
          bind := fun p => DefineResult.done (200 + p), execute := fun _ => none }
        (OwnedState.built 9 [] [⟨2, false, none⟩])
      = ([TeardownStep.alloc, TeardownStep.prepare "insert into t values(:a)",
          TeardownStep.defineAndBind, TeardownStep.execute true, TeardownStep.cleanUp,
          TeardownStep.cleanUp], TeardownResult.completed) := by
  decide

/-! ## Row name lookup -/

theorem Row.ofColumns_concat (l : List ColumnProperties) (cp : ColumnProperties) :
    Row.ofColumns (l ++ [cp]) = (Row.ofColumns l).addProperties cp := by
  simp [Row.ofColumns, List.foldl_append]

theorem Row.ofColumns_columns (cps : List ColumnProperties) :
    (Row.ofColumns cps).columns = cps := by
  induction cps using List.reverseRecOn with
  | nil => rfl
  | append_singleton l cp ih =>
    rw [Row.ofColumns_concat]
    simp [Row.addProperties, ih]

theorem Row.ofColumns_index_concat (l : List ColumnProperties) (cp : ColumnProperties)
    (name : String) :
    (Row.ofColumns (l ++ [cp])).index name
      = if name = cp.name then some l.length else (Row.ofColumns l).index name := by
  rw [Row.ofColumns_concat]
  simp [Row.addProperties, Row.ofColumns_columns]

theorem Row.ofColumns_index_none (cps : List ColumnProperties) (name : String) :
    (Row.ofColumns cps).index name = none ↔ ∀ cp ∈ cps, cp.name ≠ name := by
  induction cps using List.reverseRecOn with
  | nil => simp [Row.ofColumns, Row.empty]
  | append_singleton l cp ih =>
    rw [Row.ofColumns_index_concat]
    by_cases h : name = cp.name
    · simp only [h, if_true, reduceCtorEq, false_iff]
      intro hall
      exact hall cp (by simp) rfl
    · simp only [h, if_false, ih, List.mem_append, List.mem_singleton]
      constructor
      · rintro hl c (hc | rfl)
        · exact hl c hc
        · exact fun hc => h hc.symm
      · intro hall c hc
        exact hall c (Or.inl hc)

/-- The index maps a name to the position of the last column added with it. -/
theorem Row.ofColumns_index_some (cps : List ColumnProperties) (name : String) (p : Nat) :
    (Row.ofColumns cps).index name = some p ↔
      (∃ cp, cps[p]? = some cp ∧ cp.name = name) ∧
      ∀ j cp, p < j → cps[j]? = some cp → cp.name ≠ name := by
  induction cps using List.reverseRecOn with
  | nil => simp [Row.ofColumns, Row.empty]
  | append_singleton l cp ih =>
    rw [Row.ofColumns_index_concat]
    by_cases h : name = cp.name
    · simp only [h, if_true, Option.some.injEq]
      constructor
      · rintro rfl
        refine ⟨⟨cp, by simp, rfl⟩, ?_⟩
        intro j c hj hc
        have : j < (l ++ [cp]).length := (List.getElem?_eq_some_iff.mp hc).1
        simp at this
        omega
      · rintro ⟨⟨c, hc, -⟩, hlater⟩
        have hp : p < (l ++ [cp]).length := (List.getElem?_eq_some_iff.mp hc).1
        simp at hp
        by_contra hne
        exact hlater l.length cp (by omega) (by simp) rfl
    · simp only [h, if_false, ih]
      constructor
      · rintro ⟨⟨c, hc, hcn⟩, hlater⟩
        have hp : p < l.length := (List.getElem?_eq_some_iff.mp hc).1
        refine ⟨⟨c, by rw [List.getElem?_append_left hp]; exact hc, hcn⟩, ?_⟩
        intro j c' hj hc'
        have hjl : j < (l ++ [cp]).length := (List.getElem?_eq_some_iff.mp hc').1
        simp at hjl
        by_cases hjlt : j < l.length
        · rw [List.getElem?_append_left hjlt] at hc'
          exact hlater j c' hj hc'
        · obtain rfl : j = l.length := by omega
          simp at hc'
          subst hc'
          exact fun hc => h hc.symm
      · rintro ⟨⟨c, hc, hcn⟩, hlater⟩
        have hp : p < (l ++ [cp]).length := (List.getElem?_eq_some_iff.mp hc).1
        simp at hp
        have hpl : p < l.length := by
          by_contra hge
          obtain rfl : p = l.length := by omega
          simp at hc
          subst hc
          exact h hcn.symm
        rw [List.getElem?_append_left hpl] at hc
        refine ⟨⟨c, hc, hcn⟩, ?_⟩
        intro j c' hj hc'
        have hjl : j < l.length := (List.getElem?_eq_some_iff.mp hc').1
        exact hlater j c' hj (by rw [List.getElem?_append_left hjl]; exact hc')

/-- C16: row name lookup.  After any sequence `cps` of `addProperties` calls,
`findColumn(name)` fails, with the error "Column '<name>' not found", if and only
if no column with that name was added; when it returns `p`, `p` is smaller than
the number of columns (so `getProperties(name)` meets its bounds precondition),
the column stored at `p` has that name and `p` is the position of the last column
added with that name; when all names are distinct, `findColumn` of the `i`-th
added name is `i`. -/
theorem findColumn_spec (cps : List ColumnProperties) (name : String) :
    (((∃ e, (Row.ofColumns cps).findColumn name = .error e) ↔ ∀ cp ∈ cps, cp.name ≠ name) ∧
      ∀ e, (Row.ofColumns cps).findColumn name = .error e → e = columnNotFoundMsg name) ∧
    (∀ p, (Row.ofColumns cps).findColumn name = .ok p →
      p < cps.length ∧
      (∃ cp, (Row.ofColumns cps).columns[p]? = some cp ∧ cp.name = name ∧
        (Row.ofColumns cps).getPropertiesAt p = some cp ∧
        (Row.ofColumns cps).getProperties name = .ok (some cp)) ∧
      ∀ j cp, p < j → cps[j]? = some cp → cp.name ≠ name) ∧
    ((cps.map ColumnProperties.name).Nodup →
      ∀ i cp, cps[i]? = some cp → (Row.ofColumns cps).findColumn cp.name = .ok i) := by
  refine ⟨⟨?_, ?_⟩, ?_, ?_⟩
  · rw [← Row.ofColumns_index_none]
    cases h : (Row.ofColumns cps).index name <;> simp [Row.findColumn, h]
  · intro e he
    cases h : (Row.ofColumns cps).index name with
    | none => simpa [Row.findColumn, h] using he.symm
    | some p => simp [Row.findColumn, h] at he
  · intro p hp
    have hidx : (Row.ofColumns cps).index name = some p := by
      cases h : (Row.ofColumns cps).index name with
      | none => simp [Row.findColumn, h] at hp
      | some q => simpa [Row.findColumn, h] using hp
    obtain ⟨⟨cp, hcp, hname⟩, hlater⟩ := (Row.ofColumns_index_some cps name p).mp hidx
    have hlt : p < cps.length := (List.getElem?_eq_some_iff.mp hcp).1
    have hat : (Row.ofColumns cps).getPropertiesAt p = some cp := by
      have : cps.length ≥ p + 1 := hlt
      simp [Row.getPropertiesAt, Row.ofColumns_columns, this, hcp]
    refine ⟨hlt, ⟨cp, by rw [Row.ofColumns_columns]; exact hcp, hname, hat, ?_⟩, hlater⟩
    simp [Row.getProperties, hp, hat]
  · intro hnodup i cp hcp
    have hidx : (Row.ofColumns cps).index cp.name = some i := by
      rw [Row.ofColumns_index_some]
      refine ⟨⟨cp, hcp, rfl⟩, ?_⟩
      intro j c hij hc heq
      have hj : j < (cps.map ColumnProperties.name).length := by
        simpa using (List.getElem?_eq_some_iff.mp hc).1
      refine List.nodup_iff_getElem?_ne_getElem?.mp hnodup i j hij hj ?_
      simp [hcp, hc, heq]
    simp [Row.findColumn, hidx]

/-- C16 at a concrete row: columns "id", "name", "id" were added; "id" is found
at its last position 2, "name" at 1, and "missing" fails with the message that
names it. -/
theorem findColumn_spec_witness :
    (Row.ofColumns [⟨"id", .eInteger⟩, ⟨"name", .eString⟩, ⟨"id", .eDouble⟩]).findColumn "id"
      = .ok 2 ∧
    (Row.ofColumns [⟨"id", .eInteger⟩, ⟨"name", .eString⟩, ⟨"id", .eDouble⟩]).findColumn "name"
      = .ok 1 ∧
    (Row.ofColumns [⟨"id", .eInteger⟩, ⟨"name", .eString⟩, ⟨"id", .eDouble⟩]).findColumn
        "missing"
      = .error "Column 'missing' not found" ∧
    (∀ e, (Row.ofColumns [⟨"id", .eInteger⟩, ⟨"name", .eString⟩, ⟨"id", .eDouble⟩]).findColumn
        "missing" = .error e → e = columnNotFoundMsg "missing") :=
  ⟨by decide, by decide, by decide,
    (findColumn_spec [⟨"id", .eInteger⟩, ⟨"name", .eString⟩, ⟨"id", .eDouble⟩] "missing").1.2⟩

/-! ## `describe` -/

/-- On a supported type the switch adds the one matching into-binding. -/
theorem describeSwitch_of_supported (dtype : eDataType) (ty : ScalarType) (st : DescribeState)
    (h : matchingScalarType dtype = some ty) :
    describeSwitch dtype st = .ok { st with rowIntos := st.rowIntos ++ [ty] } := by
  cases dtype <;> simp [matchingScalarType] at h <;> subst h <;> rfl

/-- The loop over a prefix of supported columns adds their bindings and
properties, in order, and goes on with the remaining columns. -/
theorem describeLoop_prefix (pre : List (eDataType × String)) (tys : List ScalarType)
    (rest : List (eDataType × String)) (st : DescribeState)
    (h : pre.map (fun c => matchingScalarType c.1) = tys.map some) :
    describeLoop (pre ++ rest) st
      = describeLoop rest
        { rowIntos := st.rowIntos ++ tys,
          row := (pre.map (fun c => (⟨c.2, c.1⟩ : ColumnProperties))).foldl
            Row.addProperties st.row } := by
  induction pre generalizing tys st with
  | nil =>
    cases tys with
    | nil => simp
    | cons ty tys => simp at h
  | cons c pre ih =>
    cases tys with
    | nil => simp at h
    | cons ty tys =>
      simp only [List.map_cons, List.cons.injEq] at h
      obtain ⟨hc, hpre⟩ := h
      obtain ⟨dtype, columnName⟩ := c
      have hc2 : matchingScalarType dtype = some ty := hc
      show describeLoop ((dtype, columnName) :: (pre ++ rest)) st = _
      simp only [describeLoop, describeSwitch_of_supported dtype ty st hc2]
      rw [ih tys _ hpre]
      simp

theorem describeLoop_fails_iff (columns : List (eDataType × String)) (st : DescribeState) :
    (∃ e, (describeLoop columns st).1 = .error e) ↔
      ∃ c ∈ columns, c.1.isSupported = false := by
  induction columns generalizing st with
  | nil => simp [describeLoop]
  | cons c rest ih =>
    obtain ⟨dtype, columnName⟩ := c
    cases hty : matchingScalarType dtype with
    | none =>
      have hsw : ∃ value, describeSwitch dtype st = .error (unsupportedTypeMsg value) := by
        cases dtype <;> simp [matchingScalarType] at hty
        exact ⟨_, rfl⟩
      obtain ⟨value, hsw⟩ := hsw
      simp only [describeLoop, hsw]
      constructor
      · intro _
        exact ⟨(dtype, columnName), by simp, by simp [eDataType.isSupported, hty]⟩
      · intro _
        exact ⟨_, rfl⟩
    | some ty =>
      simp only [describeLoop, describeSwitch_of_supported dtype ty st hty, ih]
      constructor
      · rintro ⟨c, hc, hs⟩
        exact ⟨c, List.mem_cons_of_mem _ hc, hs⟩
      · rintro ⟨c, hc, hs⟩
        rcases List.mem_cons.mp hc with rfl | hc
        · simp [eDataType.isSupported, hty] at hs
        · exact ⟨c, hc, hs⟩

/-- When no column fails, every column has a matching scalar type. -/
theorem matching_of_all_supported (columns : List (eDataType × String))
    (h : ∀ c ∈ columns, c.1.isSupported = true) :
    ∃ tys : List ScalarType, columns.map (fun c => matchingScalarType c.1) = tys.map some := by
  induction columns with
  | nil => exact ⟨[], rfl⟩
  | cons c rest ih =>
    obtain ⟨tys, htys⟩ := ih (fun c' hc' => h c' (List.mem_cons_of_mem _ hc'))
    have hc := h c (List.mem_cons_self _ _)
    obtain ⟨ty, hty⟩ := Option.isSome_iff_exists.mp hc
    exact ⟨ty :: tys, by simp [hty, htys]⟩

/-- C17: `describe` fails, with the "not supported for dynamic selects" error, if
and only if some column's semantic type is not one of string, double, integer,
unsigned-long, date.  When it succeeds it has added exactly one row into-binding
per column, in column order and of the matching scalar type, and one
`ColumnProperties` (name, type) per column in the same order.  When column
`k + 1` (at index `k`) is the first unsupported one, exactly the bindings and
properties of the `k` columns before it have been added. -/
theorem describe_spec (columns : List (eDataType × String)) (st : DescribeState) :
    ((∃ e, (describe columns st).1 = .error e) ↔
      ∃ c ∈ columns, c.1.isSupported = false) ∧
    ((describe columns st).1 = .ok () →
      ∃ tys : List ScalarType,
        columns.map (fun c => matchingScalarType c.1) = tys.map some ∧
        (describe columns st).2.rowIntos = st.rowIntos ++ tys ∧
        (describe columns st).2.row
          = (columns.map (fun c => (⟨c.2, c.1⟩ : ColumnProperties))).foldl
            Row.addProperties st.row ∧
        (describe columns st).2.row.columns
          = st.row.columns ++ columns.map (fun c => (⟨c.2, c.1⟩ : ColumnProperties))) ∧
    (∀ (k value : Nat) (columnName : String),
      columns[k]? = some (eDataType.other value, columnName) →
      (∀ c ∈ columns.take k, c.1.isSupported = true) →
      (describe columns st).1 = .error (unsupportedTypeMsg value) ∧
      ∃ tys : List ScalarType,
        (columns.take k).map (fun c => matchingScalarType c.1) = tys.map some ∧
        (describe columns st).2.rowIntos = st.rowIntos ++ tys ∧
        (describe columns st).2.row.columns
          = st.row.columns
            ++ (columns.take k).map (fun c => (⟨c.2, c.1⟩ : ColumnProperties)) ∧
        (describe columns st).2.rowIntos.length - st.rowIntos.length = k ∧
        (describe columns st).2.row.columns.length - st.row.columns.length = k) := by
  have hcols : ∀ (l : List ColumnProperties) (r : Row),
      (l.foldl Row.addProperties r).columns = r.columns ++ l := by
    intro l
    induction l with
    | nil => simp
    | cons cp l ih => intro r; simp [ih, Row.addProperties]
  refine ⟨describeLoop_fails_iff columns st, ?_, ?_⟩
  · intro hok
    have hall : ∀ c ∈ columns, c.1.isSupported = true := by
      intro c hc
      by_contra hns
      have : ∃ e, (describe columns st).1 = .error e :=
        (describeLoop_fails_iff columns st).mpr ⟨c, hc, by simpa using hns⟩
      obtain ⟨e, he⟩ := this
      rw [hok] at he
      cases he
    obtain ⟨tys, htys⟩ := matching_of_all_supported columns hall
    have hrun := describeLoop_prefix columns tys [] st htys
    rw [List.append_nil] at hrun
    refine ⟨tys, htys, ?_, ?_, ?_⟩
    · simp [describe, hrun, describeLoop]
    · simp [describe, hrun, describeLoop]
    · simp [describe, hrun, describeLoop, hcols]
  · intro k value columnName hk hpre
    have hlt : k < columns.length := (List.getElem?_eq_some_iff.mp hk).1
    have hsplit : columns
        = columns.take k ++ (eDataType.other value, columnName) :: columns.drop (k + 1) := by
      have hget : columns[k] = (eDataType.other value, columnName) :=
        (List.getElem?_eq_some_iff.mp hk).2
      rw [← hget, ← List.drop_eq_getElem_cons hlt, List.take_append_drop]
    obtain ⟨tys, htys⟩ := matching_of_all_supported (columns.take k) hpre
    have hrun := describeLoop_prefix (columns.take k) tys
      ((eDataType.other value, columnName) :: columns.drop (k + 1)) st htys
    rw [← hsplit] at hrun
    have hlen : tys.length = k := by
      have := congrArg List.length htys
      simp at this
      omega
    refine ⟨by simp [describe, hrun, describeLoop, describeSwitch], tys, htys, ?_, ?_, ?_, ?_⟩
    · simp [describe, hrun, describeLoop, describeSwitch]
    · simp [describe, hrun, describeLoop, describeSwitch, hcols]
    · simp [describe, hrun, describeLoop, describeSwitch, hlen]
    · simp [describe, hrun, describeLoop, describeSwitch, hcols]
      omega

/-- C17 at the columns `[("id", integer), ("name", string)]` on a fresh row: two
bindings typed `int` and `std::string`, `getProperties("name")` has data type
string and `findColumn("missing")` fails; with an unsupported third column
`describe` fails after adding exactly the first two. -/
theorem describe_spec_witness :
    ((describe [(.eInteger, "id"), (.eString, "name")] ⟨[], Row.empty⟩).1 = .ok () ∧
      (describe [(.eInteger, "id"), (.eString, "name")] ⟨[], Row.empty⟩).2.rowIntos
        = [ScalarType.int, ScalarType.stdString] ∧
      (describe [(.eInteger, "id"), (.eString, "name")] ⟨[], Row.empty⟩).2.row.getProperties
          "name"
        = .ok (some ⟨"name", .eString⟩) ∧
      (describe [(.eInteger, "id"), (.eString, "name")] ⟨[], Row.empty⟩).2.row.findColumn
          "missing"
        = .error "Column 'missing' not found") ∧
    ((describe [(.eInteger, "id"), (.eString, "name"), (.other 1, "c")] ⟨[], Row.empty⟩).1
        = .error (unsupportedTypeMsg 1) ∧
      ∃ tys : List ScalarType,
        ([(eDataType.eInteger, "id"), (.eString, "name"), (.other 1, "c")].take 2).map
            (fun c => matchingScalarType c.1) = tys.map some ∧
        (describe [(.eInteger, "id"), (.eString, "name"), (.other 1, "c")]
            ⟨[], Row.empty⟩).2.rowIntos = [] ++ tys ∧
        (describe [(.eInteger, "id"), (.eString, "name"), (.other 1, "c")]
            ⟨[], Row.empty⟩).2.row.columns
          = [] ++ ([(eDataType.eInteger, "id"), (.eString, "name"), (.other 1, "c")].take 2).map
              (fun c => (⟨c.2, c.1⟩ : ColumnProperties)) ∧
        (describe [(.eInteger, "id"), (.eString, "name"), (.other 1, "c")]
            ⟨[], Row.empty⟩).2.rowIntos.length - 0 = 2 ∧
        (describe [(.eInteger, "id"), (.eString, "name"), (.other 1, "c")]
            ⟨[], Row.empty⟩).2.row.columns.length - 0 = 2) :=
  ⟨by decide,
    (describe_spec [(.eInteger, "id"), (.eString, "name"), (.other 1, "c")]
      ⟨[], Row.empty⟩).2.2 2 1 "c" rfl (by decide)⟩

/-! ## `bind(Values &)` -/

/-- One iteration of the `try` loop on a use object whose `bind` does not throw. -/
theorem bindTry_cons (u : StandardUse) (rest : List StandardUse) (cnt : Nat)
    (st : BindStatement) (v : Values) (ind : Nat)
    (hu : u.bindThrows = none) (hind : v.indicators[cnt]? = some ind) :
    bindTry (u :: rest) cnt st v
      = if bindsName st.query u.name then
          bindTry rest (cnt + 1)
            { query := st.query, uses := st.uses ++ [u], indicators := st.indicators ++ [ind],
              bindCalls := st.bindCalls ++ [(u, toInt st.uses.length)] } v
        else bindTry rest (cnt + 1) st (v.addUnused u ind) := by
  unfold bindsName
  cases hfind : stdFind st.query (":" ++ u.name) with
  | none => simp [bindTry, hfind, hind]
  | some pos =>
    simp only [bindTry, hfind, hind, hu]

/-- The `try` loop when no `bind` call throws: every object is either bound, in
order, with the indicator of its index, or handed to `addUnused` with it. -/
theorem bindTry_no_throw (rest : List StandardUse) :
    ∀ (inds : List Nat) (cnt : Nat) (st : BindStatement) (v : Values),
      v.indicators.drop cnt = inds → rest.length = inds.length →
      (∀ u ∈ rest, u.bindThrows = none) →
      bindTry rest cnt st v
        = (.done, cnt + rest.length,
          { query := st.query,
            uses := st.uses
              ++ ((rest.zip inds).filter (fun p => bindsName st.query p.1.name)).map Prod.fst,
            indicators := st.indicators
              ++ ((rest.zip inds).filter (fun p => bindsName st.query p.1.name)).map Prod.snd,
            bindCalls := st.bindCalls ++ bindCallsFrom st.uses.length
              (((rest.zip inds).filter (fun p => bindsName st.query p.1.name)).map Prod.fst) },
          { uses := v.uses, indicators := v.indicators,
            unused := v.unused
              ++ (rest.zip inds).filter (fun p => !bindsName st.query p.1.name) }) := by
  induction rest with
  | nil =>
    intro inds cnt st v _ _ _
    simp [bindTry, bindCallsFrom]
  | cons u rest ih =>
    intro inds cnt st v hdrop hlen hno
    cases inds with
    | nil => simp at hlen
    | cons ind inds =>
      have hind : v.indicators[cnt]? = some ind := by
        have := congrArg List.head? hdrop
        simpa [List.head?_drop] using this
      have hdrop1 : v.indicators.drop (cnt + 1) = inds := by
        have := congrArg List.tail hdrop
        simpa [List.tail_drop] using this
      have hlen1 : rest.length = inds.length := by simpa using hlen
      have hu : u.bindThrows = none := hno u (List.mem_cons_self _ _)
      have hno1 : ∀ x ∈ rest, x.bindThrows = none :=
        fun x hx => hno x (List.mem_cons_of_mem _ hx)
      rw [bindTry_cons u rest cnt st v ind hu hind]
      by_cases hb : bindsName st.query u.name = true
      · rw [if_pos hb, ih inds (cnt + 1) _ v hdrop1 hlen1 hno1]
        simp [hb, bindCallsFrom, Nat.add_assoc, Nat.add_comm 1]
      · rw [if_neg hb, ih inds (cnt + 1) st (v.addUnused u ind) hdrop1 hlen1 hno1]
        simp [hb, Values.addUnused, Nat.add_assoc, Nat.add_comm 1]

/-- `bind` when no `bind` call throws and `Values` holds one indicator per use
object. -/
theorem bind_no_throw (st : BindStatement) (v : Values)
    (hlen : v.uses.length = v.indicators.length)
    (hno : ∀ u ∈ v.uses, u.bindThrows = none) :
    bind st v
      = (.returned,
        { query := st.query,
          uses := st.uses
            ++ ((v.uses.zip v.indicators).filter
              (fun p => bindsName st.query p.1.name)).map Prod.fst,
          indicators := st.indicators
            ++ ((v.uses.zip v.indicators).filter
              (fun p => bindsName st.query p.1.name)).map Prod.snd,
          bindCalls := st.bindCalls ++ bindCallsFrom st.uses.length
            (((v.uses.zip v.indicators).filter
              (fun p => bindsName st.query p.1.name)).map Prod.fst) },
        { uses := v.uses, indicators := v.indicators,
          unused := v.unused
            ++ (v.uses.zip v.indicators).filter
              (fun p => !bindsName st.query p.1.name) }) := by
  simp only [bind, bindTry_no_throw v.uses v.indicators 0 st v (List.drop_zero _) hlen hno]

theorem bindCallsFrom_map_fst (base : Nat) (l : List StandardUse) :
    (bindCallsFrom base l).map Prod.fst = l := by
  induction l generalizing base with
  | nil => rfl
  | cons u rest ih => simp [bindCallsFrom, ih]

/-- C15: `bind(Values)` takes an exactly-once decision per object.  When no
`bind` call fails, the `n` objects, each paired with the indicator of its index,
split into those appended to the statement's use list (`bound`) and those
handed to `addUnused` (`unused`): the two lists together are a rearrangement of
the `n` pairs, so no object is in both or in one twice, and their lengths add up
to `n`; the bound objects keep their relative order, `bind` is called on exactly
them, and the statement's indicator list grows by the indicators of their
indices. -/
theorem bind_exactly_once (st : BindStatement) (v : Values)
    (hlen : v.uses.length = v.indicators.length)
    (hno : ∀ u ∈ v.uses, u.bindThrows = none) :
    ∃ bound unused : List (StandardUse × Nat),
      bound = (v.uses.zip v.indicators).filter (fun p => bindsName st.query p.1.name) ∧
      unused = (v.uses.zip v.indicators).filter (fun p => !bindsName st.query p.1.name) ∧
      (bind st v).1 = .returned ∧
      (bind st v).2.1.uses = st.uses ++ bound.map Prod.fst ∧
      (bind st v).2.1.indicators = st.indicators ++ bound.map Prod.snd ∧
      (bind st v).2.1.bindCalls.map Prod.fst = st.bindCalls.map Prod.fst ++ bound.map Prod.fst ∧
      (bind st v).2.2.unused = v.unused ++ unused ∧
      (bound ++ unused).Perm (v.uses.zip v.indicators) ∧
      bound.length + unused.length = v.uses.length ∧
      bound.Sublist (v.uses.zip v.indicators) ∧
      unused.Sublist (v.uses.zip v.indicators) := by
  refine ⟨_, _, rfl, rfl, ?_⟩
  rw [bind_no_throw st v hlen hno]
  refine ⟨rfl, rfl, rfl, by simp [bindCallsFrom_map_fst], rfl, ?_, ?_,
    List.filter_sublist _, List.filter_sublist _⟩
  · exact List.filter_append_perm _ _
  · have h := (List.filter_append_perm (fun p : StandardUse × Nat => bindsName st.query p.1.name)
      (v.uses.zip v.indicators)).length_eq
    rw [List.length_append] at h
    rw [h, List.length_zip, hlen, Nat.min_self]

/-- C15 at a concrete collection: of `:a`, `:c`, `:b` with a query that mentions
`:a` and `:b`, the first and the third are bound, in that order and with their
own indicators, and the second is set aside as unused. -/
theorem bind_exactly_once_witness :
    ∃ bound unused : List (StandardUse × Nat),
      bound = (([⟨"a", 1, none⟩, ⟨"c", 2, none⟩, ⟨"b", 3, none⟩] : List StandardUse).zip
          [101, 102, 103]).filter
        (fun p => bindsName "insert into t values(:a, :b)" p.1.name) ∧
      unused = (([⟨"a", 1, none⟩, ⟨"c", 2, none⟩, ⟨"b", 3, none⟩] : List StandardUse).zip
          [101, 102, 103]).filter
        (fun p => !bindsName "insert into t values(:a, :b)" p.1.name) ∧
      (bind ⟨"insert into t values(:a, :b)", [], [], []⟩
        ⟨[⟨"a", 1, none⟩, ⟨"c", 2, none⟩, ⟨"b", 3, none⟩], [101, 102, 103], []⟩).1
        = .returned ∧
      (bind ⟨"insert into t values(:a, :b)", [], [], []⟩
        ⟨[⟨"a", 1, none⟩, ⟨"c", 2, none⟩, ⟨"b", 3, none⟩], [101, 102, 103], []⟩).2.1.uses
        = [] ++ bound.map Prod.fst ∧
      (bind ⟨"insert into t values(:a, :b)", [], [], []⟩
        ⟨[⟨"a", 1, none⟩, ⟨"c", 2, none⟩, ⟨"b", 3, none⟩], [101, 102, 103], []⟩).2.1.indicators
        = [] ++ bound.map Prod.snd ∧
      (bind ⟨"insert into t values(:a, :b)", [], [], []⟩
        ⟨[⟨"a", 1, none⟩, ⟨"c", 2, none⟩, ⟨"b", 3, none⟩], [101, 102, 103],
          []⟩).2.1.bindCalls.map Prod.fst
        = ([] : List (StandardUse × Int)).map Prod.fst ++ bound.map Prod.fst ∧
      (bind ⟨"insert into t values(:a, :b)", [], [], []⟩
        ⟨[⟨"a", 1, none⟩, ⟨"c", 2, none⟩, ⟨"b", 3, none⟩], [101, 102, 103], []⟩).2.2.unused
        = [] ++ unused ∧
      (bound ++ unused).Perm
        (([⟨"a", 1, none⟩, ⟨"c", 2, none⟩, ⟨"b", 3, none⟩] : List StandardUse).zip
          [101, 102, 103]) ∧
      bound.length + unused.length
        = ([⟨"a", 1, none⟩, ⟨"c", 2, none⟩, ⟨"b", 3, none⟩] : List StandardUse).length ∧
      bound.Sublist
        (([⟨"a", 1, none⟩, ⟨"c", 2, none⟩, ⟨"b", 3, none⟩] : List StandardUse).zip
          [101, 102, 103]) ∧
      unused.Sublist
        (([⟨"a", 1, none⟩, ⟨"c", 2, none⟩, ⟨"b", 3, none⟩] : List StandardUse).zip
          [101, 102, 103]) :=
  bind_exactly_once ⟨"insert into t values(:a, :b)", [], [], []⟩
    ⟨[⟨"a", 1, none⟩, ⟨"c", 2, none⟩, ⟨"b", 3, none⟩], [101, 102, 103], []⟩ rfl (by decide)

/-- C12 at a failing input: the query mentions only `:x`; `Values` holds `x`,
whose `bind` raises, and `y`.  With an empty statement use list the compensation
reads `uses_[1]` out of bounds; with two use objects `p`, `q` already in the
statement it hands `q`, not `y`, to `addUnused`.  In neither run is `y` handed
to `addUnused`, though its token does not occur in the query. -/
theorem bind_unreferenced_after_failure :
    bindsName "SELECT * FROM t WHERE a = :x" "y" = false ∧
    stdFind "SELECT * FROM t WHERE a = :x" ":y" = none ∧
    bind ⟨"SELECT * FROM t WHERE a = :x", [], [], []⟩
        ⟨[⟨"x", 1, some "bind failed"⟩, ⟨"y", 2, none⟩], [101, 102], []⟩
      = (.outOfBounds,
        ⟨"SELECT * FROM t WHERE a = :x", [], [], [(⟨"x", 1, some "bind failed"⟩, 0)]⟩,
        ⟨[⟨"x", 1, some "bind failed"⟩, ⟨"y", 2, none⟩], [101, 102], []⟩) ∧
    bind ⟨"SELECT * FROM t WHERE a = :x", [⟨"p", 8, none⟩, ⟨"q", 9, none⟩], [201, 202], []⟩
        ⟨[⟨"x", 1, some "bind failed"⟩, ⟨"y", 2, none⟩], [101, 102], []⟩
      = (.raised "bind failed",
        ⟨"SELECT * FROM t WHERE a = :x", [⟨"p", 8, none⟩, ⟨"q", 9, none⟩], [201, 202],
          [(⟨"x", 1, some "bind failed"⟩, 2)]⟩,
        ⟨[⟨"x", 1, some "bind failed"⟩, ⟨"y", 2, none⟩], [101, 102],
          [(⟨"q", 9, none⟩, 102)]⟩) := by
  decide

/-- An object whose token does not occur in the query is handed to `addUnused`
with the indicator of its index, is never bound and is not appended to the
statement's lists, in every run in which no `bind` call throws. -/
theorem bind_unreferenced_no_throw (st : BindStatement) (v : Values) (j : Nat)
    (u : StandardUse) (ind : Nat)
    (hlen : v.uses.length = v.indicators.length)
    (hno : ∀ x ∈ v.uses, x.bindThrows = none)
    (hu : v.uses[j]? = some u) (hind : v.indicators[j]? = some ind)
    (habsent : stdFind st.query (":" ++ u.name) = none) :
    (u, ind) ∈ (bind st v).2.2.unused ∧
    (∀ x ∈ ((bind st v).2.1.uses).drop st.uses.length, x.name ≠ u.name) ∧
    (∀ c ∈ ((bind st v).2.1.bindCalls).drop st.bindCalls.length, c.1.name ≠ u.name) := by
  have hb : bindsName st.query u.name = false := by simp [bindsName, habsent]
  have hzip : (u, ind) ∈ v.uses.zip v.indicators := by
    apply List.mem_iff_getElem?.mpr
    exact ⟨j, by simp [List.getElem?_zip_eq_some, hu, hind]⟩
  rw [bind_no_throw st v hlen hno]
  refine ⟨?_, ?_, ?_⟩
  · simp only [List.mem_append, List.mem_filter]
    exact Or.inr ⟨hzip, by simp [hb]⟩
  · intro x hx
    simp only [List.drop_left, List.mem_map, List.mem_filter] at hx
    obtain ⟨p, ⟨-, hp⟩, rfl⟩ := hx
    intro heq
    rw [heq, hb] at hp
    cases hp
  · intro c hc
    simp only [List.drop_left] at hc
    have : c.1 ∈ (bindCallsFrom st.uses.length
        (((v.uses.zip v.indicators).filter
          (fun p => bindsName st.query p.1.name)).map Prod.fst)).map Prod.fst :=
      List.mem_map_of_mem _ hc
    rw [bindCallsFrom_map_fst] at this
    simp only [List.mem_map, List.mem_filter] at this
    obtain ⟨p, ⟨-, hp⟩, hpc⟩ := this
    intro heq
    rw [hpc, heq, hb] at hp
    cases hp

/-- C13 at a failing input: in "SELECT :xy, :x FROM t" the token `:x` occurs at
position 12 followed by a space, but its first occurrence, inside `:xy`, is
followed by `y`; no `bind` call fails, yet the use object `x` is not bound: it
is handed to `addUnused`, and the statement's use list stays empty. -/
theorem bind_first_occurrence_only :
    occursBounded "SELECT :xy, :x FROM t" "x" ∧
    stdFind "SELECT :xy, :x FROM t" ":x" = some 7 ∧
    charAt "SELECT :xy, :x FROM t" (7 + 2) = 'y' ∧
    bind ⟨"SELECT :xy, :x FROM t", [], [], []⟩ ⟨[⟨"x", 1, none⟩], [101], []⟩
      = (.returned, ⟨"SELECT :xy, :x FROM t", [], [], []⟩,
        ⟨[⟨"x", 1, none⟩], [101], [(⟨"x", 1, none⟩, 101)]⟩) := by
  refine ⟨⟨12, ⟨by decide, by decide⟩, by decide⟩, by decide, by decide, by decide⟩

/-- C14 at failing inputs: `Values` holds `a`, whose `bind` raises, and `b`.
With an empty statement use list the compensation loop reads `uses_[1]` outside
the bounds of `uses_`.  With two use objects `p`, `q` already in the statement,
the loop hands the statement's own `q`, with the indicator of `b`, to
`addUnused`, and `b` is never marked unused. -/
theorem bind_compensation_wrong_list :
    bind ⟨"insert into t values(:a, :b)", [], [], []⟩
        ⟨[⟨"a", 1, some "bind failed"⟩, ⟨"b", 2, none⟩], [101, 102], []⟩
      = (.outOfBounds,
        ⟨"insert into t values(:a, :b)", [], [], [(⟨"a", 1, some "bind failed"⟩, 0)]⟩,
        ⟨[⟨"a", 1, some "bind failed"⟩, ⟨"b", 2, none⟩], [101, 102], []⟩) ∧
    bind ⟨"insert into t values(:a, :b)", [⟨"p", 8, none⟩, ⟨"q", 9, none⟩], [201, 202], []⟩
        ⟨[⟨"a", 1, some "bind failed"⟩, ⟨"b", 2, none⟩], [101, 102], []⟩
      = (.raised "bind failed",
        ⟨"insert into t values(:a, :b)", [⟨"p", 8, none⟩, ⟨"q", 9, none⟩], [201, 202],
          [(⟨"a", 1, some "bind failed"⟩, 2)]⟩,
        ⟨[⟨"a", 1, some "bind failed"⟩, ⟨"b", 2, none⟩], [101, 102],
          [(⟨"q", 9, none⟩, 102)]⟩) := by
  decide

/-! ## Share counting -/

theorem count_concat_some (l : List (Option Nat)) (o x : Nat) :
    (l ++ [some o]).count (some x) = l.count (some x) + if o = x then 1 else 0 := by
  by_cases h : o = x
  · subst h; simp
  · have : (some o == some x) = false := by simp [h]
    simp [List.count_append, List.count_cons, this, h]

theorem count_set_some (l : List (Option Nat)) (i : Nat) (a : Option Nat) (o x : Nat)
    (hi : l[i]? = some (some o)) :
    (l.set i a).count (some x)
      = l.count (some x) - (if o = x then 1 else 0) + (if a = some x then 1 else 0) := by
  obtain ⟨hlt, hget⟩ := List.getElem?_eq_some_iff.mp hi
  rw [List.count_set _ _ _ _ hlt, hget]
  congr 2
  · by_cases h : o = x <;> simp [h]
  · by_cases h : a = some x <;> simp [h]

theorem count_pos_of_getElem? (l : List (Option Nat)) (i o : Nat)
    (hi : l[i]? = some (some o)) : 0 < l.count (some o) :=
  List.count_pos_iff.mpr (List.mem_iff_getElem?.mpr ⟨i, hi⟩)

theorem ShareInv.empty : ShareInv ShareState.empty :=
  ⟨by intro o; simp [ShareState.empty, ShareState.liveHandles],
    by intro o h; simp [ShareState.empty] at h,
    by intro o; simp [ShareState.empty]⟩

theorem ShareInv.construct (s : ShareState) (h : ShareInv s) :
    ShareInv (shareStep s ShareOp.construct) := by
  have hfresh : s.handles.count (some s.nObjects) = 0 := by
    apply List.count_eq_zero.mpr
    intro hmem
    exact absurd (h.alloc _ hmem) (Nat.lt_irrefl _)
  refine ⟨?_, ?_, ?_⟩
  · intro o
    by_cases ho : o = s.nObjects
    · subst ho
      simp [shareStep, ShareState.liveHandles, count_concat_some, hfresh]
    · have hc := h.count o
      have hne : ¬ s.nObjects = o := fun e => ho e.symm
      simp only [ShareState.liveHandles] at hc
      simp [shareStep, ShareState.liveHandles, count_concat_some, Function.update, ho, hne, hc]
  · intro o hmem
    simp only [shareStep, List.mem_append, List.mem_singleton, Option.some.injEq] at hmem
    rcases hmem with hmem | rfl
    · have := h.alloc o hmem
      simp only [shareStep]
      omega
    · simp [shareStep]
  · intro o
    have ht := h.torn o
    simp only [ShareState.liveHandles] at ht
    simp only [shareStep, ShareState.liveHandles, count_concat_some]
    rw [ht]
    by_cases ho : s.nObjects = o
    · subst ho
      simp
    · simp only [ho, if_false, Nat.add_zero]
      by_cases hlt : o < s.nObjects
      · have : o < s.nObjects + 1 := by omega
        simp [hlt, this]
      · have : ¬ o < s.nObjects + 1 := by omega
        simp [hlt, this]

theorem ShareInv.copy (s : ShareState) (h : ShareInv s) (src o : Nat)
    (hsrc : s.handles[src]? = some (some o)) :
    ShareInv (incRef { s with handles := s.handles ++ [some o] } o) := by
  have hpos : 0 < s.handles.count (some o) := count_pos_of_getElem? _ _ _ hsrc
  refine ⟨?_, ?_, ?_⟩
  · intro x
    have hc := h.count x
    simp only [ShareState.liveHandles] at hc
    by_cases hx : x = o
    · subst hx
      simp [incRef, ShareState.liveHandles, count_concat_some, hc]
    · have hne : ¬ o = x := fun e => hx e.symm
      simp [incRef, ShareState.liveHandles, count_concat_some, Function.update, hx, hne, hc]
  · intro x hmem
    simp only [incRef, List.mem_append, List.mem_singleton, Option.some.injEq] at hmem
    rcases hmem with hmem | rfl
    · exact h.alloc x hmem
    · exact h.alloc x (List.mem_iff_getElem?.mpr ⟨src, hsrc⟩)
  · intro x
    have ht := h.torn x
    simp only [ShareState.liveHandles] at ht
    simp only [incRef, ShareState.liveHandles, count_concat_some]
    rw [ht]
    by_cases hx : o = x
    · subst hx
      have h1 : ¬ s.handles.count (some o) = 0 := by omega
      simp [h1]
    · simp [hx]

theorem decRef_handles (s : ShareState) (o : Nat) : (decRef s o).handles = s.handles := by
  simp only [decRef]
  split_ifs <;> rfl

theorem decRef_nObjects (s : ShareState) (o : Nat) : (decRef s o).nObjects = s.nObjects := by
  simp only [decRef]
  split_ifs <;> rfl

theorem decRef_refCount (s : ShareState) (o : Nat) :
    (decRef s o).refCount = Function.update s.refCount o (s.refCount o - 1) := by
  simp only [decRef]
  split_ifs <;> rfl

theorem decRef_teardowns (s : ShareState) (o : Nat) :
    (decRef s o).teardowns
      = if s.refCount o = 1 then s.teardowns ++ [o] else s.teardowns := by
  simp only [decRef]
  by_cases h1 : s.refCount o = 1
  · have : s.refCount o - 1 = 0 := by omega
    simp [this, h1]
  · have : ¬ s.refCount o - 1 = 0 := by omega
    simp [this, h1]

theorem ShareInv.destroy (s : ShareState) (h : ShareInv s) (i o : Nat)
    (hi : s.handles[i]? = some (some o)) :
    ShareInv { decRef s o with handles := (decRef s o).handles.set i none } := by
  have hpos : 0 < s.handles.count (some o) := count_pos_of_getElem? _ _ _ hi
  have hco := h.count o
  simp only [ShareState.liveHandles] at hco
  have hhandles := decRef_handles s o
  have hnobj := decRef_nObjects s o
  have hrc := decRef_refCount s o
  have htd : (decRef s o).teardowns
      = if s.handles.count (some o) = 1 then s.teardowns ++ [o] else s.teardowns := by
    rw [decRef_teardowns]
    by_cases h1 : s.handles.count (some o) = 1
    · have : s.refCount o = 1 := by omega
      simp [this, h1]
    · have : ¬ s.refCount o = 1 := by omega
      simp [this, h1]
  have hcnt : ∀ x, (s.handles.set i none).count (some x)
      = s.handles.count (some x) - if o = x then 1 else 0 := by
    intro x
    rw [count_set_some _ _ _ o x hi]
    simp
  refine ⟨?_, ?_, ?_⟩
  · intro x
    have hc := h.count x
    simp only [ShareState.liveHandles] at hc
    simp only [ShareState.liveHandles, hhandles, hrc, hcnt]
    by_cases hx : x = o
    · subst hx
      simp only [Function.update_same, if_true]
      omega
    · have hne : ¬ o = x := fun e => hx e.symm
      simp [Function.update, hx, hne, hc]
  · intro x hmem
    simp only [hhandles, hnobj] at hmem ⊢
    rcases List.mem_or_eq_of_mem_set hmem with hm | hm
    · exact h.alloc x hm
    · cases hm
  · intro x
    have ht := h.torn x
    simp only [ShareState.liveHandles] at ht
    have hox : o < s.nObjects := h.alloc o (List.mem_iff_getElem?.mpr ⟨i, hi⟩)
    simp only [ShareState.liveHandles, hhandles, hnobj, htd, hcnt]
    by_cases hx : o = x
    · subst hx
      have h0 : ¬ s.handles.count (some o) = 0 := by omega
      have ht0 : s.teardowns.count o = 0 := by rw [ht]; simp [h0]
      by_cases h1 : s.handles.count (some o) = 1
      · simp [h1, ht0, hox]
      · have : ¬ s.handles.count (some o) - 1 = 0 := by omega
        simp [h1, ht0, this]
    · have hcx : ∀ l : List Nat, (l ++ [o]).count x = l.count x := by
        intro l
        simp [List.count_append, List.count_cons, hx]
      simp only [hx, if_false, Nat.sub_zero]
      split_ifs at ht ⊢ <;> simp_all

theorem ShareInv.assign (s : ShareState) (h : ShareInv s) (dst src od os : Nat)
    (hdst : s.handles[dst]? = some (some od)) (hsrc : s.handles[src]? = some (some os)) :
    ShareInv { decRef (incRef s os) od with
      handles := (decRef (incRef s os) od).handles.set dst (some os) } := by
  have hposd : 0 < s.handles.count (some od) := count_pos_of_getElem? _ _ _ hdst
  have hposs : 0 < s.handles.count (some os) := count_pos_of_getElem? _ _ _ hsrc
  have hcd := h.count od
  have hcs := h.count os
  simp only [ShareState.liveHandles] at hcd hcs
  have hhandles : (decRef (incRef s os) od).handles = s.handles := by
    rw [decRef_handles]; rfl
  have hnobj : (decRef (incRef s os) od).nObjects = s.nObjects := by
    rw [decRef_nObjects]; rfl
  have hrc1 : (incRef s os).refCount od = if od = os then s.refCount os + 1 else s.refCount od := by
    by_cases hds : od = os
    · subst hds; simp [incRef]
    · simp [incRef, Function.update, hds]
  have hrc : (decRef (incRef s os) od).refCount
      = Function.update (Function.update s.refCount os (s.refCount os + 1)) od
          ((if od = os then s.refCount os + 1 else s.refCount od) - 1) := by
    rw [decRef_refCount, hrc1]; rfl
  have htd : (decRef (incRef s os) od).teardowns
      = if od ≠ os ∧ s.handles.count (some od) = 1 then s.teardowns ++ [od]
        else s.teardowns := by
    rw [decRef_teardowns, hrc1]
    by_cases hds : od = os
    · subst hds
      have : ¬ s.refCount od + 1 = 1 := by omega
      simp [this, incRef]
    · by_cases h1 : s.handles.count (some od) = 1
      · have : s.refCount od = 1 := by omega
        simp [hds, this, h1, incRef]
      · have : ¬ s.refCount od = 1 := by omega
        simp [hds, this, h1, incRef]
  have hcnt : ∀ x, (s.handles.set dst (some os)).count (some x)
      = s.handles.count (some x) - (if od = x then 1 else 0) + (if os = x then 1 else 0) := by
    intro x
    rw [count_set_some _ _ _ od x hdst]
    simp
  refine ⟨?_, ?_, ?_⟩
  · intro x
    have hc := h.count x
    simp only [ShareState.liveHandles] at hc
    simp only [ShareState.liveHandles, hhandles, hrc, hcnt]
    by_cases hds : od = os
    · subst hds
      by_cases hx : x = od
      · subst hx
        simp only [Function.update_same, if_true]
        omega
      · have hne : ¬ od = x := fun e => hx e.symm
        simp [Function.update, hx, hne, hc]
    · by_cases hxd : x = od
      · subst hxd
        have hne : ¬ os = x := fun e => hds e.symm
        simp only [Function.update_same, if_true, hds, hne, if_false]
        omega
      · have hned : ¬ od = x := fun e => hxd e.symm
        by_cases hxs : x = os
        · subst hxs
          simp [Function.update, hxd, hned, hc]
        · have hnes : ¬ os = x := fun e => hxs e.symm
          simp [Function.update, hxd, hned, hxs, hnes, hc]
  · intro x hmem
    simp only [hhandles, hnobj] at hmem ⊢
    rcases List.mem_or_eq_of_mem_set hmem with hm | hm
    · exact h.alloc x hm
    · cases hm
      exact h.alloc os (List.mem_iff_getElem?.mpr ⟨src, hsrc⟩)
  · intro x
    have ht := h.torn x
    simp only [ShareState.liveHandles] at ht
    have hod : od < s.nObjects := h.alloc od (List.mem_iff_getElem?.mpr ⟨dst, hdst⟩)
    have htd0 : s.teardowns.count od = 0 := by
      have := h.torn od
      simp only [ShareState.liveHandles] at this
      rw [this]
      have h0 : ¬ s.handles.count (some od) = 0 := by omega
      simp [h0]
    have hts0 : s.teardowns.count os = 0 := by
      have := h.torn os
      simp only [ShareState.liveHandles] at this
      rw [this]
      have h0 : ¬ s.handles.count (some os) = 0 := by omega
      simp [h0]
    simp only [ShareState.liveHandles, hhandles, hnobj, htd, hcnt]
    by_cases hds : od = os
    · subst hds
      simp only [ne_eq, not_true_eq_false, false_and, if_false]
      by_cases hx : od = x
      · subst hx
        have : ¬ (s.handles.count (some od) - 1 + 1 = 0) := by omega
        simp [htd0, this]
      · simp only [hx, if_false, Nat.sub_zero, Nat.add_zero]
        exact ht
    · by_cases hxd : od = x
      · subst hxd
        have hne : ¬ os = od := fun e => hds e.symm
        simp only [hne, if_false, if_true, Nat.add_zero]
        by_cases h1 : s.handles.count (some od) = 1
        · simp [hds, h1, htd0, hod]
        · have : ¬ s.handles.count (some od) - 1 = 0 := by omega
          simp [hds, h1, htd0, this]
      · have hcx : ∀ l : List Nat, (l ++ [od]).count x = l.count x := by
          intro l
          simp [List.count_append, List.count_cons, hxd]
        by_cases hxs : os = x
        · subst hxs
          have : ¬ (s.handles.count (some os) + 1 = 0) := by omega
          simp only [hxd, if_false, Nat.sub_zero, if_true, this, and_false]
          split_ifs <;> simp [hcx, hts0]
        · simp only [hxd, hxs, if_false, Nat.sub_zero, Nat.add_zero]
          split_ifs at ht ⊢ <;> simp_all

/-- Every operation preserves the invariant. -/
theorem ShareInv.step (s : ShareState) (h : ShareInv s) (op : ShareOp) :
    ShareInv (shareStep s op) := by
  cases op with
  | construct => exact ShareInv.construct s h
  | copy src =>
    cases hsrc : s.handles[src]? with
    | none => simpa [shareStep, hsrc] using h
    | some slot =>
      cases slot with
      | none => simpa [shareStep, hsrc] using h
      | some o =>
        simp only [shareStep, hsrc]
        exact ShareInv.copy s h src o hsrc
  | assign dst src =>
    cases hdst : s.handles[dst]? with
    | none => simpa [shareStep, hdst] using h
    | some slotd =>
      cases slotd with
      | none => simpa [shareStep, hdst] using h
      | some od =>
        cases hsrc : s.handles[src]? with
        | none => simpa [shareStep, hdst, hsrc] using h
        | some slots =>
          cases slots with
          | none => simpa [shareStep, hdst, hsrc] using h
          | some os =>
            simp only [shareStep, hdst, hsrc]
            exact ShareInv.assign s h dst src od os hdst hsrc
  | destroy i =>
    cases hi : s.handles[i]? with
    | none => simpa [shareStep, hi] using h
    | some slot =>
      cases slot with
      | none => simpa [shareStep, hi] using h
      | some o =>
        simp only [shareStep, hi]
        exact ShareInv.destroy s h i o hi

/-- The invariant holds after every sequence of operations that starts from one
freshly constructed builder. -/
theorem ShareInv.run (ops : List ShareOp) :
    ShareInv (ops.foldl shareStep ShareState.fresh) := by
  have hfresh : ShareInv ShareState.fresh := ShareInv.construct _ ShareInv.empty
  have hgen : ∀ (l : List ShareOp) (s : ShareState), ShareInv s → ShareInv (l.foldl shareStep s) := by
    intro l
    induction l with
    | nil => intro s hs; exact hs
    | cons op rest ih => intro s hs; exact ih _ (ShareInv.step s hs op)
  exact hgen ops _ hfresh

/-- An operation never removes a teardown. -/
theorem teardowns_count_mono (s : ShareState) (op : ShareOp) (o : Nat) :
    s.teardowns.count o ≤ (shareStep s op).teardowns.count o := by
  have hdec : ∀ (t : ShareState) (x : Nat),
      t.teardowns.count o ≤ (decRef t x).teardowns.count o := by
    intro t x
    rw [decRef_teardowns]
    split_ifs
    · simp [List.count_append]
    · exact Nat.le_refl _
  cases op with
  | construct => simp [shareStep]
  | copy src =>
    cases hsrc : s.handles[src]? with
    | none => simp [shareStep, hsrc]
    | some slot => cases slot <;> simp [shareStep, hsrc, incRef]
  | assign dst src =>
    cases hdst : s.handles[dst]? with
    | none => simp [shareStep, hdst]
    | some slotd =>
      cases slotd with
      | none => simp [shareStep, hdst]
      | some od =>
        cases hsrc : s.handles[src]? with
        | none => simp [shareStep, hdst, hsrc]
        | some slots =>
          cases slots with
          | none => simp [shareStep, hdst, hsrc]
          | some os =>
            simp only [shareStep, hdst, hsrc]
            exact hdec (incRef s os) od
  | destroy i =>
    cases hi : s.handles[i]? with
    | none => simp [shareStep, hi]
    | some slot =>
      cases slot with
      | none => simp [shareStep, hi]
      | some x =>
        simp only [shareStep, hi]
        exact hdec s x

/-- An object allocated by an operation has a live handle right after it. -/
theorem newly_allocated_live (s : ShareState) (op : ShareOp) (o : Nat)
    (h1 : s.nObjects ≤ o) (h2 : o < (shareStep s op).nObjects) :
    0 < (shareStep s op).liveHandles o := by
  cases op with
  | construct =>
    simp only [shareStep] at h2
    obtain rfl : o = s.nObjects := by omega
    simp [shareStep, ShareState.liveHandles, count_concat_some]
  | copy src =>
    exfalso
    cases hsrc : s.handles[src]? with
    | none => simp [shareStep, hsrc] at h2; omega
    | some slot => cases slot <;> simp [shareStep, hsrc, incRef] at h2 <;> omega
  | assign dst src =>
    exfalso
    cases hdst : s.handles[dst]? with
    | none => simp [shareStep, hdst] at h2; omega
    | some slotd =>
      cases slotd with
      | none => simp [shareStep, hdst] at h2; omega
      | some od =>
        cases hsrc : s.handles[src]? with
        | none => simp [shareStep, hdst, hsrc] at h2; omega
        | some slots =>
          cases slots with
          | none => simp [shareStep, hdst, hsrc] at h2; omega
          | some os =>
            simp [shareStep, hdst, hsrc, decRef_nObjects, incRef] at h2
            omega
  | destroy i =>
    exfalso
    cases hi : s.handles[i]? with
    | none => simp [shareStep, hi] at h2; omega
    | some slot => cases slot <;> simp [shareStep, hi, decRef_nObjects] at h2 <;> omega

/-- C19: share counting of the deferred builders.  After every finite sequence of
constructions, copy-constructions, assignments (self-assignment included) and
destructions of handles that starts from one freshly constructed builder, the
counter of each object equals the number of live handles that refer to it, and
an allocated object has been torn down once if it has no live handle and not at
all otherwise; an operation tears an object down exactly when it releases the
last live handle to it.  In particular the statement of the first builder
(object 0) is torn down exactly once, by the release of its last handle. -/
theorem share_counting (ops : List ShareOp) :
    (∀ o, (ops.foldl shareStep ShareState.fresh).refCount o
      = ((ops.foldl shareStep ShareState.fresh).liveHandles o : Int)) ∧
    (∀ o, o < (ops.foldl shareStep ShareState.fresh).nObjects →
      (ops.foldl shareStep ShareState.fresh).teardowns.count o
        = if (ops.foldl shareStep ShareState.fresh).liveHandles o = 0 then 1 else 0) ∧
    (∀ (op : ShareOp) (o : Nat),
      (shareStep (ops.foldl shareStep ShareState.fresh) op).teardowns.count o
        = (ops.foldl shareStep ShareState.fresh).teardowns.count o
          + if 0 < (ops.foldl shareStep ShareState.fresh).liveHandles o ∧
              (shareStep (ops.foldl shareStep ShareState.fresh) op).liveHandles o = 0
            then 1 else 0) ∧
    (ops.foldl shareStep ShareState.fresh).teardowns.count 0
      = if (ops.foldl shareStep ShareState.fresh).liveHandles 0 = 0 then 1 else 0 := by
  have hinv := ShareInv.run ops
  have hn : ∀ (l : List ShareOp) (s : ShareState), s.nObjects ≤ (l.foldl shareStep s).nObjects := by
    intro l
    induction l with
    | nil => intro s; exact Nat.le_refl _
    | cons op rest ih =>
      intro s
      refine Nat.le_trans ?_ (ih _)
      cases op with
      | construct => simp [shareStep]
      | copy src =>
        cases hsrc : s.handles[src]? with
        | none => simp [shareStep, hsrc]
        | some slot => cases slot <;> simp [shareStep, hsrc, incRef]
      | assign dst src =>
        cases hdst : s.handles[dst]? with
        | none => simp [shareStep, hdst]
        | some slotd =>
          cases slotd with
          | none => simp [shareStep, hdst]
          | some od =>
            cases hsrc : s.handles[src]? with
            | none => simp [shareStep, hdst, hsrc]
            | some slots =>
              cases slots with
              | none => simp [shareStep, hdst, hsrc]
              | some os => simp [shareStep, hdst, hsrc, decRef_nObjects, incRef]
      | destroy i =>
        cases hi : s.handles[i]? with
        | none => simp [shareStep, hi]
        | some slot => cases slot <;> simp [shareStep, hi, decRef_nObjects]
  have h0 : 0 < (ops.foldl shareStep ShareState.fresh).nObjects :=
    Nat.lt_of_lt_of_le (by decide) (hn ops ShareState.fresh)
  have htorn : ∀ o, o < (ops.foldl shareStep ShareState.fresh).nObjects →
      (ops.foldl shareStep ShareState.fresh).teardowns.count o
        = if (ops.foldl shareStep ShareState.fresh).liveHandles o = 0 then 1 else 0 := by
    intro o ho
    rw [hinv.torn o]
    simp [ho]
  refine ⟨hinv.count, htorn, ?_, htorn 0 h0⟩
  intro op o
  have hinv2 := ShareInv.step _ hinv op
  have hmono := teardowns_count_mono (ops.foldl shareStep ShareState.fresh) op o
  have ht1 := hinv.torn o
  have ht2 := hinv2.torn o
  have halloc : 0 < (ops.foldl shareStep ShareState.fresh).liveHandles o →
      o < (ops.foldl shareStep ShareState.fresh).nObjects := by
    intro hpos
    exact hinv.alloc o (List.count_pos_iff.mp hpos)
  have hn1 : (ops.foldl shareStep ShareState.fresh).nObjects
      ≤ (shareStep (ops.foldl shareStep ShareState.fresh) op).nObjects :=
    hn [op] _
  have hnew := newly_allocated_live (ops.foldl shareStep ShareState.fresh) op o
  rw [ht1] at hmono ⊢
  rw [ht2] at hmono ⊢
  split_ifs at hmono ⊢ <;> omega

/-- C19 at a concrete program: the builder is copied, the copy is assigned to
itself and to the original, then both handles are destroyed.  The counter is 2
while both live, nothing is torn down before the second handle is destroyed, and
the object is torn down once by that destruction. -/
theorem share_counting_witness :
    (([ShareOp.copy 0, .assign 1 1, .assign 0 1] : List ShareOp).foldl shareStep
      ShareState.fresh).refCount 0 = 2 ∧
    (([ShareOp.copy 0, .assign 1 1, .assign 0 1, .destroy 0] : List ShareOp).foldl shareStep
      ShareState.fresh).teardowns = [] ∧
    (([ShareOp.copy 0, .assign 1 1, .assign 0 1, .destroy 0, .destroy 1] :
      List ShareOp).foldl shareStep ShareState.fresh).teardowns = [0] ∧
    (([ShareOp.copy 0, .assign 1 1, .assign 0 1, .destroy 0, .destroy 1] :
      List ShareOp).foldl shareStep ShareState.fresh).teardowns.count 0
      = if (([ShareOp.copy 0, .assign 1 1, .assign 0 1, .destroy 0, .destroy 1] :
        List ShareOp).foldl shareStep ShareState.fresh).liveHandles 0 = 0 then 1 else 0 :=
  ⟨by decide, by decide, by decide,
    (share_counting [ShareOp.copy 0, .assign 1 1, .assign 0 1, .destroy 0, .destroy 1]).2.2.2⟩

/-! ## `fetch` after `execute`: empty and emptied into lists -/

/-- Reconciliation fails on a list whose first member reports size 0. -/
theorem intosSize_first_zero (o : IntoType) (rest : List IntoType) (h : o.size = 0) :
    intosSize (o :: rest) = .error zeroSizeMsg :=
  (sizeLoop_map_spec "into" IntoType.size (o :: rest)).2.2.1.mpr ⟨o, rest, rfl, h⟩

/-- An into object resized to 0 reports size 0, unless it is a scalar. -/
theorem resize_zero_size (o : IntoType) (h : o.size ≠ 1) : (o.resize 0).size = 0 := by
  cases o with
  | standard => exact absurd rfl h
  | vector n => rfl

/-- C21: in `fetch`, for a statement with at least one into object and a
non-zero working fetch size, if the first into object reports size 0 when the
into count is re-read, `fetch` raises "Vectors of size 0 are not allowed."
and changes nothing, rather than returning `false`.  This is the state left by a
bulk `execute` whose no-data result with zero rows resized the into vectors to 0:
the fetch size is still the bulk size.  The re-read count is 0 only when the
statement has no into object at all, and then `fetch` returns `false`. -/
theorem fetch_zero_size_raises {σ : Type} (be : StatementBackEnd σ) (s : Statement σ)
    (hfs : s.fetchSize ≠ 0) :
    (∀ (o : IntoType) (rest : List IntoType), s.intos = o :: rest → o.size = 0 →
      fetch be s = (.error zeroSizeMsg, s)) ∧
    (intosSize s.intos = .ok 0 ↔ s.intos = []) ∧
    (s.intos = [] → fetch be s = (.ok false, s)) ∧
    (∀ (s0 : Statement σ) (w : Bool) (n m : Nat),
      intosSize s0.intos = .ok n → 1 < n → usesSize s0.uses = .ok m → ¬(1 < m ∧ 1 < n) →
      (be.execute s0.backEnd (executeNum w n m)).1 = .eNoData →
      be.getNumberOfRows (be.execute s0.backEnd (executeNum w n m)).2 = 0 →
      (execute be s0 w).1 = .ok false ∧
      (execute be s0 w).2.fetchSize = n ∧
      fetch be (execute be s0 w).2 = (.error zeroSizeMsg, (execute be s0 w).2)) := by
  refine ⟨?_, (sizeLoop_map_spec "into" IntoType.size s.intos).2.1, ?_, ?_⟩
  · intro o rest hs h0
    have hsz : intosSize s.intos = .error zeroSizeMsg := by
      rw [hs]; exact intosSize_first_zero o rest h0
    simp [fetch, hfs, hsz]
  · intro hnil
    have hsz : intosSize s.intos = .ok 0 :=
      (sizeLoop_map_spec "into" IntoType.size s.intos).2.1.mpr hnil
    simp [fetch, hfs, hsz]
  · intro s0 w n m hn h1 hm hb hres hrows
    have hex := execute_noData be s0 w n m hn hm hb hres
    rw [hrows] at hex
    have hne : s0.intos ≠ [] ∧ ∀ o ∈ s0.intos, o.size = n :=
      ((sizeLoop_map_spec "into" IntoType.size s0.intos).1 n (by omega)).mp hn
    obtain ⟨o, rest, hcons⟩ : ∃ o rest, s0.intos = o :: rest := by
      cases hl : s0.intos with
      | nil => exact absurd hl hne.1
      | cons o rest => exact ⟨o, rest, rfl⟩
    have ho : o.size = n := hne.2 o (by rw [hcons]; exact List.mem_cons_self _ _)
    have hintos : (execute be s0 w).2.intos = o.resize 0 :: rest.map (IntoType.resize 0) := by
      rw [hex]; simp [h1, hcons]
    have hfs1 : (execute be s0 w).2.fetchSize = n := by rw [hex]
    have hsz : intosSize (execute be s0 w).2.intos = .error zeroSizeMsg := by
      rw [hintos]
      exact intosSize_first_zero _ _ (resize_zero_size o (by omega))
    refine ⟨by rw [hex]; simp, hfs1, ?_⟩
    have hfs2 : (execute be s0 w).2.fetchSize ≠ 0 := by omega
    simp [fetch, hfs2, hsz]

/-- C21 at a concrete statement: a bulk select with a 2-row into vector over an
empty rowset.  `execute(true)` returns `false` and leaves the fetch size at 2 and
the vector at size 0; the `fetch` that follows raises. -/
theorem fetch_zero_size_raises_witness :
    (execute cursorBackEnd (Statement.init (Cursor.over 0) [.vector 2] []) true).2.fetchSize
      ≠ 0 ∧
    (execute cursorBackEnd (Statement.init (Cursor.over 0) [.vector 2] []) true).2.intos
      = [.vector 0] ∧
    fetch cursorBackEnd
        (execute cursorBackEnd (Statement.init (Cursor.over 0) [.vector 2] []) true).2
      = (.error zeroSizeMsg,
        (execute cursorBackEnd (Statement.init (Cursor.over 0) [.vector 2] []) true).2) :=
  ⟨by decide, by decide,
    (fetch_zero_size_raises cursorBackEnd
      (execute cursorBackEnd (Statement.init (Cursor.over 0) [.vector 2] []) true).2
      (by decide)).1 (.vector 0) [] rfl rfl⟩

/-- After `execute`, `fetchSize_` is the reconciled into count, whatever happens
later in the call. -/
theorem execute_fetchSize {σ : Type} (be : StatementBackEnd σ) (s : Statement σ)
    (withDataExchange : Bool) (N : Nat) (hN : intosSize s.intos = .ok N) :
    (execute be s withDataExchange).2.fetchSize = N := by
  cases hm : usesSize s.uses with
  | error e => simp [execute, hN, hm]
  | ok m =>
    by_cases hb : 1 < m ∧ 1 < N
    · have hb2 : m > 1 ∧ N > 1 := hb
      simp [execute, hN, hm, hb2]
    · cases hr : (be.execute s.backEnd (executeNum withDataExchange N m)).1 with
      | eNoData => rw [execute_noData be s withDataExchange N m hN hm hb hr]
      | eSuccess =>
        cases withDataExchange with
        | true => rw [execute_true_success be s N m hN hm hb hr]
        | false => rw [execute_false_success be s N m hN hm hb hr]

/-- `execute` leaves the into objects as they were or resizes all of them to one
size; a non-bulk `execute(false)` leaves them as they were. -/
theorem execute_intos {σ : Type} (be : StatementBackEnd σ) (s : Statement σ)
    (withDataExchange : Bool) (N : Nat) (hN : intosSize s.intos = .ok N) :
    ((execute be s withDataExchange).2.intos = s.intos ∨
      ∃ r, (execute be s withDataExchange).2.intos = s.intos.map (IntoType.resize r)) ∧
    (withDataExchange = false → N ≤ 1 → (execute be s withDataExchange).2.intos = s.intos) := by
  cases hm : usesSize s.uses with
  | error e => simp [execute, hN, hm]
  | ok m =>
    by_cases hb : 1 < m ∧ 1 < N
    · have hb2 : m > 1 ∧ N > 1 := hb
      simp [execute, hN, hm, hb2]
    · cases hr : (be.execute s.backEnd (executeNum withDataExchange N m)).1 with
      | eNoData =>
        rw [execute_noData be s withDataExchange N m hN hm hb hr]
        by_cases h1 : 1 < N
        · refine ⟨Or.inr ⟨_, by simp only [h1, if_true]; rfl⟩, fun _ hle => ?_⟩
          omega
        · exact ⟨Or.inl (by simp only [h1, if_false]), fun _ _ => by simp only [h1, if_false]⟩
      | eSuccess =>
        cases withDataExchange with
        | true =>
          rw [execute_true_success be s N m hN hm hb hr]
          exact ⟨Or.inr ⟨_, rfl⟩, fun h => by cases h⟩
        | false =>
          rw [execute_false_success be s N m hN hm hb hr]
          exact ⟨Or.inl rfl, fun _ _ => rfl⟩

/-- C22 (amended): for a statement with an empty into list, `execute` sets both
the working and the initial fetch size to 0, so every fetch after it returns
`false` and leaves the statement and its trace untouched.  For a statement with
at least one into object, all of size 1, `execute` leaves both fetch sizes at 1;
if the into objects still all report size 1 when `fetch` re-reads them, which is
so whenever they are all scalar and whenever `execute` ran without data
exchange, the following `fetch` asks the back end once, for 1 row, and returns
`true` iff the back end reports success. -/
theorem execute_then_fetch_by_into_count {σ : Type} (be : StatementBackEnd σ)
    (s : Statement σ) (w : Bool) :
    (s.intos = [] →
      (execute be s w).2.fetchSize = 0 ∧ (execute be s w).2.initialFetchSize = 0 ∧
      ∀ k : Nat, fetch be (Nat.iterate (fun t => (fetch be t).2) k (execute be s w).2)
        = (.ok false, (execute be s w).2)) ∧
    (s.intos ≠ [] → (∀ o ∈ s.intos, o.size = 1) →
      (execute be s w).2.fetchSize = 1 ∧ (execute be s w).2.initialFetchSize = 1 ∧
      ((∀ o ∈ (execute be s w).2.intos, o.size = 1) →
        (∃ rest : List Event,
          (fetch be (execute be s w).2).2.trace
            = (execute be s w).2.trace ++ [Event.backEndFetch 1] ++ rest ∧
          ∀ k, Event.backEndFetch k ∉ rest) ∧
        (fetch be (execute be s w).2).1
          = .ok (decide ((be.fetch (execute be s w).2.backEnd 1).1 = .eSuccess))) ∧
      ((∀ o ∈ s.intos, o = .standard) → ∀ o ∈ (execute be s w).2.intos, o.size = 1) ∧
      (w = false → ∀ o ∈ (execute be s w).2.intos, o.size = 1)) := by
  constructor
  · intro hnil
    have hN : intosSize s.intos = .ok 0 :=
      (sizeLoop_map_spec "into" IntoType.size s.intos).2.1.mpr hnil
    have hfs := execute_fetchSize be s w 0 hN
    refine ⟨hfs, execute_initialFetchSize be s w 0 hN, fun k => ?_⟩
    have hfix := fetch_of_fetchSize_zero be (execute be s w).2 hfs
    have hiter : Nat.iterate (fun t => (fetch be t).2) k (execute be s w).2
        = (execute be s w).2 := by
      induction k with
      | zero => rfl
      | succ k ih => rw [Function.iterate_succ_apply', ih, hfix]
    rw [hiter, hfix]
  · intro hne hall
    have hN : intosSize s.intos = .ok 1 :=
      ((sizeLoop_map_spec "into" IntoType.size s.intos).1 1 one_pos).mpr ⟨hne, hall⟩
    have hfs := execute_fetchSize be s w 1 hN
    have hini := execute_initialFetchSize be s w 1 hN
    obtain ⟨hcases, hfalse⟩ := execute_intos be s w 1 hN
    refine ⟨hfs, hini, ?_, ?_, ?_⟩
    · intro hstill
      have hne1 : (execute be s w).2.intos ≠ [] := by
        rcases hcases with h | ⟨r, h⟩
        · rw [h]; exact hne
        · rw [h]; simpa using hne
      have hN1 : intosSize (execute be s w).2.intos = .ok 1 :=
        ((sizeLoop_map_spec "into" IntoType.size (execute be s w).2.intos).1 1 one_pos).mpr
          ⟨hne1, hstill⟩
      have h1 : toInt 1 = 1 := rfl
      cases hr : (be.fetch (execute be s w).2.backEnd 1).1 with
      | eSuccess =>
        have hr1 : (be.fetch (execute be s w).2.backEnd (toInt 1)).1 = .eSuccess := by
          rw [h1]; exact hr
        rw [fetch_success be (execute be s w).2 1 (by omega) hN1 (by omega) one_pos hr1]
        refine ⟨⟨_, by simp only [h1, List.append_assoc]; rfl, ?_⟩, by simp⟩
        intro k
        simp
      | eNoData =>
        have hr1 : (be.fetch (execute be s w).2.backEnd (toInt 1)).1 = .eNoData := by
          rw [h1]; exact hr
        rw [fetch_noData_single be (execute be s w).2 (by omega) hN1 (by omega) hr1]
        refine ⟨⟨_, by simp only [h1, List.append_assoc]; rfl, ?_⟩, by simp⟩
        intro k
        simp
    · intro hstd o ho
      rcases hcases with h | ⟨r, h⟩
      · rw [h] at ho; exact hall o ho
      · rw [h, map_resize_standard r s.intos hstd] at ho; exact hall o ho
    · intro hw o ho
      rw [hfalse hw (Nat.le_refl 1)] at ho
      exact hall o ho

/-- C22 at concrete statements: with no into object every fetch after `execute`
returns `false`; with one scalar into object the following `fetch` asks the back
end for 1 row and returns what it reports. -/
theorem execute_then_fetch_by_into_count_witness :
    ((execute cursorBackEnd (Statement.init (Cursor.over 3) [] [.standard]) true).2.fetchSize
        = 0 ∧
      (execute cursorBackEnd
        (Statement.init (Cursor.over 3) [] [.standard]) true).2.initialFetchSize = 0 ∧
      ∀ k : Nat, fetch cursorBackEnd
          (Nat.iterate (fun t => (fetch cursorBackEnd t).2) k
            (execute cursorBackEnd (Statement.init (Cursor.over 3) [] [.standard]) true).2)
        = (.ok false,
          (execute cursorBackEnd (Statement.init (Cursor.over 3) [] [.standard]) true).2)) ∧
    ((∃ rest : List Event,
        (fetch cursorBackEnd
          (execute cursorBackEnd
            (Statement.init (Cursor.over 3) [.standard] []) true).2).2.trace
          = (execute cursorBackEnd (Statement.init (Cursor.over 3) [.standard] []) true).2.trace
            ++ [Event.backEndFetch 1] ++ rest ∧
        ∀ k, Event.backEndFetch k ∉ rest) ∧
      (fetch cursorBackEnd
        (execute cursorBackEnd (Statement.init (Cursor.over 3) [.standard] []) true).2).1
        = .ok (decide ((cursorBackEnd.fetch
            (execute cursorBackEnd
              (Statement.init (Cursor.over 3) [.standard] []) true).2.backEnd 1).1
          = .eSuccess))) :=
  ⟨(execute_then_fetch_by_into_count cursorBackEnd
      (Statement.init (Cursor.over 3) [] [.standard]) true).1 rfl,
    ((execute_then_fetch_by_into_count cursorBackEnd
      (Statement.init (Cursor.over 3) [.standard] []) true).2 (by decide) (by decide)).2.2.1
      (by decide)⟩

/-- C22 as stated fails for into vectors of one element, which `execute(true)`
may resize.  With a 3-row use vector over a rowset of 5 rows the into vector is
resized to 3 and the following `fetch` raises the growth error; with a back end
that reports success and 0 rows it is resized to 0 and the following `fetch`
raises "Vectors of size 0 are not allowed.".  In neither case is the back end
asked to fetch. -/
theorem execute_then_fetch_by_into_count_counterexample :
    ((∀ o ∈ [IntoType.vector 1], o.size = 1) ∧
      (execute cursorBackEnd
        (Statement.init (Cursor.over 5) [.vector 1] [.vector 3]) true).1 = .ok true ∧
      (execute cursorBackEnd
        (Statement.init (Cursor.over 5) [.vector 1] [.vector 3]) true).2.fetchSize = 1 ∧
      (execute cursorBackEnd
        (Statement.init (Cursor.over 5) [.vector 1] [.vector 3]) true).2.intos = [.vector 3] ∧
      fetch cursorBackEnd
          (execute cursorBackEnd
            (Statement.init (Cursor.over 5) [.vector 1] [.vector 3]) true).2
        = (.error increasingSizeMsg,
          (execute cursorBackEnd
            (Statement.init (Cursor.over 5) [.vector 1] [.vector 3]) true).2)) ∧
    ((execute (constBackEnd .eSuccess 0) (Statement.init () [.vector 1] []) true).1
        = .ok true ∧
      (execute (constBackEnd .eSuccess 0) (Statement.init () [.vector 1] []) true).2.intos
        = [.vector 0] ∧
      fetch (constBackEnd .eSuccess 0)
          (execute (constBackEnd .eSuccess 0) (Statement.init () [.vector 1] []) true).2
        = (.error zeroSizeMsg,
          (execute (constBackEnd .eSuccess 0) (Statement.init () [.vector 1] []) true).2)) := by
  decide

end SOCI
